import Mathlib

/-!
# trackpadal: bicycle simulator and change-gated telemetry emitter

A shallow embedding of `src/src/BicycleSimulator.jsx` (the tick loop and the
operator controls), of the telemetry effects of `src/src/App.jsx`, of the relay
handlers of `src/api/socket.service.js` and of the connect endpoints of
`src/api/app.js`.

Numbers.  A JavaScript number that the program keeps finite is a rational
(`ℚ`), and there is no negative zero.  The simulator is embedded twice.
`wrapDeg`, `easeInOutCubic`, `tickDt`, `loop` and `SimState.apply` read the
source in exact arithmetic, the decimal literals `0.8` and `0.001` being `4/5`
and `1/1000`.  `wrapDeg64`, `easeInOutCubic64`, `tickDt64`, `loop64` and
`SimState.apply64` read the same lines on IEEE 754 doubles: every operation
returns `toDouble` of its exact result, and a decimal literal is `toDouble` of
its value.  Where the source itself looks at non-finite numbers
(`Number.isFinite`, `Number(psi) || 0`) the value is a `JSNum`, a rational or
one of `NaN`, `+Infinity`, `-Infinity`.

`Math.cos`, `Math.sin`, `Math.PI`, `Math.random()`, `performance.now()` and
`Date.now()` are inputs of the functions that read them, and so are the fate of
a `client.publish` call and the result of `createIntegrator`.
-/

namespace Trackpadal

/-! ## JavaScript numbers -/

/-- A JavaScript number: a finite value, `NaN`, `Infinity` or `-Infinity`. -/
inductive JSNum where
  | fin (q : ℚ)
  | nan
  | posInf
  | negInf
deriving DecidableEq

namespace JSNum

/-- The test `Number.isFinite(v)`. -/
def isFinite : JSNum → Bool
  | fin _ => true
  | _ => false

/-- The expression `v || 0` on a number: `0` and `NaN` are falsy. -/
def orZero : JSNum → JSNum
  | fin q => if q = 0 then fin 0 else fin q
  | nan => fin 0
  | posInf => posInf
  | negInf => negInf

/-- The call `Math.min(a, b)`. -/
def mathMin : JSNum → JSNum → JSNum
  | nan, _ => nan
  | _, nan => nan
  | negInf, _ => negInf
  | _, negInf => negInf
  | posInf, b => b
  | a, posInf => a
  | fin a, fin b => fin (min a b)

/-- The call `Math.max(a, b)`. -/
def mathMax : JSNum → JSNum → JSNum
  | nan, _ => nan
  | _, nan => nan
  | posInf, _ => posInf
  | _, posInf => posInf
  | negInf, b => b
  | a, negInf => a
  | fin a, fin b => fin (max a b)

end JSNum

/-- Truncation toward zero, the integer quotient that `%` uses. -/
def truncQ (q : ℚ) : ℤ :=
  if 0 ≤ q then ⌊q⌋ else ⌈q⌉

/-- The remainder `a % b` of two finite numbers with `b` non-zero: it has the
sign of the dividend `a`. -/
def jsRem (a b : ℚ) : ℚ :=
  a - b * (truncQ (a / b) : ℚ)

/-! ## BicycleSimulator.jsx -/

/-- Source: `function wrapDeg(d) { let x = d % 360; if (x < 0) x += 360; return x; }`,
in exact arithmetic; `wrapDeg64` rounds the sum. -/
def wrapDeg (d : ℚ) : ℚ :=
  let x := jsRem d 360
  if x < 0 then x + 360 else x

/-- Source: `t < 0.5 ? 4 * t * t * t : 1 - Math.pow(-2 * t + 2, 3) / 2`, in exact
arithmetic; `easeInOutCubic64` rounds each operation. -/
def easeInOutCubic (t : ℚ) : ℚ :=
  if t < 1 / 2 then 4 * t * t * t else 1 - (-2 * t + 2) ^ 3 / 2

/-- The parts of `Math` that the tick reads and that have no rational value. -/
structure MathEnv where
  cos : ℚ → ℚ
  sin : ℚ → ℚ
  pi : ℚ

/-- The object in `driftRef`. -/
structure Drift where
  target : ℚ
  t : ℚ
deriving DecidableEq

/-- A position `{ x, y }` in metres. -/
structure Pos where
  x : ℚ
  y : ℚ
deriving DecidableEq

/-- The state of one `BicycleSimulator`: its `useState` cells (each mirrored by
a ref that holds the same value), `lastTickRef` and `driftRef`. -/
structure SimState where
  running : Bool
  speedKmh : ℚ
  torchOn : Bool
  headingDeg : ℚ
  pos : Pos
  batteryLevel : ℚ
  distanceByBatteryKm : ℚ
  tyrePressurePsi : ℚ
  lastTick : ℚ
  drift : Drift
deriving DecidableEq

/-- The state at mount: `autoStart = true`, `initialSpeedKmh`, battery 100,
tyre pressure 85; `now` is the `performance.now()` of the mount. -/
def SimState.initial (initialSpeedKmh now : ℚ) : SimState :=
  { running := true
    speedKmh := initialSpeedKmh
    torchOn := false
    headingDeg := 0
    pos := ⟨0, 0⟩
    batteryLevel := 100
    distanceByBatteryKm := 0
    tyrePressurePsi := 85
    lastTick := now
    drift := ⟨0, 0⟩ }

/-- The elapsed time of a tick: `Math.min(1, (now - lastTickRef.current) / 1000)`. -/
def tickDt (now lastTick : ℚ) : ℚ :=
  min 1 ((now - lastTick) / 1000)

/-- The body of `loop` in exact arithmetic: one tick at time `now` with `rnd`
the value of `Math.random()` drawn for the noise.  `loop64` is the same body
with the rounding of each operation. -/
def loop (env : MathEnv) (now rnd : ℚ) (s : SimState) : SimState :=
  let dt := tickDt now s.lastTick
  let t := min 1 (s.drift.t + dt / 3)
  let drift := s.drift.target * easeInOutCubic t
  let noise := (rnd - 1 / 2) * (4 / 5)
  let currentHeading := s.headingDeg
  let newHeading := wrapDeg (currentHeading + drift * dt + noise * dt)
  let currentSpeedMps := s.speedKmh * 1000 / 3600
  let distance := currentSpeedMps * dt
  let rad := newHeading * env.pi / 180
  let dx := env.cos rad * distance
  let dy := env.sin rad * distance
  let batteryDropPct := distance * (1 / 1000)
  { s with
    lastTick := now
    drift := ⟨s.drift.target, t⟩
    batteryLevel := max 0 (min 100 (s.batteryLevel - batteryDropPct))
    distanceByBatteryKm := s.distanceByBatteryKm + distance / 1000
    headingDeg := newHeading
    pos := ⟨s.pos.x + dx, s.pos.y + dy⟩ }

/-- The control `setTyrePressure(psi)`; `n` is the value of `Number(psi)`,
which is `NaN` for a non-numeric argument:
`Math.max(40, Math.min(120, Number(psi) || 0))`. -/
def setTyrePressureValue (n : JSNum) : JSNum :=
  JSNum.mathMax (JSNum.fin 40) (JSNum.mathMin (JSNum.fin 120) n.orZero)

/-- What happens to a simulator: a timer tick, a button or a control. -/
inductive SimCmd where
  /-- The timer fires `loop` at `performance.now() = now`, noise sample `rnd`. -/
  | tick (now rnd : ℚ)
  /-- The Start/Stop button, pressed at `performance.now() = now`. -/
  | toggleRunning (now : ℚ)
  /-- The speed slider: `setSpeedKmh(Number(e.target.value))`. -/
  | setSpeed (v : ℚ)
  /-- The torch button: `setTorchOn((t) => !t)`. -/
  | toggleTorch
  /-- The control `setTorch(on)`. -/
  | setTorch (flag : Bool)
  /-- The Reset button. -/
  | reset
  /-- The control `resetBattery()` and the `Battery: Reset` button. -/
  | resetBattery
  /-- The `+ Tyre` button: `Math.min(120, p + 2)`. -/
  | tyrePlus
  /-- The `- Tyre` button: `Math.max(40, p - 2)`. -/
  | tyreMinus
  /-- The control `setTyrePressure(psi)` with `n = Number(psi)`. -/
  | setTyrePressure (n : JSNum)
  /-- The 4 s timer `randomizeDrift`, with `rnd` its `Math.random()`. -/
  | randomizeDrift (rnd : ℚ)

/-- One command applied to the simulator state.  The tick timer exists only
while `running`; `setTyrePressure` stores the clamped value, which is finite. -/
def SimState.apply (env : MathEnv) (s : SimState) : SimCmd → SimState
  | .tick now rnd => if s.running then loop env now rnd s else s
  | .toggleRunning now =>
      if s.running then { s with running := false }
      else { s with lastTick := now, running := true }
  | .setSpeed v => { s with speedKmh := v }
  | .toggleTorch => { s with torchOn := !s.torchOn }
  | .setTorch flag => { s with torchOn := flag }
  | .reset => { s with pos := ⟨0, 0⟩, headingDeg := 0 }
  | .resetBattery => { s with batteryLevel := 100, distanceByBatteryKm := 0 }
  | .tyrePlus => { s with tyrePressurePsi := min 120 (s.tyrePressurePsi + 2) }
  | .tyreMinus => { s with tyrePressurePsi := max 40 (s.tyrePressurePsi - 2) }
  | .setTyrePressure n =>
      match setTyrePressureValue n with
      | .fin v => { s with tyrePressurePsi := v }
      | _ => s
  | .randomizeDrift rnd => { s with drift := ⟨rnd * 16 - 8, 0⟩ }

/-- A finite sequence of commands, applied from left to right. -/
def SimState.run (env : MathEnv) (s : SimState) (cmds : List SimCmd) : SimState :=
  cmds.foldl (SimState.apply env) s

/-! ## App.jsx: plan tier -/

/-- The three values of `planTier`. -/
inductive PlanTier where
  | demo
  | basic
  | pro
deriving DecidableEq

/-- The method `s.toLowerCase()`, character by character on the letters `A`
to `Z`.  The only use compares the result with the string `pro`, and no
character outside `A` to `Z` lower-cases to `p`, `r` or `o`. -/
def toLowerCase (s : String) : String :=
  String.mk (s.data.map Char.toLower)

/-- Source: `planPurchased ? ((selectedPlan || "").toLowerCase() === "pro" ?
"pro" : "basic") : "demo"`; `selectedPlan` is `null` or a string. -/
def planTier (selectedPlan : Option String) (planPurchased : Bool) : PlanTier :=
  if planPurchased then
    if toLowerCase (selectedPlan.getD "") = "pro" then PlanTier.pro else PlanTier.basic
  else PlanTier.demo

/-- The object `showByPlan`. -/
structure ShowByPlan where
  gps : Bool
  speed : Bool
  torch : Bool
  battery : Bool
  batteryDistance : Bool
  tyrePressure : Bool
  simulator : Bool
deriving DecidableEq

/-- The object `showByPlan` computed from `planTier`. -/
def showByPlan (t : PlanTier) : ShowByPlan :=
  { gps := decide (t = PlanTier.demo ∨ t = PlanTier.pro ∨ t = PlanTier.basic)
    speed := decide (t = PlanTier.demo ∨ t = PlanTier.pro ∨ t = PlanTier.basic)
    torch := decide (t = PlanTier.demo ∨ t = PlanTier.pro ∨ t = PlanTier.basic)
    battery := decide (t = PlanTier.demo ∨ t = PlanTier.pro)
    batteryDistance := decide (t = PlanTier.demo ∨ t = PlanTier.pro)
    tyrePressure := decide (t = PlanTier.demo ∨ t = PlanTier.pro)
    simulator := decide (t = PlanTier.demo ∨ t = PlanTier.pro ∨ t = PlanTier.basic) }

/-! ## App.jsx: quantization -/

/-- The value of `Number(v.toFixed(digits))` for a finite `v`: `toFixed` takes
the integer `n` with `n / 10^digits` nearest to `|v|`, the larger one on a tie,
and restores the sign.  (From `1e21` on `toFixed` prints the number itself;
every double that large is an integer, which rounding leaves alone.) -/
def toFixedNum (digits : ℕ) (v : ℚ) : ℚ :=
  if 0 ≤ v then ((⌊v * 10 ^ digits + 1 / 2⌋ : ℤ) : ℚ) / 10 ^ digits
  else -(((⌊-v * 10 ^ digits + 1 / 2⌋ : ℤ) : ℚ) / 10 ^ digits)

/-- Source: `Number.isFinite(v) ? Number(v.toFixed(digits)) : null`. -/
def quantize (digits : ℕ) : JSNum → Option ℚ
  | JSNum.fin q => some (toFixedNum digits q)
  | _ => none

/-! ## App.jsx: telemetry effects -/

/-- The snapshot object that the simulator passes to `onTick`. -/
structure SimData where
  x : JSNum
  y : JSNum
  speedKmh : JSNum
  speedMps : JSNum
  headingDeg : JSNum
  torchOn : Bool
  running : Bool
  batteryLevel : JSNum
  distanceByBatteryKm : JSNum
  tyrePressurePsi : JSNum
  timestamp : ℤ
deriving DecidableEq

/-- The object that the simulator passes to `onTick`: the values of its refs
at the call, every number finite; `timestamp` is `Date.now()`. -/
def SimState.snapshot (s : SimState) (timestamp : ℤ) : SimData :=
  { x := JSNum.fin s.pos.x
    y := JSNum.fin s.pos.y
    speedKmh := JSNum.fin s.speedKmh
    speedMps := JSNum.fin (s.speedKmh * 1000 / 3600)
    headingDeg := JSNum.fin s.headingDeg
    torchOn := s.torchOn
    running := s.running
    batteryLevel := JSNum.fin s.batteryLevel
    distanceByBatteryKm := JSNum.fin s.distanceByBatteryKm
    tyrePressurePsi := JSNum.fin s.tyrePressurePsi
    timestamp := timestamp }

/-- The snapshot sent at mount: the initial state with `initialSpeedKmh = 18`. -/
def SimData.atMount : SimData :=
  (SimState.initial 18 0).snapshot 0

/-- The six telemetry channels. -/
inductive Channel where
  | gps
  | speed
  | torch
  | battery
  | batteryDistance
  | tyrePressure
deriving DecidableEq

/-- A call `socketRef.current.emit(name, payload)`; every payload carries the
`Date.now()` of the emission as `timestamp`. -/
inductive Event where
  | bike_gps (x y : ℚ) (timestamp : ℤ)
  | bike_speed (speed : ℚ) (timestamp : ℤ)
  | bike_torch (torchOn : Bool) (timestamp : ℤ)
  | bike_battery (battery : ℚ) (timestamp : ℤ)
  | bike_battery_distance (distanceKm : ℚ) (timestamp : ℤ)
  | bike_tyre_pressure (psi : ℚ) (timestamp : ℤ)
deriving DecidableEq

/-- The channel an event belongs to. -/
def Event.channel : Event → Channel
  | .bike_gps _ _ _ => Channel.gps
  | .bike_speed _ _ => Channel.speed
  | .bike_torch _ _ => Channel.torch
  | .bike_battery _ _ => Channel.battery
  | .bike_battery_distance _ _ => Channel.batteryDistance
  | .bike_tyre_pressure _ _ => Channel.tyrePressure

/-- The events of a list that belong to channel `c`, in order. -/
def onChannel (c : Channel) (evs : List Event) : List Event :=
  evs.filter (fun e => decide (e.channel = c))

/-- The state of `App` that the telemetry effects read and write: whether
`socketRef.current` is set, the plan cells, `simData`, and the six
`prev...Ref` cells.  `prevPosRef` holds the string `x,y`, which determines
the pair of numbers and is determined by it. -/
structure AppState where
  socket : Bool
  selectedPlan : Option String
  planPurchased : Bool
  simData : Option SimData
  prevPos : Option (ℚ × ℚ)
  prevSpeed : Option ℚ
  prevTorch : Option Bool
  prevBattery : Option ℚ
  prevBatteryDist : Option ℚ
  prevTyrePsi : Option ℚ
deriving DecidableEq

/-- The state once `App` has mounted: the socket effect, declared before the
telemetry effects, has set `socketRef.current`; the telemetry effects have run
with `simData = null` and returned at once. -/
def AppState.initial : AppState :=
  { socket := true
    selectedPlan := none
    planPurchased := false
    simData := none
    prevPos := none
    prevSpeed := none
    prevTorch := none
    prevBattery := none
    prevBatteryDist := none
    prevTyrePsi := none }

/-- The `showByPlan` object of a render. -/
def AppState.gates (σ : AppState) : ShowByPlan :=
  showByPlan (planTier σ.selectedPlan σ.planPurchased)

/-- The body of the `bike_gps` effect: the new `prevPosRef` and the events. -/
def gpsEffect (σ : AppState) (clock : ℤ) : Option (ℚ × ℚ) × List Event :=
  match σ.socket, σ.simData with
  | true, some d =>
    match quantize 2 d.x, quantize 2 d.y with
    | some x, some y =>
      if σ.prevPos ≠ some (x, y) then (some (x, y), [Event.bike_gps x y clock])
      else (σ.prevPos, [])
    | _, _ => (σ.prevPos, [])
  | _, _ => (σ.prevPos, [])

/-- The body of the `bike_speed` effect. -/
def speedEffect (σ : AppState) (clock : ℤ) : Option ℚ × List Event :=
  match σ.socket, σ.simData with
  | true, some d =>
    match quantize 1 d.speedKmh with
    | some speed =>
      if σ.prevSpeed ≠ some speed then (some speed, [Event.bike_speed speed clock])
      else (σ.prevSpeed, [])
    | none => (σ.prevSpeed, [])
  | _, _ => (σ.prevSpeed, [])

/-- The body of the `bike_torch` effect. -/
def torchEffect (σ : AppState) (clock : ℤ) : Option Bool × List Event :=
  match σ.socket, σ.simData with
  | true, some d =>
    if σ.gates.torch then
      if σ.prevTorch ≠ some d.torchOn then
        (some d.torchOn, [Event.bike_torch d.torchOn clock])
      else (σ.prevTorch, [])
    else (σ.prevTorch, [])
  | _, _ => (σ.prevTorch, [])

/-- The body of the `bike_battery` effect. -/
def batteryEffect (σ : AppState) (clock : ℤ) : Option ℚ × List Event :=
  match σ.socket, σ.simData with
  | true, some d =>
    if σ.gates.battery then
      match quantize 1 d.batteryLevel with
      | some battery =>
        if σ.prevBattery ≠ some battery then
          (some battery, [Event.bike_battery battery clock])
        else (σ.prevBattery, [])
      | none => (σ.prevBattery, [])
    else (σ.prevBattery, [])
  | _, _ => (σ.prevBattery, [])

/-- The body of the `bike_battery_distance` effect. -/
def batteryDistEffect (σ : AppState) (clock : ℤ) : Option ℚ × List Event :=
  match σ.socket, σ.simData with
  | true, some d =>
    if σ.gates.batteryDistance then
      match quantize 2 d.distanceByBatteryKm with
      | some distKm =>
        if σ.prevBatteryDist ≠ some distKm then
          (some distKm, [Event.bike_battery_distance distKm clock])
        else (σ.prevBatteryDist, [])
      | none => (σ.prevBatteryDist, [])
    else (σ.prevBatteryDist, [])
  | _, _ => (σ.prevBatteryDist, [])

/-- The body of the `bike_tyre_pressure` effect. -/
def tyreEffect (σ : AppState) (clock : ℤ) : Option ℚ × List Event :=
  match σ.socket, σ.simData with
  | true, some d =>
    if σ.gates.tyrePressure then
      match quantize 1 d.tyrePressurePsi with
      | some psi =>
        if σ.prevTyrePsi ≠ some psi then
          (some psi, [Event.bike_tyre_pressure psi clock])
        else (σ.prevTyrePsi, [])
      | none => (σ.prevTyrePsi, [])
    else (σ.prevTyrePsi, [])
  | _, _ => (σ.prevTyrePsi, [])

/-- The dependency array `[simData?.x, simData?.y]`; `none` is `undefined`. -/
def gpsDeps (σ : AppState) : Option JSNum × Option JSNum :=
  (σ.simData.map SimData.x, σ.simData.map SimData.y)

/-- The dependency array `[simData?.speedKmh]`. -/
def speedDeps (σ : AppState) : Option JSNum :=
  σ.simData.map SimData.speedKmh

/-- The dependency array `[simData?.torchOn, showByPlan.torch]`. -/
def torchDeps (σ : AppState) : Option Bool × Bool :=
  (σ.simData.map SimData.torchOn, σ.gates.torch)

/-- The dependency array `[simData?.batteryLevel, showByPlan.battery]`. -/
def batteryDeps (σ : AppState) : Option JSNum × Bool :=
  (σ.simData.map SimData.batteryLevel, σ.gates.battery)

/-- The dependency array `[simData?.distanceByBatteryKm, showByPlan.batteryDistance]`. -/
def batteryDistDeps (σ : AppState) : Option JSNum × Bool :=
  (σ.simData.map SimData.distanceByBatteryKm, σ.gates.batteryDistance)

/-- The dependency array `[simData?.tyrePressurePsi, showByPlan.tyrePressure]`. -/
def tyreDeps (σ : AppState) : Option JSNum × Bool :=
  (σ.simData.map SimData.tyrePressurePsi, σ.gates.tyrePressure)

/-- An effect runs after a render only if its dependency array changed. -/
def whenChanged {δ α : Type} [DecidableEq δ] (before after : δ) (prev : α)
    (body : α × List Event) : α × List Event :=
  if before ≠ after then body else (prev, [])

/-- The commit that follows a render: `old` is the state of the previous
render, `σ` the re-rendered one.  The effects whose dependencies changed run in
the order of their declaration; each one reads the socket, `simData`,
`showByPlan` and its own `prev...Ref`, and writes only that ref.  `clock` is
`Date.now()` during the commit. -/
def commit (old σ : AppState) (clock : ℤ) : AppState × List Event :=
  let g := whenChanged (gpsDeps old) (gpsDeps σ) σ.prevPos (gpsEffect σ clock)
  let s := whenChanged (speedDeps old) (speedDeps σ) σ.prevSpeed (speedEffect σ clock)
  let t := whenChanged (torchDeps old) (torchDeps σ) σ.prevTorch (torchEffect σ clock)
  let b := whenChanged (batteryDeps old) (batteryDeps σ) σ.prevBattery (batteryEffect σ clock)
  let k := whenChanged (batteryDistDeps old) (batteryDistDeps σ) σ.prevBatteryDist
    (batteryDistEffect σ clock)
  let p := whenChanged (tyreDeps old) (tyreDeps σ) σ.prevTyrePsi (tyreEffect σ clock)
  ({ σ with
      prevPos := g.1
      prevSpeed := s.1
      prevTorch := t.1
      prevBattery := b.1
      prevBatteryDist := k.1
      prevTyrePsi := p.1 },
    g.2 ++ s.2 ++ t.2 ++ b.2 ++ k.2 ++ p.2)

/-- What re-renders `App` as far as the telemetry effects can see. -/
inductive AppEvent where
  /-- The simulator calls `onTick(d)`, that is `setSimData(d)`. -/
  | onTick (d : SimData)
  /-- The call `setSelectedPlan(p)`. -/
  | setSelectedPlan (p : String)
  /-- The call `setPlanPurchased(b)`. -/
  | setPlanPurchased (b : Bool)

/-- The state cell that an event sets. -/
def AppState.update (σ : AppState) : AppEvent → AppState
  | .onTick d => { σ with simData := some d }
  | .setSelectedPlan p => { σ with selectedPlan := some p }
  | .setPlanPurchased b => { σ with planPurchased := b }

/-- One event: the state update, the render and its commit. -/
def AppState.step (σ : AppState) (e : AppEvent) (clock : ℤ) : AppState × List Event :=
  commit σ (σ.update e) clock

/-- A sequence of events, each with the `Date.now()` of its commit: the final
state and all emitted events in order. -/
def AppState.run : AppState → List (AppEvent × ℤ) → AppState × List Event
  | σ, [] => (σ, [])
  | σ, (e, clock) :: rest =>
    let r := σ.step e clock
    let q := AppState.run r.1 rest
    (q.1, r.2 ++ q.2)

/-- The states `App` can be in: those reached from the mounted state. -/
def Reachable (σ : AppState) : Prop :=
  ∃ es : List (AppEvent × ℤ), (AppState.initial.run es).1 = σ

/-- The `x,y` key of a `bike_gps` event. -/
def Event.gpsKey : Event → Option (ℚ × ℚ)
  | .bike_gps x y _ => some (x, y)
  | _ => none

/-- The `speed` of a `bike_speed` event. -/
def Event.speedValue : Event → Option ℚ
  | .bike_speed v _ => some v
  | _ => none

/-- The `torchOn` of a `bike_torch` event. -/
def Event.torchValue : Event → Option Bool
  | .bike_torch v _ => some v
  | _ => none

/-- The `battery` of a `bike_battery` event. -/
def Event.batteryValue : Event → Option ℚ
  | .bike_battery v _ => some v
  | _ => none

/-- The `distanceKm` of a `bike_battery_distance` event. -/
def Event.batteryDistValue : Event → Option ℚ
  | .bike_battery_distance v _ => some v
  | _ => none

/-- The `psi` of a `bike_tyre_pressure` event. -/
def Event.tyreValue : Event → Option ℚ
  | .bike_tyre_pressure v _ => some v
  | _ => none

/-- The payload of the most recent event of one channel in a log, if any;
`proj` reads the channel's payload off an event. -/
def lastPayload {α : Type} (proj : Event → Option α) (log : List Event) : Option α :=
  (log.filterMap proj).getLast?

/-- Every channel whose effect may emit is in step with the rendered snapshot:
the socket is set and, for the snapshot on screen, each channel with an open
gate and a finite value has that value, quantized, in its `prev...Ref`. -/
def Synced (σ : AppState) : Prop :=
  σ.socket = true ∧ ∀ d, σ.simData = some d →
    (∀ x y, quantize 2 d.x = some x → quantize 2 d.y = some y → σ.prevPos = some (x, y)) ∧
    (∀ v, quantize 1 d.speedKmh = some v → σ.prevSpeed = some v) ∧
    (σ.gates.torch = true → σ.prevTorch = some d.torchOn) ∧
    (σ.gates.battery = true →
      ∀ v, quantize 1 d.batteryLevel = some v → σ.prevBattery = some v) ∧
    (σ.gates.batteryDistance = true →
      ∀ v, quantize 2 d.distanceByBatteryKm = some v → σ.prevBatteryDist = some v) ∧
    (σ.gates.tyrePressure = true →
      ∀ v, quantize 1 d.tyrePressurePsi = some v → σ.prevTyrePsi = some v)

/-- The payload of an event is the quantized value of snapshot `d`: two
decimals for each gps axis and for the battery distance, one decimal for
speed, battery and tyre pressure, the boolean itself for the torch. -/
def Event.QuantizedFrom (d : SimData) : Event → Prop
  | .bike_gps x y _ => quantize 2 d.x = some x ∧ quantize 2 d.y = some y
  | .bike_speed v _ => quantize 1 d.speedKmh = some v
  | .bike_torch b _ => b = d.torchOn
  | .bike_battery v _ => quantize 1 d.batteryLevel = some v
  | .bike_battery_distance v _ => quantize 2 d.distanceByBatteryKm = some v
  | .bike_tyre_pressure v _ => quantize 1 d.tyrePressurePsi = some v

/-! ## Simulator: assumptions on the inputs of a run -/

/-- The `performance.now()` reading a command carries, if it reads the clock. -/
def SimCmd.clockReading : SimCmd → Option ℚ
  | .tick now _ => some now
  | .toggleRunning now => some now
  | _ => none

/-- The clock never runs backwards: the successive `performance.now()`
readings of the commands are non-decreasing, starting from reading `t`. -/
def ClockMonotone : ℚ → List SimCmd → Prop
  | _, [] => True
  | t, c :: cs =>
    match c.clockReading with
    | some u => t ≤ u ∧ ClockMonotone u cs
    | none => ClockMonotone t cs

/-- Every speed the operator sets is non-negative (the slider runs from 0 to 50). -/
def SpeedsNonneg (cmds : List SimCmd) : Prop :=
  ∀ v, SimCmd.setSpeed v ∈ cmds → 0 ≤ v

/-- No battery reset among the commands. -/
def NoBatteryReset (cmds : List SimCmd) : Prop :=
  SimCmd.resetBattery ∉ cmds

/-- A `MathEnv` for the examples: heading ignored, straight along `x`. -/
def MathEnv.straight : MathEnv :=
  { cos := fun _ => 1
    sin := fun _ => 0
    pi := 355 / 113 }

/-! ## socket.service.js: the relay -/

/-- The `timestamp` field of an event's payload. -/
def Event.timestamp : Event → ℤ
  | .bike_gps _ _ t => t
  | .bike_speed _ t => t
  | .bike_torch _ t => t
  | .bike_battery _ t => t
  | .bike_battery_distance _ t => t
  | .bike_tyre_pressure _ t => t

/-- The Socket.IO event name: the first argument of `socketRef.current.emit`
in `App.jsx` and of `socket.on` in the relay. -/
def Event.transportName : Event → String
  | .bike_gps _ _ _ => "bike_gps"
  | .bike_speed _ _ => "bike_speed"
  | .bike_torch _ _ => "bike_torch"
  | .bike_battery _ _ => "bike_battery"
  | .bike_battery_distance _ _ => "bike_battery_distance"
  | .bike_tyre_pressure _ _ => "bike_tyre_pressure"

/-- The name the handler of an event passes to `client.publish`: the constants
`gpsEventName`, `speedEventName`, `torchEventName`, `batteryEventName`,
`batteryDistanceEventName` and `tyrePressureEventName` of `initSocket`. -/
def Event.busName : Event → String
  | .bike_gps _ _ _ => "trackpedal/gps"
  | .bike_speed _ _ => "trackpedal/speed"
  | .bike_torch _ _ => "trackpedal/torch"
  | .bike_battery _ _ => "trackpedal/battery"
  | .bike_battery_distance _ _ => "trackpedal/battery_distance"
  | .bike_tyre_pressure _ _ => "trackpedal/tyre_pressure"

/-- Source: `const receiversId = [process.env.RECEIVER_IDENTIFICATION_NUMBER]`;
the variable is `undefined` (`none`) when it is not configured. -/
def receiversAtStartup (configured : Option String) : List (Option String) :=
  [configured]

/-- One call `client.publish(eventName, receiversId, payload)`; the payload
object is rebuilt from the destructured fields of the inbound one, so it is
an event of the same shape. -/
structure PublishCall where
  eventName : String
  receivers : List (Option String)
  payload : Event
deriving DecidableEq

/-- How an `async` handler ends: it returns, or it throws (its promise rejects). -/
inductive Outcome where
  | completed
  | threw
deriving DecidableEq

/-- What one run of a handler did: the publish calls it made, whether its
`catch` block ran (`console.log(error)`), and how it ended. -/
structure Handled where
  calls : List PublishCall
  caught : Bool
  outcome : Outcome
deriving DecidableEq

/-- Whether `new Date(t).toISOString()` returns: it throws a `RangeError` when
`t` is outside the range of time values, 8.64e15 ms either side of the epoch. -/
def validTime (t : ℤ) : Bool :=
  decide (-8640000000000000 ≤ t ∧ t ≤ 8640000000000000)

/-- A handler of the six telemetry events.  It logs the event with
`new Date(timestamp).toISOString()`, outside the `try`; then, inside the `try`,
if `receiversId.length > 0` it awaits one `client.publish`, and the `catch`
logs a failure.  `publishOk` says whether that publish resolves. -/
def handleTelemetry (receiversId : List (Option String)) (publishOk : Bool) (e : Event) :
    Handled :=
  if validTime e.timestamp then
    if 0 < receiversId.length then
      { calls := [⟨e.busName, receiversId, e⟩], caught := !publishOk, outcome := Outcome.completed }
    else
      { calls := [], caught := false, outcome := Outcome.completed }
  else
    { calls := [], caught := false, outcome := Outcome.threw }

/-- A message arriving on a connection.  For the events that are only logged
the payload is reduced to its `timestamp`, `none` when it is missing or not a
number; the other fields are printed as they are. -/
inductive Inbound where
  | telemetry (e : Event)
  | bike_data (timestamp : Option ℤ)
  | plan_selected (timestamp : Option ℤ)
  | plan_purchased (timestamp : Option ℤ)

/-- A handler that only logs: it throws if the timestamp cannot be printed. -/
def handleLogOnly (timestamp : Option ℤ) : Handled :=
  match timestamp with
  | some t =>
    if validTime t then { calls := [], caught := false, outcome := Outcome.completed }
    else { calls := [], caught := false, outcome := Outcome.threw }
  | none => { calls := [], caught := false, outcome := Outcome.threw }

/-- The handler that `io.on("connection", ...)` registers for a message. -/
def handle (receiversId : List (Option String)) (publishOk : Bool) : Inbound → Handled
  | .telemetry e => handleTelemetry receiversId publishOk e
  | .bike_data t => handleLogOnly t
  | .plan_selected t => handleLogOnly t
  | .plan_purchased t => handleLogOnly t

/-- The relay over a sequence of messages, each with the fate of its publish:
the handlers share only `receiversId` and the client, so each message is
handled on its own. -/
def relayRun (receiversId : List (Option String)) (msgs : List (Inbound × Bool)) :
    List Handled :=
  msgs.map (fun m => handle receiversId m.2 m.1)

/-! ## app.js: the session cache -/

/-- The two connect endpoints. -/
inductive Plan where
  | basic
  | pro
deriving DecidableEq

/-- The `Map` named `sessions`: the latest entry of a key comes first; a
value is a URL or `undefined` (`none`). -/
abbrev Sessions := List (String × Option String)

/-- The call `sessions.has(session)`. -/
def Sessions.has (m : Sessions) (session : String) : Bool :=
  (m.lookup session).isSome

/-- The call `sessions.get(session)`: `undefined` for a missing key too. -/
def Sessions.get (m : Sessions) (session : String) : Option String :=
  (m.lookup session).join

/-- The call `sessions.set(session, value)`. -/
def Sessions.set (m : Sessions) (session : String) (value : Option String) : Sessions :=
  (session, value) :: m

/-- The default session name of an endpoint. -/
def Plan.dummySession : Plan → String
  | .basic => "dummy-basic"
  | .pro => "dummy-pro"

/-- Source: `req.query.session || "dummy-..."`; a missing or empty parameter
is falsy. -/
def sessionOf (plan : Plan) (query : Option String) : String :=
  match query with
  | some s => if s = "" then plan.dummySession else s
  | none => plan.dummySession

/-- What one request did: the cache afterwards, the `url` of the JSON
response, and the calls of `createIntegrator` it made. -/
structure Connected where
  sessions : Sessions
  url : Option String
  created : List (Plan × String)

/-- A connect endpoint.  `result` is what `createIntegrator(plan, session)`
returns if it is called now: the URL, or `undefined` (`none`) when the request
to the integration API fails, since its `catch` block only logs. -/
def connect (plan : Plan) (query : Option String) (result : Option String) (m : Sessions) :
    Connected :=
  let session := sessionOf plan query
  if m.has session then
    { sessions := m, url := m.get session, created := [] }
  else
    { sessions := m.set session result
      url := (m.set session result).get session
      created := [(plan, session)] }

/-! ## Simulator: quantities of one tick and of a run -/

/-- The heading change of a tick before wrapping, `drift * dt + noise * dt`,
with the names of `loop`. -/
def headingChange (now rnd : ℚ) (s : SimState) : ℚ :=
  let dt := tickDt now s.lastTick
  let t := min 1 (s.drift.t + dt / 3)
  let drift := s.drift.target * easeInOutCubic t
  let noise := (rnd - 1 / 2) * (4 / 5)
  drift * dt + noise * dt

/-- No drift resample among the commands. -/
def NoDriftResample (cmds : List SimCmd) : Prop :=
  ∀ r, SimCmd.randomizeDrift r ∉ cmds

/-! ## app.js: a sequence of requests -/

/-- One request to a connect endpoint: the endpoint, the `session` query
parameter, and what `createIntegrator` returns if this request calls it. -/
structure Request where
  plan : Plan
  query : Option String
  result : Option String

/-- The session a request is for. -/
def Request.session (r : Request) : String :=
  sessionOf r.plan r.query

/-- The endpoint serving one request. -/
def serve (m : Sessions) (r : Request) : Connected :=
  connect r.plan r.query r.result m

/-- Requests served one after the other: the final cache and the responses. -/
def serveAll : Sessions → List Request → Sessions × List Connected
  | m, [] => (m, [])
  | m, r :: rs =>
    let c := serve m r
    let q := serveAll c.sessions rs
    (q.1, c :: q.2)

/-! ## IEEE 754 doubles

The program computes on doubles: every `+`, `-`, `*` and `/` returns the double
nearest to the exact result, a tie going to the even significand.  `wrapDeg`,
`easeInOutCubic`, `tickDt` and `loop` above are the exact reading of their
source lines; `wrapDeg64`, `easeInOutCubic64`, `tickDt64` and `loop64` below
are the same lines with the rounding of each operation, and the properties that
depend on rounding are stated on them.  `%`, `Math.min`, `Math.max` and the
comparisons are exact on doubles.  Numbers beyond the largest double (about
1.8e308), where the program would get `Infinity`, are outside this model.
-/

/-- Rounding to the nearest integer, a tie going to the even one. -/
def roundHalfEven (q : ℚ) : ℤ :=
  if q - ⌊q⌋ < 1 / 2 then ⌊q⌋
  else if 1 / 2 < q - ⌊q⌋ then ⌊q⌋ + 1
  else if ⌊q⌋ % 2 = 0 then ⌊q⌋ else ⌊q⌋ + 1

/-- The binary exponent of the doubles around `x`: `⌊log₂ |x|⌋`, and `-1022`
throughout the subnormal range, zero included. -/
def binade (x : ℚ) : ℤ :=
  if x = 0 then -1022 else max (Int.log 2 |x|) (-1022)

/-- The spacing of the doubles around `x`: 52 fraction bits below the exponent. -/
def ulp (x : ℚ) : ℚ :=
  (2 : ℚ) ^ (binade x - 52)

/-- The double nearest to `x` (round to nearest, ties to even): the result of
an arithmetic operation whose exact value is `x`, and the value of a decimal
literal `x`. -/
def toDouble (x : ℚ) : ℚ :=
  (roundHalfEven (x / ulp x) : ℚ) * ulp x

/-- On doubles: `let x = d % 360; if (x < 0) x += 360; return x;`.  The
remainder is exact, the sum `x + 360` is rounded. -/
def wrapDeg64 (d : ℚ) : ℚ :=
  let x := jsRem d 360
  if x < 0 then toDouble (x + 360) else x

/-- The functions of `Math` whose results the language leaves to the
implementation: `Math.cos`, `Math.sin`, and `Math.pow(x, 3)` as `pow3 x`. -/
structure Math64 where
  cos : ℚ → ℚ
  sin : ℚ → ℚ
  pow3 : ℚ → ℚ

/-- The constant `Math.PI`, the double nearest to π. -/
def pi64 : ℚ :=
  884279719003555 / 281474976710656

/-- On doubles: `t < 0.5 ? 4 * t * t * t : 1 - Math.pow(-2 * t + 2, 3) / 2`. -/
def easeInOutCubic64 (m : Math64) (t : ℚ) : ℚ :=
  if t < 1 / 2 then toDouble (toDouble (toDouble (4 * t) * t) * t)
  else toDouble (1 - toDouble (m.pow3 (toDouble (toDouble (-2 * t) + 2)) / 2))

/-- On doubles: `Math.min(1, (now - lastTickRef.current) / 1000)`. -/
def tickDt64 (now lastTick : ℚ) : ℚ :=
  min 1 (toDouble (toDouble (now - lastTick) / 1000))

/-- The body of `loop` on doubles: one tick at `performance.now() = now`, with
`rnd` the value of `Math.random()` drawn for the noise. -/
def loop64 (m : Math64) (now rnd : ℚ) (s : SimState) : SimState :=
  let dt := tickDt64 now s.lastTick
  let t := min 1 (toDouble (s.drift.t + toDouble (dt / 3)))
  let drift := toDouble (s.drift.target * easeInOutCubic64 m t)
  let noise := toDouble (toDouble (rnd - 1 / 2) * toDouble (4 / 5))
  let currentHeading := s.headingDeg
  let newHeading :=
    wrapDeg64 (toDouble (toDouble (currentHeading + toDouble (drift * dt)) + toDouble (noise * dt)))
  let currentSpeedMps := toDouble (toDouble (s.speedKmh * 1000) / 3600)
  let distance := toDouble (currentSpeedMps * dt)
  let rad := toDouble (toDouble (newHeading * pi64) / 180)
  let dx := toDouble (m.cos rad * distance)
  let dy := toDouble (m.sin rad * distance)
  let batteryDropPct := toDouble (distance * toDouble (1 / 1000))
  { s with
    lastTick := now
    drift := ⟨s.drift.target, t⟩
    batteryLevel := max 0 (min 100 (toDouble (s.batteryLevel - batteryDropPct)))
    distanceByBatteryKm := toDouble (s.distanceByBatteryKm + toDouble (distance / 1000))
    headingDeg := newHeading
    pos := ⟨toDouble (s.pos.x + dx), toDouble (s.pos.y + dy)⟩ }

/-- One command applied to the simulator state, on doubles: `SimState.apply`
with `loop64` for the tick and the rounding of `p + 2`, `p - 2` and
`Math.random() * 16 - 8`. -/
def SimState.apply64 (m : Math64) (s : SimState) : SimCmd → SimState
  | .tick now rnd => if s.running then loop64 m now rnd s else s
  | .toggleRunning now =>
      if s.running then { s with running := false }
      else { s with lastTick := now, running := true }
  | .setSpeed v => { s with speedKmh := v }
  | .toggleTorch => { s with torchOn := !s.torchOn }
  | .setTorch flag => { s with torchOn := flag }
  | .reset => { s with pos := ⟨0, 0⟩, headingDeg := 0 }
  | .resetBattery => { s with batteryLevel := 100, distanceByBatteryKm := 0 }
  | .tyrePlus => { s with tyrePressurePsi := min 120 (toDouble (s.tyrePressurePsi + 2)) }
  | .tyreMinus => { s with tyrePressurePsi := max 40 (toDouble (s.tyrePressurePsi - 2)) }
  | .setTyrePressure n =>
      match setTyrePressureValue n with
      | .fin v => { s with tyrePressurePsi := v }
      | _ => s
  | .randomizeDrift rnd => { s with drift := ⟨toDouble (toDouble (rnd * 16) - 8), 0⟩ }

/-- A finite sequence of commands on doubles, applied from left to right. -/
def SimState.run64 (m : Math64) (s : SimState) (cmds : List SimCmd) : SimState :=
  cmds.foldl (SimState.apply64 m) s

/-- The metres a tick covers, `distance` in `loop`, on doubles. -/
def tickMetres64 (now : ℚ) (s : SimState) : ℚ :=
  toDouble (toDouble (toDouble (s.speedKmh * 1000) / 3600) * tickDt64 now s.lastTick)

/-- The number of ticks that run when `cmds` are applied from `s`. -/
def tickCount64 (m : Math64) : SimState → List SimCmd → ℕ
  | _, [] => 0
  | s, c :: cs =>
    (match c with
      | .tick _ _ => if s.running then 1 else 0
      | _ => 0) + tickCount64 m (s.apply64 m c) cs

/-- The total `dt` of the ticks that run when `cmds` are applied from `s`,
on doubles. -/
def elapsedDt64 (m : Math64) : SimState → List SimCmd → ℚ
  | _, [] => 0
  | s, c :: cs =>
    (match c with
      | .tick now _ => if s.running then tickDt64 now s.lastTick else 0
      | _ => 0) + elapsedDt64 m (s.apply64 m c) cs

/-- A `Math64` for the examples: heading ignored, straight along `x`, and
`Math.pow(x, 3)` correctly rounded. -/
def Math64.straight : Math64 :=
  { cos := fun _ => 1
    sin := fun _ => 0
    pow3 := fun x => toDouble (x ^ 3) }

/-- What a run on doubles keeps true of the speed, the battery level and the
distance on the battery: the speed is in `[0, 360]` km/h, the level is a double
in `[0, 100]`, the distance a non-negative double. -/
def BatteryInv (s : SimState) : Prop :=
  (0 ≤ s.speedKmh ∧ s.speedKmh ≤ 360) ∧
  (0 ≤ s.batteryLevel ∧ s.batteryLevel ≤ 100 ∧ toDouble s.batteryLevel = s.batteryLevel) ∧
  (0 ≤ s.distanceByBatteryKm ∧ toDouble s.distanceByBatteryKm = s.distanceByBatteryKm)

/-- Every speed in use is between 0 and 360 km/h (the slider runs from 0 to 50). -/
def SpeedsWithin (cmds : List SimCmd) : Prop :=
  ∀ v, SimCmd.setSpeed v ∈ cmds → 0 ≤ v ∧ v ≤ 360

/-! ## Sample states and snapshots -/

/-- The state after the first snapshot, the one sent at mount. -/
def AppState.mounted : AppState :=
  (AppState.initial.run [(AppEvent.onTick SimData.atMount, 0)]).1

/-- The mount snapshot moved by a millimetre in `x` and by 0.01 km/h. -/
def SimData.nudged : SimData :=
  { SimData.atMount with x := JSNum.fin (1 / 1000), speedKmh := JSNum.fin (1801 / 100) }

/-- The mount snapshot with a `NaN` position, speed, battery, distance and
tyre pressure. -/
def SimData.broken : SimData :=
  { SimData.atMount with
    x := JSNum.nan
    speedKmh := JSNum.nan
    batteryLevel := JSNum.posInf
    distanceByBatteryKm := JSNum.nan
    tyrePressurePsi := JSNum.negInf }

/-- The mount snapshot moved by one centimetre in `x`. -/
def SimData.moved : SimData :=
  { SimData.atMount with x := JSNum.fin (1 / 100) }

/-- The state after choosing and purchasing the Pro plan, before any snapshot. -/
def AppState.proPlan : AppState :=
  (AppState.initial.run
    [(AppEvent.setSelectedPlan "Pro", 0), (AppEvent.setPlanPurchased true, 0)]).1

/-- The state after choosing and purchasing the Basic plan, before any snapshot. -/
def AppState.basicPlan : AppState :=
  (AppState.initial.run
    [(AppEvent.setSelectedPlan "Basic", 0), (AppEvent.setPlanPurchased true, 0)]).1

/-! ## Theorems: simulator -/

theorem jsRem_360_bounds (d : ℚ) :
    (0 ≤ d → 0 ≤ jsRem d 360 ∧ jsRem d 360 < 360) ∧
    (d < 0 → -360 < jsRem d 360 ∧ jsRem d 360 ≤ 0) := by
  unfold jsRem truncQ
  constructor
  · intro h
    have h0 : (0 : ℚ) ≤ d / 360 := by positivity
    rw [if_pos h0]
    have h1 := Int.floor_le (d / 360)
    have h2 := Int.lt_floor_add_one (d / 360)
    constructor
    · linarith
    · linarith
  · intro h
    have h0 : ¬ (0 : ℚ) ≤ d / 360 := by
      rw [not_le]
      exact div_neg_of_neg_of_pos h (by norm_num)
    rw [if_neg h0]
    have h1 := Int.le_ceil (d / 360)
    have h2 := Int.ceil_lt_add_one (d / 360)
    constructor
    · linarith
    · linarith

theorem run_invariant (env : MathEnv) (P : SimState → Prop)
    (hstep : ∀ s c, P s → P (s.apply env c)) (s : SimState) (hs : P s)
    (cmds : List SimCmd) : P (s.run env cmds) := by
  induction cmds generalizing s with
  | nil => exact hs
  | cons c cs ih => exact ih (s.apply env c) (hstep s c hs)

theorem setTyrePressureValue_fin (n : JSNum) :
    ∃ v : ℚ, setTyrePressureValue n = JSNum.fin v ∧ 40 ≤ v ∧ v ≤ 120 := by
  cases n with
  | fin q =>
    by_cases hq : q = 0
    · subst hq
      exact ⟨max 40 (min 120 0), by simp [setTyrePressureValue, JSNum.orZero, JSNum.mathMin,
        JSNum.mathMax], le_max_left _ _, max_le (by norm_num) (min_le_left _ _)⟩
    · exact ⟨max 40 (min 120 q), by simp [setTyrePressureValue, JSNum.orZero, JSNum.mathMin,
        JSNum.mathMax, hq], le_max_left _ _, max_le (by norm_num) (min_le_left _ _)⟩
  | nan => exact ⟨40, by decide, le_refl _, by norm_num⟩
  | posInf => exact ⟨120, by decide, by norm_num, le_refl _⟩
  | negInf => exact ⟨40, by decide, le_refl _, by norm_num⟩

theorem apply_battery_bounds (env : MathEnv) (s : SimState) (c : SimCmd)
    (h : 0 ≤ s.batteryLevel ∧ s.batteryLevel ≤ 100) :
    0 ≤ (s.apply env c).batteryLevel ∧ (s.apply env c).batteryLevel ≤ 100 := by
  cases c with
  | tick now rnd =>
    simp only [SimState.apply]
    split_ifs
    · exact ⟨le_max_left _ _, max_le (by norm_num) (min_le_left _ _)⟩
    · exact h
  | toggleRunning now =>
    simp only [SimState.apply]
    split_ifs <;> exact h
  | setTyrePressure n =>
    simp only [SimState.apply]
    split <;> exact h
  | resetBattery => exact ⟨by norm_num [SimState.apply], by norm_num [SimState.apply]⟩
  | _ => exact h

theorem apply_tyre_bounds (env : MathEnv) (s : SimState) (c : SimCmd)
    (h : 40 ≤ s.tyrePressurePsi ∧ s.tyrePressurePsi ≤ 120) :
    40 ≤ (s.apply env c).tyrePressurePsi ∧ (s.apply env c).tyrePressurePsi ≤ 120 := by
  cases c with
  | tick now rnd =>
    simp only [SimState.apply]
    split_ifs <;> exact h
  | toggleRunning now =>
    simp only [SimState.apply]
    split_ifs <;> exact h
  | setTyrePressure n =>
    obtain ⟨v, hv, h1, h2⟩ := setTyrePressureValue_fin n
    simp only [SimState.apply, hv]
    exact ⟨h1, h2⟩
  | tyrePlus =>
    simp only [SimState.apply]
    exact ⟨le_min (by norm_num) (by linarith [h.1]), min_le_left _ _⟩
  | tyreMinus =>
    simp only [SimState.apply]
    exact ⟨le_max_left _ _, max_le (by norm_num) (by linarith [h.2])⟩
  | _ => exact h

/-- C2: from the initial battery level 100, after any finite sequence of ticks
(any speed, any `now`, hence any `dt`) and operator commands, `batteryLevel`
is in `[0, 100]`. -/
theorem battery_level_bounds (env : MathEnv) (initialSpeedKmh now : ℚ) (cmds : List SimCmd) :
    0 ≤ ((SimState.initial initialSpeedKmh now).run env cmds).batteryLevel ∧
    ((SimState.initial initialSpeedKmh now).run env cmds).batteryLevel ≤ 100 :=
  run_invariant env (fun s => 0 ≤ s.batteryLevel ∧ s.batteryLevel ≤ 100)
    (apply_battery_bounds env) _ (by norm_num [SimState.initial]) cmds

/-- C3: from the initial tyre pressure 85, after any finite sequence of ticks
and operator commands (`+ Tyre`, `- Tyre`, and `setTyrePressure` with any
argument, whose stored value is always a finite number in `[40, 120]`),
`tyrePressurePsi` is in `[40, 120]`. -/
theorem tyre_pressure_bounds (env : MathEnv) (initialSpeedKmh now : ℚ) (cmds : List SimCmd) :
    (∀ n : JSNum, ∃ v : ℚ, setTyrePressureValue n = JSNum.fin v ∧ 40 ≤ v ∧ v ≤ 120) ∧
    40 ≤ ((SimState.initial initialSpeedKmh now).run env cmds).tyrePressurePsi ∧
    ((SimState.initial initialSpeedKmh now).run env cmds).tyrePressurePsi ≤ 120 :=
  ⟨setTyrePressureValue_fin,
    run_invariant env (fun s => 40 ≤ s.tyrePressurePsi ∧ s.tyrePressurePsi ≤ 120)
      (apply_tyre_bounds env) (SimState.initial initialSpeedKmh now)
      (by norm_num [SimState.initial]) cmds⟩

/-! ## Theorems: quantization -/

theorem toFixedNum_scaled (n : ℕ) (v : ℚ) :
    ∃ k : ℤ, toFixedNum n v = (k : ℚ) / 10 ^ n ∧
      (0 ≤ v → v * 10 ^ n - 1 / 2 < k ∧ (k : ℚ) ≤ v * 10 ^ n + 1 / 2) ∧
      (v < 0 → v * 10 ^ n - 1 / 2 ≤ k ∧ (k : ℚ) < v * 10 ^ n + 1 / 2) := by
  by_cases hv : 0 ≤ v
  · refine ⟨⌊v * 10 ^ n + 1 / 2⌋, by simp [toFixedNum, hv], fun _ => ?_, fun h => ?_⟩
    · have h1 := Int.floor_le (v * 10 ^ n + 1 / 2)
      have h2 := Int.lt_floor_add_one (v * 10 ^ n + 1 / 2)
      constructor <;> linarith
    · exact absurd hv (not_le.mpr h)
  · refine ⟨-⌊-v * 10 ^ n + 1 / 2⌋, ?_, fun h => absurd h hv, fun _ => ?_⟩
    · simp only [toFixedNum, if_neg hv]
      push_cast
      ring
    · have h1 := Int.floor_le (-v * 10 ^ n + 1 / 2)
      have h2 := Int.lt_floor_add_one (-v * 10 ^ n + 1 / 2)
      push_cast
      constructor <;> linarith

theorem toFixedNum_near (n : ℕ) (v : ℚ) :
    |toFixedNum n v - v| ≤ 1 / (2 * 10 ^ n) := by
  obtain ⟨k, hk, hpos, hneg⟩ := toFixedNum_scaled n v
  have hP : (0 : ℚ) < 10 ^ n := by positivity
  have hb : v * 10 ^ n - 1 / 2 ≤ k ∧ (k : ℚ) ≤ v * 10 ^ n + 1 / 2 := by
    rcases le_or_lt 0 v with h | h
    · exact ⟨le_of_lt (hpos h).1, (hpos h).2⟩
    · exact ⟨(hneg h).1, le_of_lt (hneg h).2⟩
  have e1 : toFixedNum n v - v = ((k : ℚ) - v * 10 ^ n) / 10 ^ n := by
    rw [hk]
    field_simp
    ring
  have e2 : (1 : ℚ) / (2 * 10 ^ n) = (1 / 2) / 10 ^ n := by
    field_simp
  rw [e1, e2, abs_div, abs_of_pos hP]
  apply div_le_div_of_nonneg_right _ (le_of_lt hP)
  rw [abs_le]
  constructor <;> linarith [hb.1, hb.2]

theorem toFixedNum_lt_of_step (n : ℕ) (v w : ℚ) (h : v + 1 / 10 ^ n ≤ w) :
    toFixedNum n v < toFixedNum n w := by
  obtain ⟨k, hk, hkpos, hkneg⟩ := toFixedNum_scaled n v
  obtain ⟨m, hm, hmpos, hmneg⟩ := toFixedNum_scaled n w
  have hP : (0 : ℚ) < 10 ^ n := by positivity
  have hstep : v * 10 ^ n + 1 ≤ w * 10 ^ n := by
    have := mul_le_mul_of_nonneg_right h (le_of_lt hP)
    rw [add_mul, one_div, inv_mul_cancel₀ (ne_of_gt hP)] at this
    exact this
  have hvw : v < w := by
    have : (0 : ℚ) < 1 / 10 ^ n := by positivity
    linarith
  have hkm : (k : ℚ) < m := by
    rcases le_or_lt 0 v with hv | hv
    · have hw : 0 ≤ w := le_trans hv (le_of_lt hvw)
      linarith [(hkpos hv).2, (hmpos hw).1]
    · rcases le_or_lt 0 w with hw | hw
      · linarith [(hkneg hv).2, (hmpos hw).1]
      · linarith [(hkneg hv).2, (hmneg hw).1]
  rw [hk, hm]
  exact div_lt_div_of_pos_right hkm hP

theorem toFixedNum_ne_of_far (n : ℕ) (v w : ℚ) (h : 1 / 10 ^ n ≤ |w - v|) :
    toFixedNum n w ≠ toFixedNum n v := by
  rcases le_abs.mp h with h1 | h1
  · exact ne_of_gt (toFixedNum_lt_of_step n v w (by linarith))
  · exact ne_of_lt (toFixedNum_lt_of_step n w v (by linarith))

theorem toFixedNum_of_nonneg (n : ℕ) (v : ℚ) (k : ℤ) (hv : 0 ≤ v)
    (h1 : (k : ℚ) - 1 / 2 ≤ v * 10 ^ n) (h2 : v * 10 ^ n < (k : ℚ) + 1 / 2) :
    toFixedNum n v = (k : ℚ) / 10 ^ n := by
  have hf : ⌊v * 10 ^ n + 1 / 2⌋ = k := by
    rw [Int.floor_eq_iff]
    constructor <;> linarith
  simp only [toFixedNum, if_pos hv, hf]

theorem toFixedNum_of_neg (n : ℕ) (v : ℚ) (k : ℤ) (hv : v < 0)
    (h1 : (k : ℚ) - 1 / 2 ≤ -v * 10 ^ n) (h2 : -v * 10 ^ n < (k : ℚ) + 1 / 2) :
    toFixedNum n v = -((k : ℚ) / 10 ^ n) := by
  have hf : ⌊-v * 10 ^ n + 1 / 2⌋ = k := by
    rw [Int.floor_eq_iff]
    constructor <;> linarith
  simp only [toFixedNum, if_neg (not_le.mpr hv), hf]

/-! ## Theorems: which channel an effect emits on -/

theorem onChannel_append (c : Channel) (l₁ l₂ : List Event) :
    onChannel c (l₁ ++ l₂) = onChannel c l₁ ++ onChannel c l₂ := by
  simp [onChannel]

theorem onChannel_eq_self {c : Channel} {l : List Event} (h : ∀ e ∈ l, e.channel = c) :
    onChannel c l = l := by
  unfold onChannel
  rw [List.filter_eq_self]
  intro e he
  simp [h e he]

theorem onChannel_eq_nil {c k : Channel} {l : List Event} (h : ∀ e ∈ l, e.channel = k)
    (hne : k ≠ c) : onChannel c l = [] := by
  unfold onChannel
  rw [List.filter_eq_nil_iff]
  intro e he
  simp [h e he, hne]

theorem gps_events_channel (a b : Option JSNum × Option JSNum) (σ : AppState) (clock : ℤ) :
    ∀ e ∈ (whenChanged a b σ.prevPos (gpsEffect σ clock)).2, e.channel = Channel.gps := by
  intro e he
  unfold whenChanged gpsEffect at he
  (repeat' split at he) <;> simp_all [Event.channel]

theorem speed_events_channel (a b : Option JSNum) (σ : AppState) (clock : ℤ) :
    ∀ e ∈ (whenChanged a b σ.prevSpeed (speedEffect σ clock)).2, e.channel = Channel.speed := by
  intro e he
  unfold whenChanged speedEffect at he
  (repeat' split at he) <;> simp_all [Event.channel]

theorem torch_events_channel (a b : Option Bool × Bool) (σ : AppState) (clock : ℤ) :
    ∀ e ∈ (whenChanged a b σ.prevTorch (torchEffect σ clock)).2, e.channel = Channel.torch := by
  intro e he
  unfold whenChanged torchEffect at he
  (repeat' split at he) <;> simp_all [Event.channel]

theorem battery_events_channel (a b : Option JSNum × Bool) (σ : AppState) (clock : ℤ) :
    ∀ e ∈ (whenChanged a b σ.prevBattery (batteryEffect σ clock)).2, e.channel = Channel.battery := by
  intro e he
  unfold whenChanged batteryEffect at he
  (repeat' split at he) <;> simp_all [Event.channel]

theorem batteryDist_events_channel (a b : Option JSNum × Bool) (σ : AppState) (clock : ℤ) :
    ∀ e ∈ (whenChanged a b σ.prevBatteryDist (batteryDistEffect σ clock)).2, e.channel = Channel.batteryDistance := by
  intro e he
  unfold whenChanged batteryDistEffect at he
  (repeat' split at he) <;> simp_all [Event.channel]

theorem tyre_events_channel (a b : Option JSNum × Bool) (σ : AppState) (clock : ℤ) :
    ∀ e ∈ (whenChanged a b σ.prevTyrePsi (tyreEffect σ clock)).2, e.channel = Channel.tyrePressure := by
  intro e he
  unfold whenChanged tyreEffect at he
  (repeat' split at he) <;> simp_all [Event.channel]

theorem onChannel_commit_gps (old σ : AppState) (clock : ℤ) :
    onChannel Channel.gps (commit old σ clock).2 =
      (whenChanged (gpsDeps old) (gpsDeps σ) σ.prevPos (gpsEffect σ clock)).2 := by
  simp only [commit, onChannel_append]
  rw [onChannel_eq_self (gps_events_channel _ _ σ clock),
    onChannel_eq_nil (speed_events_channel _ _ σ clock) (by decide),
    onChannel_eq_nil (torch_events_channel _ _ σ clock) (by decide),
    onChannel_eq_nil (battery_events_channel _ _ σ clock) (by decide),
    onChannel_eq_nil (batteryDist_events_channel _ _ σ clock) (by decide),
    onChannel_eq_nil (tyre_events_channel _ _ σ clock) (by decide)]
  simp

theorem onChannel_commit_speed (old σ : AppState) (clock : ℤ) :
    onChannel Channel.speed (commit old σ clock).2 =
      (whenChanged (speedDeps old) (speedDeps σ) σ.prevSpeed (speedEffect σ clock)).2 := by
  simp only [commit, onChannel_append]
  rw [onChannel_eq_nil (gps_events_channel _ _ σ clock) (by decide),
    onChannel_eq_self (speed_events_channel _ _ σ clock),
    onChannel_eq_nil (torch_events_channel _ _ σ clock) (by decide),
    onChannel_eq_nil (battery_events_channel _ _ σ clock) (by decide),
    onChannel_eq_nil (batteryDist_events_channel _ _ σ clock) (by decide),
    onChannel_eq_nil (tyre_events_channel _ _ σ clock) (by decide)]
  simp

theorem onChannel_commit_torch (old σ : AppState) (clock : ℤ) :
    onChannel Channel.torch (commit old σ clock).2 =
      (whenChanged (torchDeps old) (torchDeps σ) σ.prevTorch (torchEffect σ clock)).2 := by
  simp only [commit, onChannel_append]
  rw [onChannel_eq_nil (gps_events_channel _ _ σ clock) (by decide),
    onChannel_eq_nil (speed_events_channel _ _ σ clock) (by decide),
    onChannel_eq_self (torch_events_channel _ _ σ clock),
    onChannel_eq_nil (battery_events_channel _ _ σ clock) (by decide),
    onChannel_eq_nil (batteryDist_events_channel _ _ σ clock) (by decide),
    onChannel_eq_nil (tyre_events_channel _ _ σ clock) (by decide)]
  simp

theorem onChannel_commit_battery (old σ : AppState) (clock : ℤ) :
    onChannel Channel.battery (commit old σ clock).2 =
      (whenChanged (batteryDeps old) (batteryDeps σ) σ.prevBattery (batteryEffect σ clock)).2 := by
  simp only [commit, onChannel_append]
  rw [onChannel_eq_nil (gps_events_channel _ _ σ clock) (by decide),
    onChannel_eq_nil (speed_events_channel _ _ σ clock) (by decide),
    onChannel_eq_nil (torch_events_channel _ _ σ clock) (by decide),
    onChannel_eq_self (battery_events_channel _ _ σ clock),
    onChannel_eq_nil (batteryDist_events_channel _ _ σ clock) (by decide),
    onChannel_eq_nil (tyre_events_channel _ _ σ clock) (by decide)]
  simp

theorem onChannel_commit_batteryDist (old σ : AppState) (clock : ℤ) :
    onChannel Channel.batteryDistance (commit old σ clock).2 =
      (whenChanged (batteryDistDeps old) (batteryDistDeps σ) σ.prevBatteryDist (batteryDistEffect σ clock)).2 := by
  simp only [commit, onChannel_append]
  rw [onChannel_eq_nil (gps_events_channel _ _ σ clock) (by decide),
    onChannel_eq_nil (speed_events_channel _ _ σ clock) (by decide),
    onChannel_eq_nil (torch_events_channel _ _ σ clock) (by decide),
    onChannel_eq_nil (battery_events_channel _ _ σ clock) (by decide),
    onChannel_eq_self (batteryDist_events_channel _ _ σ clock),
    onChannel_eq_nil (tyre_events_channel _ _ σ clock) (by decide)]
  simp

theorem onChannel_commit_tyre (old σ : AppState) (clock : ℤ) :
    onChannel Channel.tyrePressure (commit old σ clock).2 =
      (whenChanged (tyreDeps old) (tyreDeps σ) σ.prevTyrePsi (tyreEffect σ clock)).2 := by
  simp only [commit, onChannel_append]
  rw [onChannel_eq_nil (gps_events_channel _ _ σ clock) (by decide),
    onChannel_eq_nil (speed_events_channel _ _ σ clock) (by decide),
    onChannel_eq_nil (torch_events_channel _ _ σ clock) (by decide),
    onChannel_eq_nil (battery_events_channel _ _ σ clock) (by decide),
    onChannel_eq_nil (batteryDist_events_channel _ _ σ clock) (by decide),
    onChannel_eq_self (tyre_events_channel _ _ σ clock)]
  simp

/-! ## Theorems: one step of the emitter -/

theorem update_socket (σ : AppState) (e : AppEvent) : (σ.update e).socket = σ.socket := by
  cases e <;> rfl

theorem step_socket (σ : AppState) (e : AppEvent) (clock : ℤ) :
    (σ.step e clock).1.socket = σ.socket := by
  cases e <;> rfl

theorem step_simData (σ : AppState) (e : AppEvent) (clock : ℤ) :
    (σ.step e clock).1.simData = (σ.update e).simData := rfl

theorem step_gates (σ : AppState) (e : AppEvent) (clock : ℤ) :
    (σ.step e clock).1.gates = (σ.update e).gates := rfl

theorem step_prevPos (σ : AppState) (e : AppEvent) (clock : ℤ) :
    (σ.step e clock).1.prevPos =
      (whenChanged (gpsDeps σ) (gpsDeps (σ.update e)) σ.prevPos
        (gpsEffect (σ.update e) clock)).1 := by
  cases e <;> rfl

theorem update_prevPos (σ : AppState) (e : AppEvent) : (σ.update e).prevPos = σ.prevPos := by
  cases e <;> rfl

theorem gpsEffect_of_finite (σ : AppState) (clock : ℤ) (d : SimData) (x y : ℚ)
    (hs : σ.socket = true) (hd : σ.simData = some d)
    (hx : quantize 2 d.x = some x) (hy : quantize 2 d.y = some y) :
    gpsEffect σ clock =
      if σ.prevPos ≠ some (x, y) then (some (x, y), [Event.bike_gps x y clock])
      else (σ.prevPos, []) := by
  simp only [gpsEffect, hs, hd, hx, hy]

theorem gps_step_synced (σ : AppState) (e : AppEvent) (clock : ℤ) (hs : σ.socket = true)
    (hold : ∀ d x y, σ.simData = some d → quantize 2 d.x = some x →
      quantize 2 d.y = some y → σ.prevPos = some (x, y))
    (d : SimData) (x y : ℚ) (hd : (σ.update e).simData = some d)
    (hx : quantize 2 d.x = some x) (hy : quantize 2 d.y = some y) :
    (σ.step e clock).1.prevPos = some (x, y) := by
  rw [step_prevPos]
  unfold whenChanged
  split_ifs with hch
  · rw [gpsEffect_of_finite _ clock d x y (by rw [update_socket]; exact hs) hd hx hy]
    split_ifs with hp
    · rfl
    · exact not_not.mp hp
  · have heq : gpsDeps σ = gpsDeps (σ.update e) := not_not.mp hch
    simp only [gpsDeps, hd, Option.map_some', Prod.mk.injEq, Option.map_eq_some'] at heq
    obtain ⟨⟨d0, hd0, h0x⟩, ⟨d1, hd1, h1y⟩⟩ := heq
    have : d1 = d0 := Option.some.inj (hd1.symm.trans hd0)
    subst this
    exact hold d1 x y hd0 (by rw [h0x]; exact hx) (by rw [h1y]; exact hy)

theorem step_prevSpeed (σ : AppState) (e : AppEvent) (clock : ℤ) :
    (σ.step e clock).1.prevSpeed =
      (whenChanged (speedDeps σ) (speedDeps (σ.update e)) σ.prevSpeed
        (speedEffect (σ.update e) clock)).1 := by
  cases e <;> rfl

theorem speedEffect_of_finite (σ : AppState) (clock : ℤ) (d : SimData) (v : ℚ)
    (hs : σ.socket = true) (hd : σ.simData = some d)
    (hv : quantize 1 d.speedKmh = some v) :
    speedEffect σ clock =
      if σ.prevSpeed ≠ some v then (some v, [Event.bike_speed v clock])
      else (σ.prevSpeed, []) := by
  simp only [speedEffect, hs, hd, hv]

theorem speed_step_synced (σ : AppState) (e : AppEvent) (clock : ℤ) (hs : σ.socket = true)
    (hold : ∀ d v, σ.simData = some d → quantize 1 d.speedKmh = some v →
      σ.prevSpeed = some v)
    (d : SimData) (v : ℚ) (hd : (σ.update e).simData = some d)
    (hv : quantize 1 d.speedKmh = some v) :
    (σ.step e clock).1.prevSpeed = some v := by
  rw [step_prevSpeed]
  unfold whenChanged
  split_ifs with hch
  · rw [speedEffect_of_finite _ clock d v (by rw [update_socket]; exact hs) hd hv]
    split_ifs with hp
    · rfl
    · exact not_not.mp hp
  · have heq : speedDeps σ = speedDeps (σ.update e) := not_not.mp hch
    simp only [speedDeps, hd, Option.map_some', Option.map_eq_some'] at heq
    obtain ⟨d0, hd0, h0⟩ := heq
    exact hold d0 v hd0 (by rw [h0]; exact hv)

theorem step_prevTorch (σ : AppState) (e : AppEvent) (clock : ℤ) :
    (σ.step e clock).1.prevTorch =
      (whenChanged (torchDeps σ) (torchDeps (σ.update e)) σ.prevTorch
        (torchEffect (σ.update e) clock)).1 := by
  cases e <;> rfl

theorem torchEffect_of_open (σ : AppState) (clock : ℤ) (d : SimData)
    (hs : σ.socket = true) (hd : σ.simData = some d) (hg : σ.gates.torch = true) :
    torchEffect σ clock =
      if σ.prevTorch ≠ some d.torchOn then
        (some d.torchOn, [Event.bike_torch d.torchOn clock])
      else (σ.prevTorch, []) := by
  simp only [torchEffect, hs, hd, hg, if_true]

theorem torch_step_synced (σ : AppState) (e : AppEvent) (clock : ℤ) (hs : σ.socket = true)
    (hold : σ.gates.torch = true → ∀ d, σ.simData = some d → σ.prevTorch = some d.torchOn)
    (d : SimData) (hd : (σ.update e).simData = some d)
    (hg : (σ.update e).gates.torch = true) :
    (σ.step e clock).1.prevTorch = some d.torchOn := by
  rw [step_prevTorch]
  unfold whenChanged
  split_ifs with hch
  · rw [torchEffect_of_open _ clock d (by rw [update_socket]; exact hs) hd hg]
    split_ifs with hp
    · rfl
    · exact not_not.mp hp
  · have heq : torchDeps σ = torchDeps (σ.update e) := not_not.mp hch
    simp only [torchDeps, hd, Option.map_some', Prod.mk.injEq, Option.map_eq_some'] at heq
    obtain ⟨⟨d0, hd0, h0⟩, hgate⟩ := heq
    rw [← h0]
    exact hold (by rw [hgate]; exact hg) d0 hd0

theorem step_prevBattery (σ : AppState) (e : AppEvent) (clock : ℤ) :
    (σ.step e clock).1.prevBattery =
      (whenChanged (batteryDeps σ) (batteryDeps (σ.update e)) σ.prevBattery
        (batteryEffect (σ.update e) clock)).1 := by
  cases e <;> rfl

theorem batteryEffect_of_finite (σ : AppState) (clock : ℤ) (d : SimData) (v : ℚ)
    (hs : σ.socket = true) (hd : σ.simData = some d) (hg : σ.gates.battery = true)
    (hv : quantize 1 d.batteryLevel = some v) :
    batteryEffect σ clock =
      if σ.prevBattery ≠ some v then (some v, [Event.bike_battery v clock])
      else (σ.prevBattery, []) := by
  simp only [batteryEffect, hs, hd, hg, hv, if_true]

theorem battery_step_synced (σ : AppState) (e : AppEvent) (clock : ℤ) (hs : σ.socket = true)
    (hold : σ.gates.battery = true → ∀ d v, σ.simData = some d →
      quantize 1 d.batteryLevel = some v → σ.prevBattery = some v)
    (d : SimData) (v : ℚ) (hd : (σ.update e).simData = some d)
    (hg : (σ.update e).gates.battery = true)
    (hv : quantize 1 d.batteryLevel = some v) :
    (σ.step e clock).1.prevBattery = some v := by
  rw [step_prevBattery]
  unfold whenChanged
  split_ifs with hch
  · rw [batteryEffect_of_finite _ clock d v (by rw [update_socket]; exact hs) hd hg hv]
    split_ifs with hp
    · rfl
    · exact not_not.mp hp
  · have heq : batteryDeps σ = batteryDeps (σ.update e) := not_not.mp hch
    simp only [batteryDeps, hd, Option.map_some', Prod.mk.injEq, Option.map_eq_some'] at heq
    obtain ⟨⟨d0, hd0, h0⟩, hgate⟩ := heq
    exact hold (by rw [hgate]; exact hg) d0 v hd0 (by rw [h0]; exact hv)

theorem step_prevBatteryDist (σ : AppState) (e : AppEvent) (clock : ℤ) :
    (σ.step e clock).1.prevBatteryDist =
      (whenChanged (batteryDistDeps σ) (batteryDistDeps (σ.update e)) σ.prevBatteryDist
        (batteryDistEffect (σ.update e) clock)).1 := by
  cases e <;> rfl

theorem batteryDistEffect_of_finite (σ : AppState) (clock : ℤ) (d : SimData) (v : ℚ)
    (hs : σ.socket = true) (hd : σ.simData = some d) (hg : σ.gates.batteryDistance = true)
    (hv : quantize 2 d.distanceByBatteryKm = some v) :
    batteryDistEffect σ clock =
      if σ.prevBatteryDist ≠ some v then (some v, [Event.bike_battery_distance v clock])
      else (σ.prevBatteryDist, []) := by
  simp only [batteryDistEffect, hs, hd, hg, hv, if_true]

theorem batteryDist_step_synced (σ : AppState) (e : AppEvent) (clock : ℤ) (hs : σ.socket = true)
    (hold : σ.gates.batteryDistance = true → ∀ d v, σ.simData = some d →
      quantize 2 d.distanceByBatteryKm = some v → σ.prevBatteryDist = some v)
    (d : SimData) (v : ℚ) (hd : (σ.update e).simData = some d)
    (hg : (σ.update e).gates.batteryDistance = true)
    (hv : quantize 2 d.distanceByBatteryKm = some v) :
    (σ.step e clock).1.prevBatteryDist = some v := by
  rw [step_prevBatteryDist]
  unfold whenChanged
  split_ifs with hch
  · rw [batteryDistEffect_of_finite _ clock d v (by rw [update_socket]; exact hs) hd hg hv]
    split_ifs with hp
    · rfl
    · exact not_not.mp hp
  · have heq : batteryDistDeps σ = batteryDistDeps (σ.update e) := not_not.mp hch
    simp only [batteryDistDeps, hd, Option.map_some', Prod.mk.injEq, Option.map_eq_some'] at heq
    obtain ⟨⟨d0, hd0, h0⟩, hgate⟩ := heq
    exact hold (by rw [hgate]; exact hg) d0 v hd0 (by rw [h0]; exact hv)

theorem step_prevTyrePsi (σ : AppState) (e : AppEvent) (clock : ℤ) :
    (σ.step e clock).1.prevTyrePsi =
      (whenChanged (tyreDeps σ) (tyreDeps (σ.update e)) σ.prevTyrePsi
        (tyreEffect (σ.update e) clock)).1 := by
  cases e <;> rfl

theorem tyreEffect_of_finite (σ : AppState) (clock : ℤ) (d : SimData) (v : ℚ)
    (hs : σ.socket = true) (hd : σ.simData = some d) (hg : σ.gates.tyrePressure = true)
    (hv : quantize 1 d.tyrePressurePsi = some v) :
    tyreEffect σ clock =
      if σ.prevTyrePsi ≠ some v then (some v, [Event.bike_tyre_pressure v clock])
      else (σ.prevTyrePsi, []) := by
  simp only [tyreEffect, hs, hd, hg, hv, if_true]

theorem tyre_step_synced (σ : AppState) (e : AppEvent) (clock : ℤ) (hs : σ.socket = true)
    (hold : σ.gates.tyrePressure = true → ∀ d v, σ.simData = some d →
      quantize 1 d.tyrePressurePsi = some v → σ.prevTyrePsi = some v)
    (d : SimData) (v : ℚ) (hd : (σ.update e).simData = some d)
    (hg : (σ.update e).gates.tyrePressure = true)
    (hv : quantize 1 d.tyrePressurePsi = some v) :
    (σ.step e clock).1.prevTyrePsi = some v := by
  rw [step_prevTyrePsi]
  unfold whenChanged
  split_ifs with hch
  · rw [tyreEffect_of_finite _ clock d v (by rw [update_socket]; exact hs) hd hg hv]
    split_ifs with hp
    · rfl
    · exact not_not.mp hp
  · have heq : tyreDeps σ = tyreDeps (σ.update e) := not_not.mp hch
    simp only [tyreDeps, hd, Option.map_some', Prod.mk.injEq, Option.map_eq_some'] at heq
    obtain ⟨⟨d0, hd0, h0⟩, hgate⟩ := heq
    exact hold (by rw [hgate]; exact hg) d0 v hd0 (by rw [h0]; exact hv)

theorem step_synced (σ : AppState) (e : AppEvent) (clock : ℤ) (h : Synced σ) :
    Synced (σ.step e clock).1 := by
  obtain ⟨hs, hall⟩ := h
  refine ⟨by rw [step_socket]; exact hs, ?_⟩
  intro d hd
  rw [step_simData] at hd
  rw [step_gates]
  refine ⟨?_, ?_, ?_, ?_, ?_, ?_⟩
  · intro x y hx hy
    exact gps_step_synced σ e clock hs (fun d0 x0 y0 h0 => (hall d0 h0).1 x0 y0) d x y hd hx hy
  · intro v hv
    exact speed_step_synced σ e clock hs (fun d0 v0 h0 => (hall d0 h0).2.1 v0) d v hd hv
  · intro hg
    exact torch_step_synced σ e clock hs (fun hg0 d0 h0 => (hall d0 h0).2.2.1 hg0) d hd hg
  · intro hg v hv
    exact battery_step_synced σ e clock hs
      (fun hg0 d0 v0 h0 => (hall d0 h0).2.2.2.1 hg0 v0) d v hd hg hv
  · intro hg v hv
    exact batteryDist_step_synced σ e clock hs
      (fun hg0 d0 v0 h0 => (hall d0 h0).2.2.2.2.1 hg0 v0) d v hd hg hv
  · intro hg v hv
    exact tyre_step_synced σ e clock hs
      (fun hg0 d0 v0 h0 => (hall d0 h0).2.2.2.2.2 hg0 v0) d v hd hg hv

theorem run_synced (es : List (AppEvent × ℤ)) (σ : AppState) (h : Synced σ) :
    Synced (σ.run es).1 := by
  induction es generalizing σ with
  | nil => exact h
  | cons a rest ih =>
    obtain ⟨e, clock⟩ := a
    exact ih (σ.step e clock).1 (step_synced σ e clock h)

theorem initial_synced : Synced AppState.initial :=
  ⟨rfl, fun d hd => by simp [AppState.initial] at hd⟩

theorem reachable_synced (σ : AppState) (h : Reachable σ) : Synced σ := by
  obtain ⟨es, rfl⟩ := h
  exact run_synced es AppState.initial initial_synced

theorem gps_deps_changed (σ : AppState) (e : AppEvent) (h : Synced σ) (d : SimData) (x y : ℚ)
    (hd : (σ.update e).simData = some d) (hx : quantize 2 d.x = some x)
    (hy : quantize 2 d.y = some y) (hne : σ.prevPos ≠ some (x, y)) :
    gpsDeps σ ≠ gpsDeps (σ.update e) := by
  intro heq
  have hsync := gps_step_synced σ e 0 h.1 (fun d0 x0 y0 h0 => (h.2 d0 h0).1 x0 y0) d x y hd hx hy
  rw [step_prevPos, whenChanged, if_neg (not_not.mpr heq)] at hsync
  exact hne hsync

theorem gps_emits (σ : AppState) (e : AppEvent) (clock : ℤ) (h : Synced σ) (d : SimData)
    (x y : ℚ) (hd : (σ.update e).simData = some d) (hx : quantize 2 d.x = some x)
    (hy : quantize 2 d.y = some y) (hne : σ.prevPos ≠ some (x, y)) :
    onChannel Channel.gps (σ.step e clock).2 = [Event.bike_gps x y clock] := by
  unfold AppState.step
  rw [onChannel_commit_gps, whenChanged, if_pos (gps_deps_changed σ e h d x y hd hx hy hne),
    gpsEffect_of_finite _ clock d x y (by rw [update_socket]; exact h.1) hd hx hy,
    update_prevPos, if_pos hne]

theorem gpsEffect_silent (σ : AppState) (clock : ℤ)
    (h : ∀ d x y, σ.simData = some d → quantize 2 d.x = some x →
      quantize 2 d.y = some y → σ.prevPos = some (x, y)) :
    gpsEffect σ clock = (σ.prevPos, []) := by
  cases hs : σ.socket with
  | false => simp only [gpsEffect, hs]
  | true =>
    cases hd : σ.simData with
    | none => simp only [gpsEffect, hs, hd]
    | some d =>
      cases hx : quantize 2 d.x with
      | none => simp only [gpsEffect, hs, hd, hx]
      | some x =>
        cases hy : quantize 2 d.y with
        | none => simp only [gpsEffect, hs, hd, hx, hy]
        | some y =>
          rw [gpsEffect_of_finite σ clock d x y hs hd hx hy,
            if_neg (not_not.mpr (h d x y hd hx hy))]

theorem gps_silent (σ : AppState) (e : AppEvent) (clock : ℤ)
    (h : ∀ d x y, (σ.update e).simData = some d → quantize 2 d.x = some x →
      quantize 2 d.y = some y → σ.prevPos = some (x, y)) :
    onChannel Channel.gps (σ.step e clock).2 = [] ∧ (σ.step e clock).1.prevPos = σ.prevPos := by
  have key : whenChanged (gpsDeps σ) (gpsDeps (σ.update e)) (σ.update e).prevPos
      (gpsEffect (σ.update e) clock) = (σ.prevPos, []) := by
    rw [gpsEffect_silent (σ.update e) clock (by rw [update_prevPos]; exact h), update_prevPos]
    unfold whenChanged
    split_ifs <;> rfl
  constructor
  · unfold AppState.step
    rw [onChannel_commit_gps, key]
  · rw [step_prevPos, ← update_prevPos σ e, key]
    exact (update_prevPos σ e).symm

theorem update_prevSpeed (σ : AppState) (e : AppEvent) :
    (σ.update e).prevSpeed = σ.prevSpeed := by
  cases e <;> rfl

theorem speed_deps_changed (σ : AppState) (e : AppEvent) (h : Synced σ) (d : SimData) (v : ℚ)
    (hd : (σ.update e).simData = some d) (hv : quantize 1 d.speedKmh = some v)
    (hne : σ.prevSpeed ≠ some v) :
    speedDeps σ ≠ speedDeps (σ.update e) := by
  intro heq
  have hsync := speed_step_synced σ e 0 h.1 (fun d0 v0 h0 => (h.2 d0 h0).2.1 v0) d v hd hv
  rw [step_prevSpeed, whenChanged, if_neg (not_not.mpr heq)] at hsync
  exact hne hsync

theorem speed_emits (σ : AppState) (e : AppEvent) (clock : ℤ) (h : Synced σ) (d : SimData)
    (v : ℚ) (hd : (σ.update e).simData = some d) (hv : quantize 1 d.speedKmh = some v)
    (hne : σ.prevSpeed ≠ some v) :
    onChannel Channel.speed (σ.step e clock).2 = [Event.bike_speed v clock] := by
  unfold AppState.step
  rw [onChannel_commit_speed, whenChanged, if_pos (speed_deps_changed σ e h d v hd hv hne),
    speedEffect_of_finite _ clock d v (by rw [update_socket]; exact h.1) hd hv,
    update_prevSpeed, if_pos hne]

theorem speedEffect_silent (σ : AppState) (clock : ℤ)
    (h : ∀ d v, σ.simData = some d → quantize 1 d.speedKmh = some v → σ.prevSpeed = some v) :
    speedEffect σ clock = (σ.prevSpeed, []) := by
  cases hs : σ.socket with
  | false => simp only [speedEffect, hs]
  | true =>
    cases hd : σ.simData with
    | none => simp only [speedEffect, hs, hd]
    | some d =>
      cases hv : quantize 1 d.speedKmh with
      | none => simp only [speedEffect, hs, hd, hv]
      | some v =>
        rw [speedEffect_of_finite σ clock d v hs hd hv, if_neg (not_not.mpr (h d v hd hv))]

theorem speed_silent (σ : AppState) (e : AppEvent) (clock : ℤ)
    (h : ∀ d v, (σ.update e).simData = some d → quantize 1 d.speedKmh = some v →
      σ.prevSpeed = some v) :
    onChannel Channel.speed (σ.step e clock).2 = [] ∧
      (σ.step e clock).1.prevSpeed = σ.prevSpeed := by
  have key : whenChanged (speedDeps σ) (speedDeps (σ.update e)) (σ.update e).prevSpeed
      (speedEffect (σ.update e) clock) = (σ.prevSpeed, []) := by
    rw [speedEffect_silent (σ.update e) clock (by rw [update_prevSpeed]; exact h),
      update_prevSpeed]
    unfold whenChanged
    split_ifs <;> rfl
  constructor
  · unfold AppState.step
    rw [onChannel_commit_speed, key]
  · rw [step_prevSpeed, ← update_prevSpeed σ e, key]
    exact (update_prevSpeed σ e).symm

theorem update_prevTorch (σ : AppState) (e : AppEvent) :
    (σ.update e).prevTorch = σ.prevTorch := by
  cases e <;> rfl

theorem torch_deps_changed (σ : AppState) (e : AppEvent) (h : Synced σ) (d : SimData)
    (hd : (σ.update e).simData = some d) (hg : (σ.update e).gates.torch = true)
    (hne : σ.prevTorch ≠ some d.torchOn) :
    torchDeps σ ≠ torchDeps (σ.update e) := by
  intro heq
  have hsync := torch_step_synced σ e 0 h.1 (fun hg0 d0 h0 => (h.2 d0 h0).2.2.1 hg0) d hd hg
  rw [step_prevTorch, whenChanged, if_neg (not_not.mpr heq)] at hsync
  exact hne hsync

theorem torch_emits (σ : AppState) (e : AppEvent) (clock : ℤ) (h : Synced σ) (d : SimData)
    (hd : (σ.update e).simData = some d) (hg : (σ.update e).gates.torch = true)
    (hne : σ.prevTorch ≠ some d.torchOn) :
    onChannel Channel.torch (σ.step e clock).2 = [Event.bike_torch d.torchOn clock] := by
  unfold AppState.step
  rw [onChannel_commit_torch, whenChanged, if_pos (torch_deps_changed σ e h d hd hg hne),
    torchEffect_of_open _ clock d (by rw [update_socket]; exact h.1) hd hg,
    update_prevTorch, if_pos hne]

theorem torchEffect_silent (σ : AppState) (clock : ℤ)
    (h : σ.gates.torch = true → ∀ d, σ.simData = some d → σ.prevTorch = some d.torchOn) :
    torchEffect σ clock = (σ.prevTorch, []) := by
  cases hs : σ.socket with
  | false => simp only [torchEffect, hs]
  | true =>
    cases hd : σ.simData with
    | none => simp only [torchEffect, hs, hd]
    | some d =>
      cases hg : σ.gates.torch with
      | false => simp [torchEffect, hs, hd, hg]
      | true =>
        rw [torchEffect_of_open σ clock d hs hd hg, if_neg (not_not.mpr (h hg d hd))]

theorem torch_silent (σ : AppState) (e : AppEvent) (clock : ℤ)
    (h : (σ.update e).gates.torch = true → ∀ d, (σ.update e).simData = some d →
      σ.prevTorch = some d.torchOn) :
    onChannel Channel.torch (σ.step e clock).2 = [] ∧
      (σ.step e clock).1.prevTorch = σ.prevTorch := by
  have key : whenChanged (torchDeps σ) (torchDeps (σ.update e)) (σ.update e).prevTorch
      (torchEffect (σ.update e) clock) = (σ.prevTorch, []) := by
    rw [torchEffect_silent (σ.update e) clock (by rw [update_prevTorch]; exact h),
      update_prevTorch]
    unfold whenChanged
    split_ifs <;> rfl
  constructor
  · unfold AppState.step
    rw [onChannel_commit_torch, key]
  · rw [step_prevTorch, ← update_prevTorch σ e, key]
    exact (update_prevTorch σ e).symm

theorem update_prevBattery (σ : AppState) (e : AppEvent) :
    (σ.update e).prevBattery = σ.prevBattery := by
  cases e <;> rfl

theorem battery_deps_changed (σ : AppState) (e : AppEvent) (h : Synced σ) (d : SimData) (v : ℚ)
    (hd : (σ.update e).simData = some d) (hg : (σ.update e).gates.battery = true)
    (hv : quantize 1 d.batteryLevel = some v) (hne : σ.prevBattery ≠ some v) :
    batteryDeps σ ≠ batteryDeps (σ.update e) := by
  intro heq
  have hsync := battery_step_synced σ e 0 h.1
    (fun hg0 d0 v0 h0 => (h.2 d0 h0).2.2.2.1 hg0 v0) d v hd hg hv
  rw [step_prevBattery, whenChanged, if_neg (not_not.mpr heq)] at hsync
  exact hne hsync

theorem battery_emits (σ : AppState) (e : AppEvent) (clock : ℤ) (h : Synced σ) (d : SimData)
    (v : ℚ) (hd : (σ.update e).simData = some d) (hg : (σ.update e).gates.battery = true)
    (hv : quantize 1 d.batteryLevel = some v) (hne : σ.prevBattery ≠ some v) :
    onChannel Channel.battery (σ.step e clock).2 = [Event.bike_battery v clock] := by
  unfold AppState.step
  rw [onChannel_commit_battery, whenChanged,
    if_pos (battery_deps_changed σ e h d v hd hg hv hne),
    batteryEffect_of_finite _ clock d v (by rw [update_socket]; exact h.1) hd hg hv,
    update_prevBattery, if_pos hne]

theorem batteryEffect_silent (σ : AppState) (clock : ℤ)
    (h : σ.gates.battery = true → ∀ d v, σ.simData = some d →
      quantize 1 d.batteryLevel = some v → σ.prevBattery = some v) :
    batteryEffect σ clock = (σ.prevBattery, []) := by
  cases hs : σ.socket with
  | false => simp only [batteryEffect, hs]
  | true =>
    cases hd : σ.simData with
    | none => simp only [batteryEffect, hs, hd]
    | some d =>
      cases hg : σ.gates.battery with
      | false => simp [batteryEffect, hs, hd, hg]
      | true =>
        cases hv : quantize 1 d.batteryLevel with
        | none => simp [batteryEffect, hs, hd, hg, hv]
        | some v =>
          rw [batteryEffect_of_finite σ clock d v hs hd hg hv,
            if_neg (not_not.mpr (h hg d v hd hv))]

theorem battery_silent (σ : AppState) (e : AppEvent) (clock : ℤ)
    (h : (σ.update e).gates.battery = true → ∀ d v, (σ.update e).simData = some d →
      quantize 1 d.batteryLevel = some v → σ.prevBattery = some v) :
    onChannel Channel.battery (σ.step e clock).2 = [] ∧
      (σ.step e clock).1.prevBattery = σ.prevBattery := by
  have key : whenChanged (batteryDeps σ) (batteryDeps (σ.update e)) (σ.update e).prevBattery
      (batteryEffect (σ.update e) clock) = (σ.prevBattery, []) := by
    rw [batteryEffect_silent (σ.update e) clock (by rw [update_prevBattery]; exact h),
      update_prevBattery]
    unfold whenChanged
    split_ifs <;> rfl
  constructor
  · unfold AppState.step
    rw [onChannel_commit_battery, key]
  · rw [step_prevBattery, ← update_prevBattery σ e, key]
    exact (update_prevBattery σ e).symm

theorem update_prevBatteryDist (σ : AppState) (e : AppEvent) :
    (σ.update e).prevBatteryDist = σ.prevBatteryDist := by
  cases e <;> rfl

theorem batteryDist_deps_changed (σ : AppState) (e : AppEvent) (h : Synced σ) (d : SimData) (v : ℚ)
    (hd : (σ.update e).simData = some d) (hg : (σ.update e).gates.batteryDistance = true)
    (hv : quantize 2 d.distanceByBatteryKm = some v) (hne : σ.prevBatteryDist ≠ some v) :
    batteryDistDeps σ ≠ batteryDistDeps (σ.update e) := by
  intro heq
  have hsync := batteryDist_step_synced σ e 0 h.1
    (fun hg0 d0 v0 h0 => (h.2 d0 h0).2.2.2.2.1 hg0 v0) d v hd hg hv
  rw [step_prevBatteryDist, whenChanged, if_neg (not_not.mpr heq)] at hsync
  exact hne hsync

theorem batteryDist_emits (σ : AppState) (e : AppEvent) (clock : ℤ) (h : Synced σ) (d : SimData)
    (v : ℚ) (hd : (σ.update e).simData = some d) (hg : (σ.update e).gates.batteryDistance = true)
    (hv : quantize 2 d.distanceByBatteryKm = some v) (hne : σ.prevBatteryDist ≠ some v) :
    onChannel Channel.batteryDistance (σ.step e clock).2 = [Event.bike_battery_distance v clock] := by
  unfold AppState.step
  rw [onChannel_commit_batteryDist, whenChanged,
    if_pos (batteryDist_deps_changed σ e h d v hd hg hv hne),
    batteryDistEffect_of_finite _ clock d v (by rw [update_socket]; exact h.1) hd hg hv,
    update_prevBatteryDist, if_pos hne]

theorem batteryDistEffect_silent (σ : AppState) (clock : ℤ)
    (h : σ.gates.batteryDistance = true → ∀ d v, σ.simData = some d →
      quantize 2 d.distanceByBatteryKm = some v → σ.prevBatteryDist = some v) :
    batteryDistEffect σ clock = (σ.prevBatteryDist, []) := by
  cases hs : σ.socket with
  | false => simp only [batteryDistEffect, hs]
  | true =>
    cases hd : σ.simData with
    | none => simp only [batteryDistEffect, hs, hd]
    | some d =>
      cases hg : σ.gates.batteryDistance with
      | false => simp [batteryDistEffect, hs, hd, hg]
      | true =>
        cases hv : quantize 2 d.distanceByBatteryKm with
        | none => simp [batteryDistEffect, hs, hd, hg, hv]
        | some v =>
          rw [batteryDistEffect_of_finite σ clock d v hs hd hg hv,
            if_neg (not_not.mpr (h hg d v hd hv))]

theorem batteryDist_silent (σ : AppState) (e : AppEvent) (clock : ℤ)
    (h : (σ.update e).gates.batteryDistance = true → ∀ d v, (σ.update e).simData = some d →
      quantize 2 d.distanceByBatteryKm = some v → σ.prevBatteryDist = some v) :
    onChannel Channel.batteryDistance (σ.step e clock).2 = [] ∧
      (σ.step e clock).1.prevBatteryDist = σ.prevBatteryDist := by
  have key : whenChanged (batteryDistDeps σ) (batteryDistDeps (σ.update e)) (σ.update e).prevBatteryDist
      (batteryDistEffect (σ.update e) clock) = (σ.prevBatteryDist, []) := by
    rw [batteryDistEffect_silent (σ.update e) clock (by rw [update_prevBatteryDist]; exact h),
      update_prevBatteryDist]
    unfold whenChanged
    split_ifs <;> rfl
  constructor
  · unfold AppState.step
    rw [onChannel_commit_batteryDist, key]
  · rw [step_prevBatteryDist, ← update_prevBatteryDist σ e, key]
    exact (update_prevBatteryDist σ e).symm

theorem update_prevTyrePsi (σ : AppState) (e : AppEvent) :
    (σ.update e).prevTyrePsi = σ.prevTyrePsi := by
  cases e <;> rfl

theorem tyre_deps_changed (σ : AppState) (e : AppEvent) (h : Synced σ) (d : SimData) (v : ℚ)
    (hd : (σ.update e).simData = some d) (hg : (σ.update e).gates.tyrePressure = true)
    (hv : quantize 1 d.tyrePressurePsi = some v) (hne : σ.prevTyrePsi ≠ some v) :
    tyreDeps σ ≠ tyreDeps (σ.update e) := by
  intro heq
  have hsync := tyre_step_synced σ e 0 h.1
    (fun hg0 d0 v0 h0 => (h.2 d0 h0).2.2.2.2.2 hg0 v0) d v hd hg hv
  rw [step_prevTyrePsi, whenChanged, if_neg (not_not.mpr heq)] at hsync
  exact hne hsync

theorem tyre_emits (σ : AppState) (e : AppEvent) (clock : ℤ) (h : Synced σ) (d : SimData)
    (v : ℚ) (hd : (σ.update e).simData = some d) (hg : (σ.update e).gates.tyrePressure = true)
    (hv : quantize 1 d.tyrePressurePsi = some v) (hne : σ.prevTyrePsi ≠ some v) :
    onChannel Channel.tyrePressure (σ.step e clock).2 = [Event.bike_tyre_pressure v clock] := by
  unfold AppState.step
  rw [onChannel_commit_tyre, whenChanged,
    if_pos (tyre_deps_changed σ e h d v hd hg hv hne),
    tyreEffect_of_finite _ clock d v (by rw [update_socket]; exact h.1) hd hg hv,
    update_prevTyrePsi, if_pos hne]

theorem tyreEffect_silent (σ : AppState) (clock : ℤ)
    (h : σ.gates.tyrePressure = true → ∀ d v, σ.simData = some d →
      quantize 1 d.tyrePressurePsi = some v → σ.prevTyrePsi = some v) :
    tyreEffect σ clock = (σ.prevTyrePsi, []) := by
  cases hs : σ.socket with
  | false => simp only [tyreEffect, hs]
  | true =>
    cases hd : σ.simData with
    | none => simp only [tyreEffect, hs, hd]
    | some d =>
      cases hg : σ.gates.tyrePressure with
      | false => simp [tyreEffect, hs, hd, hg]
      | true =>
        cases hv : quantize 1 d.tyrePressurePsi with
        | none => simp [tyreEffect, hs, hd, hg, hv]
        | some v =>
          rw [tyreEffect_of_finite σ clock d v hs hd hg hv,
            if_neg (not_not.mpr (h hg d v hd hv))]

theorem tyre_silent (σ : AppState) (e : AppEvent) (clock : ℤ)
    (h : (σ.update e).gates.tyrePressure = true → ∀ d v, (σ.update e).simData = some d →
      quantize 1 d.tyrePressurePsi = some v → σ.prevTyrePsi = some v) :
    onChannel Channel.tyrePressure (σ.step e clock).2 = [] ∧
      (σ.step e clock).1.prevTyrePsi = σ.prevTyrePsi := by
  have key : whenChanged (tyreDeps σ) (tyreDeps (σ.update e)) (σ.update e).prevTyrePsi
      (tyreEffect (σ.update e) clock) = (σ.prevTyrePsi, []) := by
    rw [tyreEffect_silent (σ.update e) clock (by rw [update_prevTyrePsi]; exact h),
      update_prevTyrePsi]
    unfold whenChanged
    split_ifs <;> rfl
  constructor
  · unfold AppState.step
    rw [onChannel_commit_tyre, key]
  · rw [step_prevTyrePsi, ← update_prevTyrePsi σ e, key]
    exact (update_prevTyrePsi σ e).symm

/-! ## Theorems: the shape of an effect's result -/

theorem whenChanged_shape {δ α : Type} [DecidableEq δ] (a b : δ) (p : α)
    (body : α × List Event) :
    whenChanged a b p body = (p, []) ∨ whenChanged a b p body = body := by
  unfold whenChanged
  split_ifs
  · exact Or.inr rfl
  · exact Or.inl rfl

theorem gpsEffect_shape (σ : AppState) (clock : ℤ) :
    gpsEffect σ clock = (σ.prevPos, []) ∨
    ∃ d x y, σ.simData = some d ∧ quantize 2 d.x = some x ∧ quantize 2 d.y = some y ∧
      gpsEffect σ clock = (some (x, y), [Event.bike_gps x y clock]) := by
  by_cases h : ∀ d x y, σ.simData = some d → quantize 2 d.x = some x →
      quantize 2 d.y = some y → σ.prevPos = some (x, y)
  · exact Or.inl (gpsEffect_silent σ clock h)
  · push_neg at h
    obtain ⟨d, x, y, hd, hx, hy, hne⟩ := h
    cases hs : σ.socket with
    | false => exact Or.inl (by simp only [gpsEffect, hs])
    | true =>
      exact Or.inr ⟨d, x, y, hd, hx, hy, by
        rw [gpsEffect_of_finite σ clock d x y hs hd hx hy, if_pos hne]⟩

theorem speedEffect_shape (σ : AppState) (clock : ℤ) :
    speedEffect σ clock = (σ.prevSpeed, []) ∨
    ∃ d v, σ.simData = some d ∧ quantize 1 d.speedKmh = some v ∧
      speedEffect σ clock = (some v, [Event.bike_speed v clock]) := by
  by_cases h : ∀ d v, σ.simData = some d → quantize 1 d.speedKmh = some v →
      σ.prevSpeed = some v
  · exact Or.inl (speedEffect_silent σ clock h)
  · push_neg at h
    obtain ⟨d, v, hd, hv, hne⟩ := h
    cases hs : σ.socket with
    | false => exact Or.inl (by simp only [speedEffect, hs])
    | true =>
      exact Or.inr ⟨d, v, hd, hv, by
        rw [speedEffect_of_finite σ clock d v hs hd hv, if_pos hne]⟩

theorem torchEffect_shape (σ : AppState) (clock : ℤ) :
    torchEffect σ clock = (σ.prevTorch, []) ∨
    ∃ d, σ.simData = some d ∧
      torchEffect σ clock = (some d.torchOn, [Event.bike_torch d.torchOn clock]) := by
  by_cases h : σ.gates.torch = true → ∀ d, σ.simData = some d → σ.prevTorch = some d.torchOn
  · exact Or.inl (torchEffect_silent σ clock h)
  · push_neg at h
    obtain ⟨hg, d, hd, hne⟩ := h
    cases hs : σ.socket with
    | false => exact Or.inl (by simp only [torchEffect, hs])
    | true =>
      exact Or.inr ⟨d, hd, by rw [torchEffect_of_open σ clock d hs hd hg, if_pos hne]⟩

theorem batteryEffect_shape (σ : AppState) (clock : ℤ) :
    batteryEffect σ clock = (σ.prevBattery, []) ∨
    ∃ d v, σ.simData = some d ∧ quantize 1 d.batteryLevel = some v ∧
      batteryEffect σ clock = (some v, [Event.bike_battery v clock]) := by
  by_cases h : σ.gates.battery = true → ∀ d v, σ.simData = some d →
      quantize 1 d.batteryLevel = some v → σ.prevBattery = some v
  · exact Or.inl (batteryEffect_silent σ clock h)
  · push_neg at h
    obtain ⟨hg, d, v, hd, hv, hne⟩ := h
    cases hs : σ.socket with
    | false => exact Or.inl (by simp only [batteryEffect, hs])
    | true =>
      exact Or.inr ⟨d, v, hd, hv, by
        rw [batteryEffect_of_finite σ clock d v hs hd hg hv, if_pos hne]⟩

theorem batteryDistEffect_shape (σ : AppState) (clock : ℤ) :
    batteryDistEffect σ clock = (σ.prevBatteryDist, []) ∨
    ∃ d v, σ.simData = some d ∧ quantize 2 d.distanceByBatteryKm = some v ∧
      batteryDistEffect σ clock = (some v, [Event.bike_battery_distance v clock]) := by
  by_cases h : σ.gates.batteryDistance = true → ∀ d v, σ.simData = some d →
      quantize 2 d.distanceByBatteryKm = some v → σ.prevBatteryDist = some v
  · exact Or.inl (batteryDistEffect_silent σ clock h)
  · push_neg at h
    obtain ⟨hg, d, v, hd, hv, hne⟩ := h
    cases hs : σ.socket with
    | false => exact Or.inl (by simp only [batteryDistEffect, hs])
    | true =>
      exact Or.inr ⟨d, v, hd, hv, by
        rw [batteryDistEffect_of_finite σ clock d v hs hd hg hv, if_pos hne]⟩

theorem tyreEffect_shape (σ : AppState) (clock : ℤ) :
    tyreEffect σ clock = (σ.prevTyrePsi, []) ∨
    ∃ d v, σ.simData = some d ∧ quantize 1 d.tyrePressurePsi = some v ∧
      tyreEffect σ clock = (some v, [Event.bike_tyre_pressure v clock]) := by
  by_cases h : σ.gates.tyrePressure = true → ∀ d v, σ.simData = some d →
      quantize 1 d.tyrePressurePsi = some v → σ.prevTyrePsi = some v
  · exact Or.inl (tyreEffect_silent σ clock h)
  · push_neg at h
    obtain ⟨hg, d, v, hd, hv, hne⟩ := h
    cases hs : σ.socket with
    | false => exact Or.inl (by simp only [tyreEffect, hs])
    | true =>
      exact Or.inr ⟨d, v, hd, hv, by
        rw [tyreEffect_of_finite σ clock d v hs hd hg hv, if_pos hne]⟩

/-! ## Theorems: the emitter's contract -/

theorem quantize_of_not_finite (k : ℕ) (n : JSNum) (h : n.isFinite = false) :
    quantize k n = none := by
  cases n <;> simp_all [JSNum.isFinite, quantize]

theorem gates_of_basic (σ : AppState)
    (h : planTier σ.selectedPlan σ.planPurchased = PlanTier.basic) :
    σ.gates.battery = false ∧ σ.gates.batteryDistance = false ∧
      σ.gates.tyrePressure = false := by
  simp [AppState.gates, showByPlan, h]

theorem gates_of_pro (σ : AppState)
    (h : planTier σ.selectedPlan σ.planPurchased = PlanTier.pro) :
    σ.gates.torch = true ∧ σ.gates.battery = true ∧ σ.gates.batteryDistance = true ∧
      σ.gates.tyrePressure = true := by
  simp [AppState.gates, showByPlan, h]

/-- C4: emission de-duplication.  In a reachable state whose rendered snapshot
is `d1`, the next snapshot `d2` makes a channel emit nothing whenever the
channel's quantized value in `d2` equals the one in `d1` (for gps the pair of
quantized axes, for the torch the boolean). -/
theorem emission_dedup (σ : AppState) (hσ : Reachable σ) (d1 d2 : SimData)
    (h1 : σ.simData = some d1) (clock : ℤ) :
    ((quantize 2 d2.x, quantize 2 d2.y) = (quantize 2 d1.x, quantize 2 d1.y) →
      onChannel Channel.gps (σ.step (AppEvent.onTick d2) clock).2 = []) ∧
    (quantize 1 d2.speedKmh = quantize 1 d1.speedKmh →
      onChannel Channel.speed (σ.step (AppEvent.onTick d2) clock).2 = []) ∧
    (d2.torchOn = d1.torchOn →
      onChannel Channel.torch (σ.step (AppEvent.onTick d2) clock).2 = []) ∧
    (quantize 1 d2.batteryLevel = quantize 1 d1.batteryLevel →
      onChannel Channel.battery (σ.step (AppEvent.onTick d2) clock).2 = []) ∧
    (quantize 2 d2.distanceByBatteryKm = quantize 2 d1.distanceByBatteryKm →
      onChannel Channel.batteryDistance (σ.step (AppEvent.onTick d2) clock).2 = []) ∧
    (quantize 1 d2.tyrePressurePsi = quantize 1 d1.tyrePressurePsi →
      onChannel Channel.tyrePressure (σ.step (AppEvent.onTick d2) clock).2 = []) := by
  obtain ⟨-, hall⟩ := reachable_synced σ hσ
  obtain ⟨hgps, hspeed, htorch, hbat, hdist, htyre⟩ := hall d1 h1
  have hd2 : ∀ d, (σ.update (AppEvent.onTick d2)).simData = some d → d = d2 :=
    fun d hd => (Option.some.inj hd).symm
  refine ⟨fun heq => ?_, fun heq => ?_, fun heq => ?_, fun heq => ?_, fun heq => ?_,
    fun heq => ?_⟩
  · refine (gps_silent σ _ clock ?_).1
    intro d x y hd hx hy
    rw [hd2 d hd] at hx hy
    rw [Prod.mk.injEq] at heq
    exact hgps x y (heq.1 ▸ hx) (heq.2 ▸ hy)
  · refine (speed_silent σ _ clock ?_).1
    intro d v hd hv
    rw [hd2 d hd] at hv
    exact hspeed v (heq ▸ hv)
  · refine (torch_silent σ _ clock ?_).1
    intro hg d hd
    rw [hd2 d hd, heq]
    exact htorch hg
  · refine (battery_silent σ _ clock ?_).1
    intro hg d v hd hv
    rw [hd2 d hd] at hv
    exact hbat hg v (heq ▸ hv)
  · refine (batteryDist_silent σ _ clock ?_).1
    intro hg d v hd hv
    rw [hd2 d hd] at hv
    exact hdist hg v (heq ▸ hv)
  · refine (tyre_silent σ _ clock ?_).1
    intro hg d v hd hv
    rw [hd2 d hd] at hv
    exact htyre hg v (heq ▸ hv)

/-- C5: tier gating, basic.  Whenever the render that follows an event has
tier `basic`, the battery, batteryDistance and tyrePressure channels emit
nothing and their `prev...Ref` cells keep their values, whatever the snapshot. -/
theorem basic_tier_gating (σ : AppState) (e : AppEvent) (clock : ℤ)
    (hb : planTier (σ.update e).selectedPlan (σ.update e).planPurchased = PlanTier.basic) :
    onChannel Channel.battery (σ.step e clock).2 = [] ∧
    onChannel Channel.batteryDistance (σ.step e clock).2 = [] ∧
    onChannel Channel.tyrePressure (σ.step e clock).2 = [] ∧
    (σ.step e clock).1.prevBattery = σ.prevBattery ∧
    (σ.step e clock).1.prevBatteryDist = σ.prevBatteryDist ∧
    (σ.step e clock).1.prevTyrePsi = σ.prevTyrePsi := by
  obtain ⟨g1, g2, g3⟩ := gates_of_basic (σ.update e) hb
  have b := battery_silent σ e clock (fun hg => by rw [g1] at hg; cases hg)
  have k := batteryDist_silent σ e clock (fun hg => by rw [g2] at hg; cases hg)
  have t := tyre_silent σ e clock (fun hg => by rw [g3] at hg; cases hg)
  exact ⟨b.1, k.1, t.1, b.2, k.2, t.2⟩

/-- C6: tier gating, pro.  In a reachable state with tier `pro`, a snapshot
makes each of the six channels emit exactly one event, carrying the quantized
value, whenever that value is finite (for gps both axes) and differs from the
channel's `prev...Ref`. -/
theorem pro_tier_emits (σ : AppState) (hσ : Reachable σ)
    (hpro : planTier σ.selectedPlan σ.planPurchased = PlanTier.pro) (d : SimData)
    (clock : ℤ) :
    (∀ x y, quantize 2 d.x = some x → quantize 2 d.y = some y → σ.prevPos ≠ some (x, y) →
      onChannel Channel.gps (σ.step (AppEvent.onTick d) clock).2 =
        [Event.bike_gps x y clock]) ∧
    (∀ v, quantize 1 d.speedKmh = some v → σ.prevSpeed ≠ some v →
      onChannel Channel.speed (σ.step (AppEvent.onTick d) clock).2 =
        [Event.bike_speed v clock]) ∧
    (σ.prevTorch ≠ some d.torchOn →
      onChannel Channel.torch (σ.step (AppEvent.onTick d) clock).2 =
        [Event.bike_torch d.torchOn clock]) ∧
    (∀ v, quantize 1 d.batteryLevel = some v → σ.prevBattery ≠ some v →
      onChannel Channel.battery (σ.step (AppEvent.onTick d) clock).2 =
        [Event.bike_battery v clock]) ∧
    (∀ v, quantize 2 d.distanceByBatteryKm = some v → σ.prevBatteryDist ≠ some v →
      onChannel Channel.batteryDistance (σ.step (AppEvent.onTick d) clock).2 =
        [Event.bike_battery_distance v clock]) ∧
    (∀ v, quantize 1 d.tyrePressurePsi = some v → σ.prevTyrePsi ≠ some v →
      onChannel Channel.tyrePressure (σ.step (AppEvent.onTick d) clock).2 =
        [Event.bike_tyre_pressure v clock]) := by
  have hs := reachable_synced σ hσ
  obtain ⟨g0, g1, g2, g3⟩ := gates_of_pro σ hpro
  exact ⟨fun x y hx hy hne => gps_emits σ _ clock hs d x y rfl hx hy hne,
    fun v hv hne => speed_emits σ _ clock hs d v rfl hv hne,
    fun hne => torch_emits σ _ clock hs d rfl g0 hne,
    fun v hv hne => battery_emits σ _ clock hs d v rfl g1 hv hne,
    fun v hv hne => batteryDist_emits σ _ clock hs d v rfl g2 hv hne,
    fun v hv hne => tyre_emits σ _ clock hs d v rfl g3 hv hne⟩

/-! ## Theorems: payloads and the last emitted value -/

theorem lastPayload_append {α : Type} (proj : Event → Option α) (l₁ l₂ : List Event) :
    lastPayload proj (l₁ ++ l₂) = (lastPayload proj l₂).or (lastPayload proj l₁) := by
  simp [lastPayload, List.filterMap_append, List.getLast?_append]

theorem gps_quantized (a b : Option JSNum × Option JSNum) (σ : AppState) (clock : ℤ) :
    ∀ ev ∈ (whenChanged a b σ.prevPos (gpsEffect σ clock)).2,
      ∃ d, σ.simData = some d ∧ ev.QuantizedFrom d := by
  intro ev hev
  rcases whenChanged_shape a b σ.prevPos (gpsEffect σ clock) with h | h
  · rw [h] at hev
    simp at hev
  · rw [h] at hev
    rcases gpsEffect_shape σ clock with h2 | ⟨d, x, y, hd, hx, hy, h2⟩
    · rw [h2] at hev
      simp at hev
    · rw [h2] at hev
      simp only [List.mem_singleton] at hev
      subst hev
      exact ⟨d, hd, hx, hy⟩

theorem filterMap_gpsKey (l : List Event) :
    l.filterMap Event.gpsKey = (onChannel Channel.gps l).filterMap Event.gpsKey := by
  induction l with
  | nil => rfl
  | cons e rest ih =>
    cases e <;> simp [onChannel, Event.gpsKey, Event.channel, List.filter_cons] <;>
      simpa [onChannel] using ih

theorem gps_step_last (σ : AppState) (e : AppEvent) (clock : ℤ) :
    (σ.step e clock).1.prevPos =
      (lastPayload Event.gpsKey (σ.step e clock).2).or σ.prevPos := by
  have hf : lastPayload Event.gpsKey (σ.step e clock).2 =
      lastPayload Event.gpsKey (onChannel Channel.gps (σ.step e clock).2) := by
    unfold lastPayload
    rw [filterMap_gpsKey]
  rw [hf, step_prevPos]
  unfold AppState.step
  rw [onChannel_commit_gps, update_prevPos]
  rcases whenChanged_shape (gpsDeps σ) (gpsDeps (σ.update e)) σ.prevPos
    (gpsEffect (σ.update e) clock) with h | h
  · rw [h]
    simp [lastPayload]
  · rw [h]
    rcases gpsEffect_shape (σ.update e) clock with h2 | ⟨d, x, y, hd, hx, hy, h2⟩
    · rw [h2, update_prevPos]
      simp [lastPayload]
    · rw [h2]
      simp [lastPayload, Event.gpsKey]

theorem speed_quantized (a b : Option JSNum) (σ : AppState) (clock : ℤ) :
    ∀ ev ∈ (whenChanged a b σ.prevSpeed (speedEffect σ clock)).2,
      ∃ d, σ.simData = some d ∧ ev.QuantizedFrom d := by
  intro ev hev
  rcases whenChanged_shape a b σ.prevSpeed (speedEffect σ clock) with h | h
  · rw [h] at hev
    simp at hev
  · rw [h] at hev
    rcases speedEffect_shape σ clock with h2 | ⟨d, v, hd, hv, h2⟩
    · rw [h2] at hev
      simp at hev
    · rw [h2] at hev
      simp only [List.mem_singleton] at hev
      subst hev
      exact ⟨d, hd, hv⟩

theorem filterMap_speedValue (l : List Event) :
    l.filterMap Event.speedValue = (onChannel Channel.speed l).filterMap Event.speedValue := by
  induction l with
  | nil => rfl
  | cons e rest ih =>
    cases e <;> simp [onChannel, Event.speedValue, Event.channel, List.filter_cons] <;>
      simpa [onChannel] using ih

theorem speed_step_last (σ : AppState) (e : AppEvent) (clock : ℤ) :
    (σ.step e clock).1.prevSpeed =
      (lastPayload Event.speedValue (σ.step e clock).2).or σ.prevSpeed := by
  have hf : lastPayload Event.speedValue (σ.step e clock).2 =
      lastPayload Event.speedValue (onChannel Channel.speed (σ.step e clock).2) := by
    unfold lastPayload
    rw [filterMap_speedValue]
  rw [hf, step_prevSpeed]
  unfold AppState.step
  rw [onChannel_commit_speed, update_prevSpeed]
  rcases whenChanged_shape (speedDeps σ) (speedDeps (σ.update e)) σ.prevSpeed
    (speedEffect (σ.update e) clock) with h | h
  · rw [h]
    simp [lastPayload]
  · rw [h]
    rcases speedEffect_shape (σ.update e) clock with h2 | ⟨d, v, hd, hv, h2⟩
    · rw [h2, update_prevSpeed]
      simp [lastPayload]
    · rw [h2]
      simp [lastPayload, Event.speedValue]

theorem torch_quantized (a b : Option Bool × Bool) (σ : AppState) (clock : ℤ) :
    ∀ ev ∈ (whenChanged a b σ.prevTorch (torchEffect σ clock)).2,
      ∃ d, σ.simData = some d ∧ ev.QuantizedFrom d := by
  intro ev hev
  rcases whenChanged_shape a b σ.prevTorch (torchEffect σ clock) with h | h
  · rw [h] at hev
    simp at hev
  · rw [h] at hev
    rcases torchEffect_shape σ clock with h2 | ⟨d, hd, h2⟩
    · rw [h2] at hev
      simp at hev
    · rw [h2] at hev
      simp only [List.mem_singleton] at hev
      subst hev
      exact ⟨d, hd, rfl⟩

theorem filterMap_torchValue (l : List Event) :
    l.filterMap Event.torchValue = (onChannel Channel.torch l).filterMap Event.torchValue := by
  induction l with
  | nil => rfl
  | cons e rest ih =>
    cases e <;> simp [onChannel, Event.torchValue, Event.channel, List.filter_cons] <;>
      simpa [onChannel] using ih

theorem torch_step_last (σ : AppState) (e : AppEvent) (clock : ℤ) :
    (σ.step e clock).1.prevTorch =
      (lastPayload Event.torchValue (σ.step e clock).2).or σ.prevTorch := by
  have hf : lastPayload Event.torchValue (σ.step e clock).2 =
      lastPayload Event.torchValue (onChannel Channel.torch (σ.step e clock).2) := by
    unfold lastPayload
    rw [filterMap_torchValue]
  rw [hf, step_prevTorch]
  unfold AppState.step
  rw [onChannel_commit_torch, update_prevTorch]
  rcases whenChanged_shape (torchDeps σ) (torchDeps (σ.update e)) σ.prevTorch
    (torchEffect (σ.update e) clock) with h | h
  · rw [h]
    simp [lastPayload]
  · rw [h]
    rcases torchEffect_shape (σ.update e) clock with h2 | ⟨d, hd, h2⟩
    · rw [h2, update_prevTorch]
      simp [lastPayload]
    · rw [h2]
      simp [lastPayload, Event.torchValue]

theorem battery_quantized (a b : Option JSNum × Bool) (σ : AppState) (clock : ℤ) :
    ∀ ev ∈ (whenChanged a b σ.prevBattery (batteryEffect σ clock)).2,
      ∃ d, σ.simData = some d ∧ ev.QuantizedFrom d := by
  intro ev hev
  rcases whenChanged_shape a b σ.prevBattery (batteryEffect σ clock) with h | h
  · rw [h] at hev
    simp at hev
  · rw [h] at hev
    rcases batteryEffect_shape σ clock with h2 | ⟨d, v, hd, hv, h2⟩
    · rw [h2] at hev
      simp at hev
    · rw [h2] at hev
      simp only [List.mem_singleton] at hev
      subst hev
      exact ⟨d, hd, hv⟩

theorem filterMap_batteryValue (l : List Event) :
    l.filterMap Event.batteryValue = (onChannel Channel.battery l).filterMap Event.batteryValue := by
  induction l with
  | nil => rfl
  | cons e rest ih =>
    cases e <;> simp [onChannel, Event.batteryValue, Event.channel, List.filter_cons] <;>
      simpa [onChannel] using ih

theorem battery_step_last (σ : AppState) (e : AppEvent) (clock : ℤ) :
    (σ.step e clock).1.prevBattery =
      (lastPayload Event.batteryValue (σ.step e clock).2).or σ.prevBattery := by
  have hf : lastPayload Event.batteryValue (σ.step e clock).2 =
      lastPayload Event.batteryValue (onChannel Channel.battery (σ.step e clock).2) := by
    unfold lastPayload
    rw [filterMap_batteryValue]
  rw [hf, step_prevBattery]
  unfold AppState.step
  rw [onChannel_commit_battery, update_prevBattery]
  rcases whenChanged_shape (batteryDeps σ) (batteryDeps (σ.update e)) σ.prevBattery
    (batteryEffect (σ.update e) clock) with h | h
  · rw [h]
    simp [lastPayload]
  · rw [h]
    rcases batteryEffect_shape (σ.update e) clock with h2 | ⟨d, v, hd, hv, h2⟩
    · rw [h2, update_prevBattery]
      simp [lastPayload]
    · rw [h2]
      simp [lastPayload, Event.batteryValue]

theorem batteryDist_quantized (a b : Option JSNum × Bool) (σ : AppState) (clock : ℤ) :
    ∀ ev ∈ (whenChanged a b σ.prevBatteryDist (batteryDistEffect σ clock)).2,
      ∃ d, σ.simData = some d ∧ ev.QuantizedFrom d := by
  intro ev hev
  rcases whenChanged_shape a b σ.prevBatteryDist (batteryDistEffect σ clock) with h | h
  · rw [h] at hev
    simp at hev
  · rw [h] at hev
    rcases batteryDistEffect_shape σ clock with h2 | ⟨d, v, hd, hv, h2⟩
    · rw [h2] at hev
      simp at hev
    · rw [h2] at hev
      simp only [List.mem_singleton] at hev
      subst hev
      exact ⟨d, hd, hv⟩

theorem filterMap_batteryDistValue (l : List Event) :
    l.filterMap Event.batteryDistValue = (onChannel Channel.batteryDistance l).filterMap Event.batteryDistValue := by
  induction l with
  | nil => rfl
  | cons e rest ih =>
    cases e <;> simp [onChannel, Event.batteryDistValue, Event.channel, List.filter_cons] <;>
      simpa [onChannel] using ih

theorem batteryDist_step_last (σ : AppState) (e : AppEvent) (clock : ℤ) :
    (σ.step e clock).1.prevBatteryDist =
      (lastPayload Event.batteryDistValue (σ.step e clock).2).or σ.prevBatteryDist := by
  have hf : lastPayload Event.batteryDistValue (σ.step e clock).2 =
      lastPayload Event.batteryDistValue (onChannel Channel.batteryDistance (σ.step e clock).2) := by
    unfold lastPayload
    rw [filterMap_batteryDistValue]
  rw [hf, step_prevBatteryDist]
  unfold AppState.step
  rw [onChannel_commit_batteryDist, update_prevBatteryDist]
  rcases whenChanged_shape (batteryDistDeps σ) (batteryDistDeps (σ.update e)) σ.prevBatteryDist
    (batteryDistEffect (σ.update e) clock) with h | h
  · rw [h]
    simp [lastPayload]
  · rw [h]
    rcases batteryDistEffect_shape (σ.update e) clock with h2 | ⟨d, v, hd, hv, h2⟩
    · rw [h2, update_prevBatteryDist]
      simp [lastPayload]
    · rw [h2]
      simp [lastPayload, Event.batteryDistValue]

theorem tyre_quantized (a b : Option JSNum × Bool) (σ : AppState) (clock : ℤ) :
    ∀ ev ∈ (whenChanged a b σ.prevTyrePsi (tyreEffect σ clock)).2,
      ∃ d, σ.simData = some d ∧ ev.QuantizedFrom d := by
  intro ev hev
  rcases whenChanged_shape a b σ.prevTyrePsi (tyreEffect σ clock) with h | h
  · rw [h] at hev
    simp at hev
  · rw [h] at hev
    rcases tyreEffect_shape σ clock with h2 | ⟨d, v, hd, hv, h2⟩
    · rw [h2] at hev
      simp at hev
    · rw [h2] at hev
      simp only [List.mem_singleton] at hev
      subst hev
      exact ⟨d, hd, hv⟩

theorem filterMap_tyreValue (l : List Event) :
    l.filterMap Event.tyreValue = (onChannel Channel.tyrePressure l).filterMap Event.tyreValue := by
  induction l with
  | nil => rfl
  | cons e rest ih =>
    cases e <;> simp [onChannel, Event.tyreValue, Event.channel, List.filter_cons] <;>
      simpa [onChannel] using ih

theorem tyre_step_last (σ : AppState) (e : AppEvent) (clock : ℤ) :
    (σ.step e clock).1.prevTyrePsi =
      (lastPayload Event.tyreValue (σ.step e clock).2).or σ.prevTyrePsi := by
  have hf : lastPayload Event.tyreValue (σ.step e clock).2 =
      lastPayload Event.tyreValue (onChannel Channel.tyrePressure (σ.step e clock).2) := by
    unfold lastPayload
    rw [filterMap_tyreValue]
  rw [hf, step_prevTyrePsi]
  unfold AppState.step
  rw [onChannel_commit_tyre, update_prevTyrePsi]
  rcases whenChanged_shape (tyreDeps σ) (tyreDeps (σ.update e)) σ.prevTyrePsi
    (tyreEffect (σ.update e) clock) with h | h
  · rw [h]
    simp [lastPayload]
  · rw [h]
    rcases tyreEffect_shape (σ.update e) clock with h2 | ⟨d, v, hd, hv, h2⟩
    · rw [h2, update_prevTyrePsi]
      simp [lastPayload]
    · rw [h2]
      simp [lastPayload, Event.tyreValue]

theorem run_last {α : Type} (get : AppState → Option α) (proj : Event → Option α)
    (hstep : ∀ σ e clock,
      get (σ.step e clock).1 = (lastPayload proj (σ.step e clock).2).or (get σ))
    (es : List (AppEvent × ℤ)) (σ : AppState) (log : List Event)
    (h : get σ = lastPayload proj log) :
    get (σ.run es).1 = lastPayload proj (log ++ (σ.run es).2) := by
  induction es generalizing σ log with
  | nil => simpa [AppState.run] using h
  | cons a rest ih =>
    obtain ⟨e, clock⟩ := a
    have hnext : get (σ.step e clock).1 = lastPayload proj (log ++ (σ.step e clock).2) := by
      rw [hstep, lastPayload_append, h]
    have := ih (σ.step e clock).1 (log ++ (σ.step e clock).2) hnext
    simpa [AppState.run, List.append_assoc] using this

theorem step_quantized (σ : AppState) (e : AppEvent) (clock : ℤ) :
    ∀ ev ∈ (σ.step e clock).2, ∃ d, (σ.update e).simData = some d ∧ ev.QuantizedFrom d := by
  intro ev hev
  simp only [AppState.step, commit, List.mem_append] at hev
  rcases hev with ((((h | h) | h) | h) | h) | h
  · exact gps_quantized _ _ _ clock ev h
  · exact speed_quantized _ _ _ clock ev h
  · exact torch_quantized _ _ _ clock ev h
  · exact battery_quantized _ _ _ clock ev h
  · exact batteryDist_quantized _ _ _ clock ev h
  · exact tyre_quantized _ _ _ clock ev h

/-- C7: quantization.  Every event emitted by a step is the quantized value of
the snapshot being rendered (gps x and y to 2 decimals, speed 1, battery 1,
batteryDistance 2, tyrePressure 1, torch the boolean); quantizing a finite `v`
to `digits` decimals gives `toFixedNum digits v`, a multiple of `10^-digits`
at distance at most half of `10^-digits` from `v`. -/
theorem emitted_payload_quantized (σ : AppState) (e : AppEvent) (clock : ℤ) :
    (∀ ev ∈ (σ.step e clock).2,
      ∃ d, (σ.update e).simData = some d ∧ ev.QuantizedFrom d) ∧
    (∀ (digits : ℕ) (v : ℚ),
      quantize digits (JSNum.fin v) = some (toFixedNum digits v) ∧
      (∃ k : ℤ, toFixedNum digits v = (k : ℚ) / 10 ^ digits) ∧
      |toFixedNum digits v - v| ≤ 1 / (2 * 10 ^ digits)) :=
  ⟨step_quantized σ e clock, fun digits v =>
    ⟨rfl, (toFixedNum_scaled digits v).imp (fun _ h => h.1), toFixedNum_near digits v⟩⟩

/-- C8: after any sequence of snapshots and plan changes from the mounted
state, each channel's `prev...Ref` is the payload of the most recent event
emitted on that channel (and is unset if there was none); for gps it is the
pair of the emitted `x` and `y`. -/
theorem last_emitted_roundtrip (es : List (AppEvent × ℤ)) :
    (AppState.initial.run es).1.prevPos =
      lastPayload Event.gpsKey (AppState.initial.run es).2 ∧
    (AppState.initial.run es).1.prevSpeed =
      lastPayload Event.speedValue (AppState.initial.run es).2 ∧
    (AppState.initial.run es).1.prevTorch =
      lastPayload Event.torchValue (AppState.initial.run es).2 ∧
    (AppState.initial.run es).1.prevBattery =
      lastPayload Event.batteryValue (AppState.initial.run es).2 ∧
    (AppState.initial.run es).1.prevBatteryDist =
      lastPayload Event.batteryDistValue (AppState.initial.run es).2 ∧
    (AppState.initial.run es).1.prevTyrePsi =
      lastPayload Event.tyreValue (AppState.initial.run es).2 :=
  ⟨run_last AppState.prevPos Event.gpsKey gps_step_last es AppState.initial [] rfl,
    run_last AppState.prevSpeed Event.speedValue speed_step_last es AppState.initial [] rfl,
    run_last AppState.prevTorch Event.torchValue torch_step_last es AppState.initial [] rfl,
    run_last AppState.prevBattery Event.batteryValue battery_step_last es
      AppState.initial [] rfl,
    run_last AppState.prevBatteryDist Event.batteryDistValue batteryDist_step_last es
      AppState.initial [] rfl,
    run_last AppState.prevTyrePsi Event.tyreValue tyre_step_last es AppState.initial [] rfl⟩

/-! ## Theorems: non-finite samples -/

theorem ite_pair_snd {α : Type} (c : Prop) [Decidable c] (a b : α) (l : List Event) :
    (if c then (a, l) else (b, [])).2 = if c then l else [] := by
  split_ifs <;> rfl

theorem gps_step_compare (σ : AppState) (e : AppEvent) (clock : ℤ) (d : SimData) (x y : ℚ)
    (hs : σ.socket = true) (hd : (σ.update e).simData = some d)
    (hx : quantize 2 d.x = some x) (hy : quantize 2 d.y = some y)
    (hch : gpsDeps σ ≠ gpsDeps (σ.update e)) :
    onChannel Channel.gps (σ.step e clock).2 =
      if σ.prevPos ≠ some (x, y) then [Event.bike_gps x y clock] else [] := by
  unfold AppState.step
  rw [onChannel_commit_gps, whenChanged, if_pos hch,
    gpsEffect_of_finite _ clock d x y (by rw [update_socket]; exact hs) hd hx hy,
    update_prevPos, ite_pair_snd]

theorem speed_step_compare (σ : AppState) (e : AppEvent) (clock : ℤ) (d : SimData) (v : ℚ)
    (hs : σ.socket = true) (hd : (σ.update e).simData = some d)
    (hv : quantize 1 d.speedKmh = some v)
    (hch : speedDeps σ ≠ speedDeps (σ.update e)) :
    onChannel Channel.speed (σ.step e clock).2 =
      if σ.prevSpeed ≠ some v then [Event.bike_speed v clock] else [] := by
  unfold AppState.step
  rw [onChannel_commit_speed, whenChanged, if_pos hch,
    speedEffect_of_finite _ clock d v (by rw [update_socket]; exact hs) hd hv,
    update_prevSpeed, ite_pair_snd]

theorem battery_step_compare (σ : AppState) (e : AppEvent) (clock : ℤ) (d : SimData) (v : ℚ)
    (hs : σ.socket = true) (hd : (σ.update e).simData = some d)
    (hg : (σ.update e).gates.battery = true) (hv : quantize 1 d.batteryLevel = some v)
    (hch : batteryDeps σ ≠ batteryDeps (σ.update e)) :
    onChannel Channel.battery (σ.step e clock).2 =
      if σ.prevBattery ≠ some v then [Event.bike_battery v clock] else [] := by
  unfold AppState.step
  rw [onChannel_commit_battery, whenChanged, if_pos hch,
    batteryEffect_of_finite _ clock d v (by rw [update_socket]; exact hs) hd hg hv,
    update_prevBattery, ite_pair_snd]

theorem batteryDist_step_compare (σ : AppState) (e : AppEvent) (clock : ℤ) (d : SimData) (v : ℚ)
    (hs : σ.socket = true) (hd : (σ.update e).simData = some d)
    (hg : (σ.update e).gates.batteryDistance = true) (hv : quantize 2 d.distanceByBatteryKm = some v)
    (hch : batteryDistDeps σ ≠ batteryDistDeps (σ.update e)) :
    onChannel Channel.batteryDistance (σ.step e clock).2 =
      if σ.prevBatteryDist ≠ some v then [Event.bike_battery_distance v clock] else [] := by
  unfold AppState.step
  rw [onChannel_commit_batteryDist, whenChanged, if_pos hch,
    batteryDistEffect_of_finite _ clock d v (by rw [update_socket]; exact hs) hd hg hv,
    update_prevBatteryDist, ite_pair_snd]

theorem tyre_step_compare (σ : AppState) (e : AppEvent) (clock : ℤ) (d : SimData) (v : ℚ)
    (hs : σ.socket = true) (hd : (σ.update e).simData = some d)
    (hg : (σ.update e).gates.tyrePressure = true) (hv : quantize 1 d.tyrePressurePsi = some v)
    (hch : tyreDeps σ ≠ tyreDeps (σ.update e)) :
    onChannel Channel.tyrePressure (σ.step e clock).2 =
      if σ.prevTyrePsi ≠ some v then [Event.bike_tyre_pressure v clock] else [] := by
  unfold AppState.step
  rw [onChannel_commit_tyre, whenChanged, if_pos hch,
    tyreEffect_of_finite _ clock d v (by rw [update_socket]; exact hs) hd hg hv,
    update_prevTyrePsi, ite_pair_snd]

theorem gps_dropped (σ : AppState) (d : SimData) (clock : ℤ)
    (hbad : d.x.isFinite = false ∨ d.y.isFinite = false) :
    onChannel Channel.gps (σ.step (AppEvent.onTick d) clock).2 = [] ∧
    (σ.step (AppEvent.onTick d) clock).1.prevPos = σ.prevPos ∧
    (σ.socket = true → ∀ (d2 : SimData) (x y : ℚ) (clock2 : ℤ),
      quantize 2 d2.x = some x → quantize 2 d2.y = some y →
      onChannel Channel.gps
          ((σ.step (AppEvent.onTick d) clock).1.step (AppEvent.onTick d2) clock2).2 =
        if σ.prevPos ≠ some (x, y) then [Event.bike_gps x y clock2] else []) := by
  have hq : quantize 2 d.x = none ∨ quantize 2 d.y = none :=
    hbad.imp (quantize_of_not_finite 2 d.x) (quantize_of_not_finite 2 d.y)
  have hsil := gps_silent σ (AppEvent.onTick d) clock (by
    intro d0 x y hd0 hx hy
    have : d0 = d := (Option.some.inj hd0).symm
    subst this
    rcases hq with h | h
    · rw [h] at hx
      cases hx
    · rw [h] at hy
      cases hy)
  refine ⟨hsil.1, hsil.2, ?_⟩
  intro hs d2 x y clock2 hx hy
  rw [← hsil.2]
  refine gps_step_compare _ _ clock2 d2 x y (by rw [step_socket]; exact hs) rfl hx hy ?_
  intro heq
  have h2 : (some d.x, some d.y) = (some d2.x, some d2.y) := heq
  simp only [Prod.mk.injEq, Option.some.injEq] at h2
  rcases hq with h | h
  · rw [h2.1, hx] at h
    cases h
  · rw [h2.2, hy] at h
    cases h

theorem speed_dropped (σ : AppState) (d : SimData) (clock : ℤ)
    (hbad : d.speedKmh.isFinite = false) :
    onChannel Channel.speed (σ.step (AppEvent.onTick d) clock).2 = [] ∧
    (σ.step (AppEvent.onTick d) clock).1.prevSpeed = σ.prevSpeed ∧
    (σ.socket = true → ∀ (d2 : SimData) (v : ℚ) (clock2 : ℤ),
      quantize 1 d2.speedKmh = some v →
      onChannel Channel.speed
          ((σ.step (AppEvent.onTick d) clock).1.step (AppEvent.onTick d2) clock2).2 =
        if σ.prevSpeed ≠ some v then [Event.bike_speed v clock2] else []) := by
  have hq := quantize_of_not_finite 1 d.speedKmh hbad
  have hsil := speed_silent σ (AppEvent.onTick d) clock (by
    intro d0 v hd0 hv
    have : d0 = d := (Option.some.inj hd0).symm
    subst this
    rw [hq] at hv
    cases hv)
  refine ⟨hsil.1, hsil.2, ?_⟩
  intro hs d2 v clock2 hv
  rw [← hsil.2]
  refine speed_step_compare _ _ clock2 d2 v (by rw [step_socket]; exact hs) rfl hv ?_
  intro heq
  have h2 : some d.speedKmh = some d2.speedKmh := heq
  rw [Option.some.injEq] at h2
  rw [h2, hv] at hq
  cases hq

theorem battery_dropped (σ : AppState) (d : SimData) (clock : ℤ)
    (hbad : d.batteryLevel.isFinite = false) :
    onChannel Channel.battery (σ.step (AppEvent.onTick d) clock).2 = [] ∧
    (σ.step (AppEvent.onTick d) clock).1.prevBattery = σ.prevBattery ∧
    (σ.socket = true → σ.gates.battery = true → ∀ (d2 : SimData) (v : ℚ) (clock2 : ℤ),
      quantize 1 d2.batteryLevel = some v →
      onChannel Channel.battery
          ((σ.step (AppEvent.onTick d) clock).1.step (AppEvent.onTick d2) clock2).2 =
        if σ.prevBattery ≠ some v then [Event.bike_battery v clock2] else []) := by
  have hq := quantize_of_not_finite 1 d.batteryLevel hbad
  have hsil := battery_silent σ (AppEvent.onTick d) clock (by
    intro _ d0 v hd0 hv
    have : d0 = d := (Option.some.inj hd0).symm
    subst this
    rw [hq] at hv
    cases hv)
  refine ⟨hsil.1, hsil.2, ?_⟩
  intro hs hg d2 v clock2 hv
  rw [← hsil.2]
  refine battery_step_compare _ _ clock2 d2 v (by rw [step_socket]; exact hs) rfl hg hv ?_
  intro heq
  have h2 : (some d.batteryLevel, σ.gates.battery) = (some d2.batteryLevel, σ.gates.battery) := heq
  simp only [Prod.mk.injEq, Option.some.injEq, and_true] at h2
  rw [h2, hv] at hq
  cases hq

theorem batteryDist_dropped (σ : AppState) (d : SimData) (clock : ℤ)
    (hbad : d.distanceByBatteryKm.isFinite = false) :
    onChannel Channel.batteryDistance (σ.step (AppEvent.onTick d) clock).2 = [] ∧
    (σ.step (AppEvent.onTick d) clock).1.prevBatteryDist = σ.prevBatteryDist ∧
    (σ.socket = true → σ.gates.batteryDistance = true → ∀ (d2 : SimData) (v : ℚ) (clock2 : ℤ),
      quantize 2 d2.distanceByBatteryKm = some v →
      onChannel Channel.batteryDistance
          ((σ.step (AppEvent.onTick d) clock).1.step (AppEvent.onTick d2) clock2).2 =
        if σ.prevBatteryDist ≠ some v then [Event.bike_battery_distance v clock2] else []) := by
  have hq := quantize_of_not_finite 2 d.distanceByBatteryKm hbad
  have hsil := batteryDist_silent σ (AppEvent.onTick d) clock (by
    intro _ d0 v hd0 hv
    have : d0 = d := (Option.some.inj hd0).symm
    subst this
    rw [hq] at hv
    cases hv)
  refine ⟨hsil.1, hsil.2, ?_⟩
  intro hs hg d2 v clock2 hv
  rw [← hsil.2]
  refine batteryDist_step_compare _ _ clock2 d2 v (by rw [step_socket]; exact hs) rfl hg hv ?_
  intro heq
  have h2 : (some d.distanceByBatteryKm, σ.gates.batteryDistance) = (some d2.distanceByBatteryKm, σ.gates.batteryDistance) := heq
  simp only [Prod.mk.injEq, Option.some.injEq, and_true] at h2
  rw [h2, hv] at hq
  cases hq

theorem tyre_dropped (σ : AppState) (d : SimData) (clock : ℤ)
    (hbad : d.tyrePressurePsi.isFinite = false) :
    onChannel Channel.tyrePressure (σ.step (AppEvent.onTick d) clock).2 = [] ∧
    (σ.step (AppEvent.onTick d) clock).1.prevTyrePsi = σ.prevTyrePsi ∧
    (σ.socket = true → σ.gates.tyrePressure = true → ∀ (d2 : SimData) (v : ℚ) (clock2 : ℤ),
      quantize 1 d2.tyrePressurePsi = some v →
      onChannel Channel.tyrePressure
          ((σ.step (AppEvent.onTick d) clock).1.step (AppEvent.onTick d2) clock2).2 =
        if σ.prevTyrePsi ≠ some v then [Event.bike_tyre_pressure v clock2] else []) := by
  have hq := quantize_of_not_finite 1 d.tyrePressurePsi hbad
  have hsil := tyre_silent σ (AppEvent.onTick d) clock (by
    intro _ d0 v hd0 hv
    have : d0 = d := (Option.some.inj hd0).symm
    subst this
    rw [hq] at hv
    cases hv)
  refine ⟨hsil.1, hsil.2, ?_⟩
  intro hs hg d2 v clock2 hv
  rw [← hsil.2]
  refine tyre_step_compare _ _ clock2 d2 v (by rw [step_socket]; exact hs) rfl hg hv ?_
  intro heq
  have h2 : (some d.tyrePressurePsi, σ.gates.tyrePressure) = (some d2.tyrePressurePsi, σ.gates.tyrePressure) := heq
  simp only [Prod.mk.injEq, Option.some.injEq, and_true] at h2
  rw [h2, hv] at hq
  cases hq

/-- C9: for every numeric channel, a snapshot whose value on that channel is
not finite (for gps: `x` or `y`) emits nothing on the channel and leaves its
`prev...Ref` as it was; the next snapshot with a finite value is then compared
with that same `prev...Ref` (socket set, and for the gated channels gate open). -/
theorem nonfinite_sample_dropped (σ : AppState) (d : SimData) (clock : ℤ) :
    (d.x.isFinite = false ∨ d.y.isFinite = false →
      onChannel Channel.gps (σ.step (AppEvent.onTick d) clock).2 = [] ∧
      (σ.step (AppEvent.onTick d) clock).1.prevPos = σ.prevPos ∧
      (σ.socket = true → ∀ (d2 : SimData) (x y : ℚ) (clock2 : ℤ),
        quantize 2 d2.x = some x → quantize 2 d2.y = some y →
        onChannel Channel.gps
            ((σ.step (AppEvent.onTick d) clock).1.step (AppEvent.onTick d2) clock2).2 =
          if σ.prevPos ≠ some (x, y) then [Event.bike_gps x y clock2] else [])) ∧
    (d.speedKmh.isFinite = false →
      onChannel Channel.speed (σ.step (AppEvent.onTick d) clock).2 = [] ∧
      (σ.step (AppEvent.onTick d) clock).1.prevSpeed = σ.prevSpeed ∧
      (σ.socket = true → ∀ (d2 : SimData) (v : ℚ) (clock2 : ℤ),
        quantize 1 d2.speedKmh = some v →
        onChannel Channel.speed
            ((σ.step (AppEvent.onTick d) clock).1.step (AppEvent.onTick d2) clock2).2 =
          if σ.prevSpeed ≠ some v then [Event.bike_speed v clock2] else [])) ∧
    (d.batteryLevel.isFinite = false →
      onChannel Channel.battery (σ.step (AppEvent.onTick d) clock).2 = [] ∧
      (σ.step (AppEvent.onTick d) clock).1.prevBattery = σ.prevBattery ∧
      (σ.socket = true → σ.gates.battery = true → ∀ (d2 : SimData) (v : ℚ) (clock2 : ℤ),
        quantize 1 d2.batteryLevel = some v →
        onChannel Channel.battery
            ((σ.step (AppEvent.onTick d) clock).1.step (AppEvent.onTick d2) clock2).2 =
          if σ.prevBattery ≠ some v then [Event.bike_battery v clock2] else [])) ∧
    (d.distanceByBatteryKm.isFinite = false →
      onChannel Channel.batteryDistance (σ.step (AppEvent.onTick d) clock).2 = [] ∧
      (σ.step (AppEvent.onTick d) clock).1.prevBatteryDist = σ.prevBatteryDist ∧
      (σ.socket = true → σ.gates.batteryDistance = true →
        ∀ (d2 : SimData) (v : ℚ) (clock2 : ℤ),
        quantize 2 d2.distanceByBatteryKm = some v →
        onChannel Channel.batteryDistance
            ((σ.step (AppEvent.onTick d) clock).1.step (AppEvent.onTick d2) clock2).2 =
          if σ.prevBatteryDist ≠ some v then [Event.bike_battery_distance v clock2]
          else [])) ∧
    (d.tyrePressurePsi.isFinite = false →
      onChannel Channel.tyrePressure (σ.step (AppEvent.onTick d) clock).2 = [] ∧
      (σ.step (AppEvent.onTick d) clock).1.prevTyrePsi = σ.prevTyrePsi ∧
      (σ.socket = true → σ.gates.tyrePressure = true →
        ∀ (d2 : SimData) (v : ℚ) (clock2 : ℤ),
        quantize 1 d2.tyrePressurePsi = some v →
        onChannel Channel.tyrePressure
            ((σ.step (AppEvent.onTick d) clock).1.step (AppEvent.onTick d2) clock2).2 =
          if σ.prevTyrePsi ≠ some v then [Event.bike_tyre_pressure v clock2] else [])) :=
  ⟨gps_dropped σ d clock, speed_dropped σ d clock, battery_dropped σ d clock,
    batteryDist_dropped σ d clock, tyre_dropped σ d clock⟩

/-- C10: the gps channel compares `x` and `y` as one key.  In a reachable
state whose last emitted position is the quantization of `(x, y)`, a snapshot
with a finite position `(x2, y2)` at least 0.01 away from `(x, y)` in `x` or in
`y` has a different 2-decimal pair and emits exactly one `bike_gps` event. -/
theorem gps_joint_key (σ : AppState) (hσ : Reachable σ) (x y : ℚ)
    (hprev : σ.prevPos = some (toFixedNum 2 x, toFixedNum 2 y))
    (d : SimData) (x2 y2 : ℚ) (hx : d.x = JSNum.fin x2) (hy : d.y = JSNum.fin y2)
    (hfar : 1 / 100 ≤ |x2 - x| ∨ 1 / 100 ≤ |y2 - y|) (clock : ℤ) :
    (toFixedNum 2 x2, toFixedNum 2 y2) ≠ (toFixedNum 2 x, toFixedNum 2 y) ∧
    onChannel Channel.gps (σ.step (AppEvent.onTick d) clock).2 =
      [Event.bike_gps (toFixedNum 2 x2) (toFixedNum 2 y2) clock] := by
  have hne : (toFixedNum 2 x2, toFixedNum 2 y2) ≠ (toFixedNum 2 x, toFixedNum 2 y) := by
    intro heq
    rw [Prod.mk.injEq] at heq
    rcases hfar with h | h
    · exact toFixedNum_ne_of_far 2 x x2 (by norm_num at h ⊢; exact h) heq.1
    · exact toFixedNum_ne_of_far 2 y y2 (by norm_num at h ⊢; exact h) heq.2
  refine ⟨hne, ?_⟩
  refine gps_emits σ _ clock (reachable_synced σ hσ) d _ _ rfl (by rw [hx]; rfl)
    (by rw [hy]; rfl) ?_
  rw [hprev]
  intro heq
  exact hne (Option.some.inj heq).symm

/-! ## Instances on sample states -/

theorem toFixedNum_two_zero : toFixedNum 2 0 = 0 := by
  rw [toFixedNum_of_nonneg 2 0 0 (le_refl _) (by norm_num) (by norm_num)]
  norm_num

theorem toFixedNum_two_millimetre : toFixedNum 2 (1 / 1000) = toFixedNum 2 0 := by
  rw [toFixedNum_of_nonneg 2 (1 / 1000) 0 (by norm_num) (by norm_num) (by norm_num),
    toFixedNum_of_nonneg 2 0 0 (le_refl _) (by norm_num) (by norm_num)]

theorem toFixedNum_one_speed : toFixedNum 1 (1801 / 100) = toFixedNum 1 18 := by
  rw [toFixedNum_of_nonneg 1 (1801 / 100) 180 (by norm_num) (by norm_num) (by norm_num),
    toFixedNum_of_nonneg 1 18 180 (by norm_num) (by norm_num) (by norm_num)]

theorem emission_dedup_witness :
    Reachable AppState.mounted ∧ AppState.mounted.simData = some SimData.atMount ∧
    onChannel Channel.gps (AppState.mounted.step (AppEvent.onTick SimData.nudged) 1).2 = [] ∧
    onChannel Channel.speed (AppState.mounted.step (AppEvent.onTick SimData.nudged) 1).2 = [] ∧
    onChannel Channel.torch (AppState.mounted.step (AppEvent.onTick SimData.nudged) 1).2 = [] ∧
    onChannel Channel.battery
      (AppState.mounted.step (AppEvent.onTick SimData.nudged) 1).2 = [] ∧
    onChannel Channel.batteryDistance
      (AppState.mounted.step (AppEvent.onTick SimData.nudged) 1).2 = [] ∧
    onChannel Channel.tyrePressure
      (AppState.mounted.step (AppEvent.onTick SimData.nudged) 1).2 = [] :=
  have h := emission_dedup AppState.mounted ⟨_, rfl⟩ SimData.atMount SimData.nudged rfl 1
  have hx : (quantize 2 SimData.nudged.x, quantize 2 SimData.nudged.y) =
      (quantize 2 SimData.atMount.x, quantize 2 SimData.atMount.y) :=
    congrArg (fun q => (some q, some (toFixedNum 2 0))) toFixedNum_two_millimetre
  have hv : quantize 1 SimData.nudged.speedKmh = quantize 1 SimData.atMount.speedKmh :=
    congrArg some toFixedNum_one_speed
  ⟨⟨_, rfl⟩, rfl, h.1 hx, h.2.1 hv, h.2.2.1 rfl, h.2.2.2.1 rfl, h.2.2.2.2.1 rfl,
    h.2.2.2.2.2 rfl⟩

theorem basic_tier_gating_witness :
    planTier (AppState.basicPlan.update (AppEvent.onTick SimData.atMount)).selectedPlan
      (AppState.basicPlan.update (AppEvent.onTick SimData.atMount)).planPurchased =
      PlanTier.basic ∧
    onChannel Channel.battery
      (AppState.basicPlan.step (AppEvent.onTick SimData.atMount) 1).2 = [] ∧
    onChannel Channel.batteryDistance
      (AppState.basicPlan.step (AppEvent.onTick SimData.atMount) 1).2 = [] ∧
    onChannel Channel.tyrePressure
      (AppState.basicPlan.step (AppEvent.onTick SimData.atMount) 1).2 = [] ∧
    (AppState.basicPlan.step (AppEvent.onTick SimData.atMount) 1).1.prevBattery =
      AppState.basicPlan.prevBattery ∧
    (AppState.basicPlan.step (AppEvent.onTick SimData.atMount) 1).1.prevBatteryDist =
      AppState.basicPlan.prevBatteryDist ∧
    (AppState.basicPlan.step (AppEvent.onTick SimData.atMount) 1).1.prevTyrePsi =
      AppState.basicPlan.prevTyrePsi :=
  ⟨by decide,
    basic_tier_gating AppState.basicPlan (AppEvent.onTick SimData.atMount) 1 (by decide)⟩

theorem pro_tier_emits_witness :
    Reachable AppState.proPlan ∧
    planTier AppState.proPlan.selectedPlan AppState.proPlan.planPurchased = PlanTier.pro ∧
    onChannel Channel.gps (AppState.proPlan.step (AppEvent.onTick SimData.atMount) 1).2 =
      [Event.bike_gps (toFixedNum 2 0) (toFixedNum 2 0) 1] ∧
    onChannel Channel.speed (AppState.proPlan.step (AppEvent.onTick SimData.atMount) 1).2 =
      [Event.bike_speed (toFixedNum 1 18) 1] ∧
    onChannel Channel.torch (AppState.proPlan.step (AppEvent.onTick SimData.atMount) 1).2 =
      [Event.bike_torch false 1] ∧
    onChannel Channel.battery (AppState.proPlan.step (AppEvent.onTick SimData.atMount) 1).2 =
      [Event.bike_battery (toFixedNum 1 100) 1] ∧
    onChannel Channel.batteryDistance
        (AppState.proPlan.step (AppEvent.onTick SimData.atMount) 1).2 =
      [Event.bike_battery_distance (toFixedNum 2 0) 1] ∧
    onChannel Channel.tyrePressure
        (AppState.proPlan.step (AppEvent.onTick SimData.atMount) 1).2 =
      [Event.bike_tyre_pressure (toFixedNum 1 85) 1] :=
  have h := pro_tier_emits AppState.proPlan ⟨_, rfl⟩ (by decide) SimData.atMount 1
  ⟨⟨_, rfl⟩, by decide, h.1 _ _ rfl rfl (fun e => Option.noConfusion e),
    h.2.1 _ rfl (fun e => Option.noConfusion e),
    h.2.2.1 (fun e => Option.noConfusion e),
    h.2.2.2.1 _ rfl (fun e => Option.noConfusion e),
    h.2.2.2.2.1 _ rfl (fun e => Option.noConfusion e),
    h.2.2.2.2.2 _ rfl (fun e => Option.noConfusion e)⟩

theorem emitted_payload_quantized_witness :
    Event.bike_speed (toFixedNum 1 18) 1 ∈
      (AppState.initial.step (AppEvent.onTick SimData.atMount) 1).2 ∧
    ∃ d, (AppState.initial.update (AppEvent.onTick SimData.atMount)).simData = some d ∧
      (Event.bike_speed (toFixedNum 1 18) 1).QuantizedFrom d :=
  have hmem : Event.bike_speed (toFixedNum 1 18) 1 ∈
      (AppState.initial.step (AppEvent.onTick SimData.atMount) 1).2 :=
    List.Mem.tail _ (List.Mem.head _)
  ⟨hmem, (emitted_payload_quantized AppState.initial (AppEvent.onTick SimData.atMount) 1).1
    _ hmem⟩

theorem nonfinite_sample_dropped_witness :
    (SimData.broken.x.isFinite = false ∧ SimData.broken.speedKmh.isFinite = false ∧
      SimData.broken.batteryLevel.isFinite = false) ∧
    (onChannel Channel.gps (AppState.mounted.step (AppEvent.onTick SimData.broken) 1).2 = [] ∧
      (AppState.mounted.step (AppEvent.onTick SimData.broken) 1).1.prevPos =
        AppState.mounted.prevPos ∧
      onChannel Channel.gps
          ((AppState.mounted.step (AppEvent.onTick SimData.broken) 1).1.step
            (AppEvent.onTick SimData.moved) 2).2 =
        if AppState.mounted.prevPos ≠ some (toFixedNum 2 (1 / 100), toFixedNum 2 0) then
          [Event.bike_gps (toFixedNum 2 (1 / 100)) (toFixedNum 2 0) 2]
        else []) ∧
    (onChannel Channel.speed
        (AppState.mounted.step (AppEvent.onTick SimData.broken) 1).2 = [] ∧
      (AppState.mounted.step (AppEvent.onTick SimData.broken) 1).1.prevSpeed =
        AppState.mounted.prevSpeed ∧
      onChannel Channel.speed
          ((AppState.mounted.step (AppEvent.onTick SimData.broken) 1).1.step
            (AppEvent.onTick SimData.atMount) 2).2 =
        if AppState.mounted.prevSpeed ≠ some (toFixedNum 1 18) then
          [Event.bike_speed (toFixedNum 1 18) 2]
        else []) ∧
    (onChannel Channel.battery
        (AppState.mounted.step (AppEvent.onTick SimData.broken) 1).2 = [] ∧
      (AppState.mounted.step (AppEvent.onTick SimData.broken) 1).1.prevBattery =
        AppState.mounted.prevBattery ∧
      onChannel Channel.battery
          ((AppState.mounted.step (AppEvent.onTick SimData.broken) 1).1.step
            (AppEvent.onTick SimData.atMount) 2).2 =
        if AppState.mounted.prevBattery ≠ some (toFixedNum 1 100) then
          [Event.bike_battery (toFixedNum 1 100) 2]
        else []) :=
  have h := nonfinite_sample_dropped AppState.mounted SimData.broken 1
  have g := h.1 (Or.inl rfl)
  have s := h.2.1 rfl
  have b := h.2.2.1 rfl
  ⟨⟨rfl, rfl, rfl⟩, ⟨g.1, g.2.1, g.2.2 rfl SimData.moved _ _ 2 rfl rfl⟩,
    ⟨s.1, s.2.1, s.2.2 rfl SimData.atMount _ 2 rfl⟩,
    ⟨b.1, b.2.1, b.2.2 rfl rfl SimData.atMount _ 2 rfl⟩⟩

theorem gps_joint_key_witness :
    Reachable AppState.mounted ∧
    AppState.mounted.prevPos = some (toFixedNum 2 0, toFixedNum 2 0) ∧
    ((1 : ℚ) / 100 ≤ |1 / 100 - 0| ∨ (1 : ℚ) / 100 ≤ |0 - 0|) ∧
    (toFixedNum 2 (1 / 100), toFixedNum 2 0) ≠ (toFixedNum 2 0, toFixedNum 2 0) ∧
    onChannel Channel.gps (AppState.mounted.step (AppEvent.onTick SimData.moved) 1).2 =
      [Event.bike_gps (toFixedNum 2 (1 / 100)) (toFixedNum 2 0) 1] :=
  have hfar : (1 : ℚ) / 100 ≤ |1 / 100 - 0| ∨ (1 : ℚ) / 100 ≤ |0 - 0| :=
    Or.inl (by norm_num [abs_of_pos])
  ⟨⟨_, rfl⟩, rfl, hfar,
    gps_joint_key AppState.mounted ⟨_, rfl⟩ 0 0 rfl SimData.moved (1 / 100) 0 rfl rfl hfar 1⟩

/-! ## Theorems: battery and distance along a run -/

theorem tickDt_le_one (now lastTick : ℚ) : tickDt now lastTick ≤ 1 :=
  min_le_left _ _

theorem tickDt_nonneg (now lastTick : ℚ) (h : lastTick ≤ now) : 0 ≤ tickDt now lastTick := by
  unfold tickDt
  exact le_min (by norm_num) (div_nonneg (by linarith) (by norm_num))

theorem tick_distance_nonneg (s : SimState) (now : ℚ) (hv : 0 ≤ s.speedKmh)
    (ht : s.lastTick ≤ now) : 0 ≤ s.speedKmh * 1000 / 3600 * tickDt now s.lastTick :=
  mul_nonneg (div_nonneg (mul_nonneg hv (by norm_num)) (by norm_num)) (tickDt_nonneg now _ ht)

/-- What a run keeps true of the state: speed non-negative and the stored
last-tick time not after the latest clock reading `t`. -/
theorem apply_forward (env : MathEnv) (s : SimState) (c : SimCmd) (t : ℚ)
    (hv : 0 ≤ s.speedKmh) (ht : s.lastTick ≤ t)
    (hc : ∀ u, c.clockReading = some u → t ≤ u) (hsp : ∀ v, c = SimCmd.setSpeed v → 0 ≤ v) :
    0 ≤ (s.apply env c).speedKmh ∧ (s.apply env c).lastTick ≤ (c.clockReading).getD t := by
  cases c with
  | tick now rnd =>
    simp only [SimState.apply, SimCmd.clockReading, Option.getD_some]
    split_ifs
    · exact ⟨hv, le_refl _⟩
    · exact ⟨hv, le_trans ht (hc now rfl)⟩
  | toggleRunning now =>
    simp only [SimState.apply, SimCmd.clockReading, Option.getD_some]
    split_ifs
    · exact ⟨hv, le_trans ht (hc now rfl)⟩
    · exact ⟨hv, le_refl _⟩
  | setSpeed v => exact ⟨hsp v rfl, ht⟩
  | setTyrePressure n =>
    simp only [SimState.apply, SimCmd.clockReading, Option.getD_none]
    split <;> exact ⟨hv, ht⟩
  | _ => exact ⟨hv, ht⟩

theorem run_forward (env : MathEnv) (R : SimState → SimState → Prop) (ok : SimCmd → Prop)
    (hrefl : ∀ s, R s s) (htrans : ∀ a b c, R a b → R b c → R a c)
    (hstep : ∀ s c, ok c → 0 ≤ s.speedKmh →
      (∀ now rnd, c = SimCmd.tick now rnd → s.lastTick ≤ now) → R s (s.apply env c))
    (cmds : List SimCmd) (s : SimState) (t : ℚ) (hv : 0 ≤ s.speedKmh) (ht : s.lastTick ≤ t)
    (hclock : ClockMonotone t cmds) (hsp : SpeedsNonneg cmds) (hok : ∀ c ∈ cmds, ok c) :
    R s (s.run env cmds) ∧ 0 ≤ (s.run env cmds).speedKmh := by
  induction cmds generalizing s t with
  | nil => exact ⟨hrefl s, hv⟩
  | cons c cs ih =>
    have hc : ∀ u, c.clockReading = some u → t ≤ u := by
      intro u hu
      simp only [ClockMonotone, hu] at hclock
      exact hclock.1
    have hclock2 : ClockMonotone ((c.clockReading).getD t) cs := by
      cases hu : c.clockReading with
      | none =>
        simp only [ClockMonotone, hu] at hclock
        simpa using hclock
      | some u =>
        simp only [ClockMonotone, hu] at hclock
        simpa using hclock.2
    have hfw := apply_forward env s c t hv ht hc
      (fun v hcv => hsp v (by rw [hcv]; exact List.mem_cons_self _ _))
    have h1 : R s (s.apply env c) :=
      hstep s c (hok c (List.mem_cons_self _ _)) hv (fun now rnd hcn =>
        le_trans ht (hc now (by rw [hcn]; rfl)))
    have h2 := ih (s.apply env c) _ hfw.1 hfw.2 hclock2
      (fun v hm => hsp v (List.mem_cons_of_mem _ hm))
      (fun c2 hm => hok c2 (List.mem_cons_of_mem _ hm))
    exact ⟨htrans _ _ _ h1 h2.1, h2.2⟩

theorem run_append (env : MathEnv) (s : SimState) (a b : List SimCmd) :
    s.run env (a ++ b) = (s.run env a).run env b := by
  simp [SimState.run, List.foldl_append]

theorem run_forward_split (env : MathEnv) (cmds more : List SimCmd) (s : SimState) (t : ℚ)
    (hv : 0 ≤ s.speedKmh) (ht : s.lastTick ≤ t) (hclock : ClockMonotone t (cmds ++ more))
    (hsp : SpeedsNonneg (cmds ++ more)) :
    ClockMonotone t cmds ∧ SpeedsNonneg cmds ∧ SpeedsNonneg more ∧
    0 ≤ (s.run env cmds).speedKmh ∧
    ∃ u, (s.run env cmds).lastTick ≤ u ∧ ClockMonotone u more := by
  induction cmds generalizing s t with
  | nil =>
    refine ⟨trivial, ?_, ?_, hv, t, ht, ?_⟩
    · intro v hm
      exact absurd hm (List.not_mem_nil _)
    · intro v hm
      exact hsp v (by simpa using hm)
    · simpa using hclock
  | cons c cs ih =>
    have hc : ∀ u, c.clockReading = some u → t ≤ u := by
      intro u hu
      simp only [List.cons_append, ClockMonotone, hu] at hclock
      exact hclock.1
    have hclock2 : ClockMonotone ((c.clockReading).getD t) (cs ++ more) := by
      cases hu : c.clockReading with
      | none =>
        simp only [List.cons_append, ClockMonotone, hu] at hclock
        simpa using hclock
      | some u =>
        simp only [List.cons_append, ClockMonotone, hu] at hclock
        simpa using hclock.2
    have hfw := apply_forward env s c t hv ht hc
      (fun v hcv => hsp v (by rw [hcv]; exact List.mem_cons_self _ _))
    obtain ⟨h1, h2, h3, h4, u, h5, h6⟩ := ih (s.apply env c) _ hfw.1 hfw.2 hclock2
      (fun v hm => hsp v (List.mem_cons_of_mem _ hm))
    refine ⟨?_, fun v hm => hsp v (List.mem_append_left _ hm), h3, h4, u, h5, h6⟩
    cases hu : c.clockReading with
    | none =>
      simp only [ClockMonotone, hu]
      simpa [hu] using h1
    | some w =>
      simp only [ClockMonotone, hu]
      exact ⟨hc w hu, by simpa [hu] using h1⟩

theorem initial_forward (v0 now0 : ℚ) (hv0 : 0 ≤ v0) :
    0 ≤ (SimState.initial v0 now0).speedKmh ∧ (SimState.initial v0 now0).lastTick ≤ now0 :=
  ⟨hv0, le_refl _⟩

theorem apply_distance_mono (env : MathEnv) (s : SimState) (c : SimCmd)
    (hok : c ≠ SimCmd.resetBattery) (hv : 0 ≤ s.speedKmh)
    (ht : ∀ now rnd, c = SimCmd.tick now rnd → s.lastTick ≤ now) :
    s.distanceByBatteryKm ≤ (s.apply env c).distanceByBatteryKm := by
  cases c with
  | tick now rnd =>
    simp only [SimState.apply]
    split_ifs
    · have hd := tick_distance_nonneg s now hv (ht now rnd rfl)
      simp only [loop]
      linarith [div_nonneg hd (by norm_num : (0 : ℚ) ≤ 1000)]
    · exact le_refl _
  | toggleRunning now =>
    simp only [SimState.apply]
    split_ifs <;> exact le_refl _
  | setTyrePressure n =>
    simp only [SimState.apply]
    split <;> exact le_refl _
  | resetBattery => exact absurd rfl hok
  | _ => exact le_refl _

theorem apply_battery_antitone (env : MathEnv) (s : SimState) (c : SimCmd)
    (hok : c ≠ SimCmd.resetBattery) (hv : 0 ≤ s.speedKmh)
    (ht : ∀ now rnd, c = SimCmd.tick now rnd → s.lastTick ≤ now)
    (hb : 0 ≤ s.batteryLevel ∧ s.batteryLevel ≤ 100) :
    (s.apply env c).batteryLevel ≤ s.batteryLevel := by
  cases c with
  | tick now rnd =>
    simp only [SimState.apply]
    split_ifs
    · have hd := tick_distance_nonneg s now hv (ht now rnd rfl)
      simp only [loop]
      exact max_le hb.1 (le_trans (min_le_right _ _) (by linarith))
    · exact le_refl _
  | toggleRunning now =>
    simp only [SimState.apply]
    split_ifs <;> exact le_refl _
  | setTyrePressure n =>
    simp only [SimState.apply]
    split <;> exact le_refl _
  | resetBattery => exact absurd rfl hok
  | _ => exact le_refl _

/-- C12: between battery resets `distanceByBatteryKm` never decreases.  With
a clock that never runs backwards and non-negative speeds, commands `more`
without a battery reset (a single tick, or any sequence) leave it at least
what it was after the commands `cmds` before them. -/
theorem distance_nondecreasing (env : MathEnv) (initialSpeedKmh now : ℚ)
    (hv0 : 0 ≤ initialSpeedKmh) (cmds more : List SimCmd)
    (hclock : ClockMonotone now (cmds ++ more)) (hsp : SpeedsNonneg (cmds ++ more))
    (hnr : NoBatteryReset more) :
    ((SimState.initial initialSpeedKmh now).run env cmds).distanceByBatteryKm ≤
      ((SimState.initial initialSpeedKmh now).run env (cmds ++ more)).distanceByBatteryKm := by
  obtain ⟨-, -, hs2, hv1, u, hu, hc2⟩ :=
    run_forward_split env cmds more (SimState.initial initialSpeedKmh now) now hv0 (le_refl _)
      hclock hsp
  rw [run_append]
  exact (run_forward env (fun a b => a.distanceByBatteryKm ≤ b.distanceByBatteryKm)
    (fun c => c ≠ SimCmd.resetBattery) (fun _ => le_refl _) (fun _ _ _ h1 h2 => le_trans h1 h2)
    (fun s c hok hv ht => apply_distance_mono env s c hok hv ht)
    more _ u hv1 hu hc2 hs2 (fun c hm hc => hnr (hc ▸ hm))).1

/-- C13: between battery resets `batteryLevel` never increases.  With a clock
that never runs backwards and non-negative speeds, commands `more` without a
battery reset (a single tick, or any sequence) leave it at most what it was
after the commands `cmds` before them. -/
theorem battery_nonincreasing (env : MathEnv) (initialSpeedKmh now : ℚ)
    (hv0 : 0 ≤ initialSpeedKmh) (cmds more : List SimCmd)
    (hclock : ClockMonotone now (cmds ++ more)) (hsp : SpeedsNonneg (cmds ++ more))
    (hnr : NoBatteryReset more) :
    ((SimState.initial initialSpeedKmh now).run env (cmds ++ more)).batteryLevel ≤
      ((SimState.initial initialSpeedKmh now).run env cmds).batteryLevel := by
  obtain ⟨-, -, hs2, hv1, u, hu, hc2⟩ :=
    run_forward_split env cmds more (SimState.initial initialSpeedKmh now) now hv0 (le_refl _)
      hclock hsp
  have hb1 := run_invariant env (fun s => 0 ≤ s.batteryLevel ∧ s.batteryLevel ≤ 100)
    (apply_battery_bounds env) (SimState.initial initialSpeedKmh now)
    (by norm_num [SimState.initial]) cmds
  rw [run_append]
  exact ((run_forward env
    (fun a b => (0 ≤ a.batteryLevel ∧ a.batteryLevel ≤ 100) →
      (b.batteryLevel ≤ a.batteryLevel ∧ 0 ≤ b.batteryLevel ∧ b.batteryLevel ≤ 100))
    (fun c => c ≠ SimCmd.resetBattery) (fun _ h => ⟨le_refl _, h⟩)
    (fun _ _ _ h1 h2 h => ⟨le_trans (h2 (h1 h).2).1 (h1 h).1, (h2 (h1 h).2).2⟩)
    (fun s c hok hv ht hb =>
      ⟨apply_battery_antitone env s c hok hv ht hb, apply_battery_bounds env s c hb⟩)
    more _ u hv1 hu hc2 hs2 (fun c hm hc => hnr (hc ▸ hm))).1 hb1).1

theorem sample_ride_clock :
    ClockMonotone 0 ([SimCmd.tick 1000 (1 / 2)] ++ [SimCmd.tick 2000 (1 / 2)]) := by
  norm_num [ClockMonotone, SimCmd.clockReading]

theorem sample_ride_speeds :
    SpeedsNonneg ([SimCmd.tick 1000 (1 / 2)] ++ [SimCmd.tick 2000 (1 / 2)]) := by
  intro v hm
  simp at hm

theorem sample_ride_no_reset : NoBatteryReset [SimCmd.tick 2000 (1 / 2)] := by
  simp [NoBatteryReset]

theorem distance_nondecreasing_witness :
    (0 : ℚ) ≤ 18 ∧
    ((SimState.initial 18 0).run MathEnv.straight
        [SimCmd.tick 1000 (1 / 2)]).distanceByBatteryKm ≤
      ((SimState.initial 18 0).run MathEnv.straight
        ([SimCmd.tick 1000 (1 / 2)] ++ [SimCmd.tick 2000 (1 / 2)])).distanceByBatteryKm :=
  ⟨by norm_num, distance_nondecreasing MathEnv.straight 18 0 (by norm_num)
    [SimCmd.tick 1000 (1 / 2)] [SimCmd.tick 2000 (1 / 2)] sample_ride_clock
    sample_ride_speeds sample_ride_no_reset⟩

theorem battery_nonincreasing_witness :
    (0 : ℚ) ≤ 18 ∧
    ((SimState.initial 18 0).run MathEnv.straight
        ([SimCmd.tick 1000 (1 / 2)] ++ [SimCmd.tick 2000 (1 / 2)])).batteryLevel ≤
      ((SimState.initial 18 0).run MathEnv.straight
        [SimCmd.tick 1000 (1 / 2)]).batteryLevel :=
  ⟨by norm_num, battery_nonincreasing MathEnv.straight 18 0 (by norm_num)
    [SimCmd.tick 1000 (1 / 2)] [SimCmd.tick 2000 (1 / 2)] sample_ride_clock
    sample_ride_speeds sample_ride_no_reset⟩

/-! ## Theorems: the relay -/

theorem gps_stamped (a b : Option JSNum × Option JSNum) (σ : AppState) (clock : ℤ) :
    ∀ ev ∈ (whenChanged a b σ.prevPos (gpsEffect σ clock)).2, ev.timestamp = clock := by
  intro ev hev
  rcases whenChanged_shape a b σ.prevPos (gpsEffect σ clock) with h | h
  · rw [h] at hev
    simp at hev
  · rw [h] at hev
    rcases gpsEffect_shape σ clock with h2 | ⟨d, x, y, hd, hx, hy, h2⟩
    · rw [h2] at hev
      simp at hev
    · rw [h2] at hev
      simp only [List.mem_singleton] at hev
      subst hev
      rfl

theorem speed_stamped (a b : Option JSNum) (σ : AppState) (clock : ℤ) :
    ∀ ev ∈ (whenChanged a b σ.prevSpeed (speedEffect σ clock)).2, ev.timestamp = clock := by
  intro ev hev
  rcases whenChanged_shape a b σ.prevSpeed (speedEffect σ clock) with h | h
  · rw [h] at hev
    simp at hev
  · rw [h] at hev
    rcases speedEffect_shape σ clock with h2 | ⟨d, v, hd, hv, h2⟩
    · rw [h2] at hev
      simp at hev
    · rw [h2] at hev
      simp only [List.mem_singleton] at hev
      subst hev
      rfl

theorem torch_stamped (a b : Option Bool × Bool) (σ : AppState) (clock : ℤ) :
    ∀ ev ∈ (whenChanged a b σ.prevTorch (torchEffect σ clock)).2, ev.timestamp = clock := by
  intro ev hev
  rcases whenChanged_shape a b σ.prevTorch (torchEffect σ clock) with h | h
  · rw [h] at hev
    simp at hev
  · rw [h] at hev
    rcases torchEffect_shape σ clock with h2 | ⟨d, hd, h2⟩
    · rw [h2] at hev
      simp at hev
    · rw [h2] at hev
      simp only [List.mem_singleton] at hev
      subst hev
      rfl

theorem battery_stamped (a b : Option JSNum × Bool) (σ : AppState) (clock : ℤ) :
    ∀ ev ∈ (whenChanged a b σ.prevBattery (batteryEffect σ clock)).2, ev.timestamp = clock := by
  intro ev hev
  rcases whenChanged_shape a b σ.prevBattery (batteryEffect σ clock) with h | h
  · rw [h] at hev
    simp at hev
  · rw [h] at hev
    rcases batteryEffect_shape σ clock with h2 | ⟨d, v, hd, hv, h2⟩
    · rw [h2] at hev
      simp at hev
    · rw [h2] at hev
      simp only [List.mem_singleton] at hev
      subst hev
      rfl

theorem batteryDist_stamped (a b : Option JSNum × Bool) (σ : AppState) (clock : ℤ) :
    ∀ ev ∈ (whenChanged a b σ.prevBatteryDist (batteryDistEffect σ clock)).2, ev.timestamp = clock := by
  intro ev hev
  rcases whenChanged_shape a b σ.prevBatteryDist (batteryDistEffect σ clock) with h | h
  · rw [h] at hev
    simp at hev
  · rw [h] at hev
    rcases batteryDistEffect_shape σ clock with h2 | ⟨d, v, hd, hv, h2⟩
    · rw [h2] at hev
      simp at hev
    · rw [h2] at hev
      simp only [List.mem_singleton] at hev
      subst hev
      rfl

theorem tyre_stamped (a b : Option JSNum × Bool) (σ : AppState) (clock : ℤ) :
    ∀ ev ∈ (whenChanged a b σ.prevTyrePsi (tyreEffect σ clock)).2, ev.timestamp = clock := by
  intro ev hev
  rcases whenChanged_shape a b σ.prevTyrePsi (tyreEffect σ clock) with h | h
  · rw [h] at hev
    simp at hev
  · rw [h] at hev
    rcases tyreEffect_shape σ clock with h2 | ⟨d, v, hd, hv, h2⟩
    · rw [h2] at hev
      simp at hev
    · rw [h2] at hev
      simp only [List.mem_singleton] at hev
      subst hev
      rfl

theorem step_stamped (σ : AppState) (e : AppEvent) (clock : ℤ) :
    ∀ ev ∈ (σ.step e clock).2, ev.timestamp = clock := by
  intro ev hev
  simp only [AppState.step, commit, List.mem_append] at hev
  rcases hev with ((((h | h) | h) | h) | h) | h
  · exact gps_stamped _ _ _ clock ev h
  · exact speed_stamped _ _ _ clock ev h
  · exact torch_stamped _ _ _ clock ev h
  · exact battery_stamped _ _ _ clock ev h
  · exact batteryDist_stamped _ _ _ clock ev h
  · exact tyre_stamped _ _ _ clock ev h

theorem handleTelemetry_calls (receiversId : List (Option String)) (publishOk : Bool)
    (e : Event) :
    (handleTelemetry receiversId publishOk e).calls = [] ∨
    (handleTelemetry receiversId publishOk e).calls = [⟨e.busName, receiversId, e⟩] := by
  unfold handleTelemetry
  split_ifs
  · exact Or.inr rfl
  · exact Or.inl rfl
  · exact Or.inl rfl

theorem handleTelemetry_of_valid (receiversId : List (Option String)) (publishOk : Bool)
    (e : Event) (hv : validTime e.timestamp = true) (hr : receiversId ≠ []) :
    handleTelemetry receiversId publishOk e =
      { calls := [⟨e.busName, receiversId, e⟩], caught := !publishOk,
        outcome := Outcome.completed } := by
  unfold handleTelemetry
  rw [if_pos hv, if_pos (List.length_pos.mpr hr)]

theorem busName_eq_iff (e f : Event) :
    e.busName = f.busName ↔ e.transportName = f.transportName := by
  cases e <;> cases f <;> simp only [Event.busName, Event.transportName] <;> decide

/-- C15, as the code has it: the name a telemetry handler passes to publish is
the `trackpedal/...` constant of its event, not the transport name; the
constants correspond one to one to the six transport names. -/
theorem publish_name_is_bus_constant (receiversId : List (Option String))
    (publishOk : Bool) (e : Event) :
    (∀ call ∈ (handleTelemetry receiversId publishOk e).calls, call.eventName = e.busName) ∧
    (∀ f : Event, e.busName = f.busName ↔ e.transportName = f.transportName) ∧
    e.busName ≠ e.transportName := by
  refine ⟨?_, busName_eq_iff e, by
    cases e <;> simp only [Event.busName, Event.transportName] <;> decide⟩
  intro call hc
  rcases handleTelemetry_calls receiversId publishOk e with h | h
  · rw [h] at hc
    cases hc
  · rw [h, List.mem_singleton] at hc
    rw [hc]

theorem publish_name_is_bus_constant_witness :
    PublishCall.mk "trackpedal/gps" [some "receiver-1"] (Event.bike_gps 0 0 0) ∈
      (handleTelemetry [some "receiver-1"] true (Event.bike_gps 0 0 0)).calls ∧
    "trackpedal/gps" = (Event.bike_gps 0 0 0).busName :=
  have hm : PublishCall.mk "trackpedal/gps" [some "receiver-1"] (Event.bike_gps 0 0 0) ∈
      (handleTelemetry [some "receiver-1"] true (Event.bike_gps 0 0 0)).calls :=
    List.Mem.head _
  ⟨hm, (publish_name_is_bus_constant [some "receiver-1"] true (Event.bike_gps 0 0 0)).1 _ hm⟩

theorem publish_name_differs :
    (handleTelemetry [some "receiver-1"] true (Event.bike_gps 0 0 0)).calls.map
        PublishCall.eventName = ["trackpedal/gps"] ∧
    (Event.bike_gps 0 0 0).transportName = "bike_gps" ∧
    ¬ (∀ call ∈ (handleTelemetry [some "receiver-1"] true (Event.bike_gps 0 0 0)).calls,
      call.eventName = (Event.bike_gps 0 0 0).transportName) := by
  refine ⟨rfl, rfl, ?_⟩
  intro h
  have := h ⟨"trackpedal/gps", [some "receiver-1"], Event.bike_gps 0 0 0⟩ (List.Mem.head _)
  revert this
  decide

/-- C16, as the code has it: with an empty receiver list a telemetry handler
makes no publish call, whatever the event; it completes without error when the
event's timestamp can be printed as a date (as every `Date.now()` can), the
log line outside the `try` being the only thing that can throw. -/
theorem empty_receivers_skip_publish (publishOk : Bool) (e : Event) :
    (handleTelemetry [] publishOk e).calls = [] ∧
    (validTime e.timestamp = true →
      (handleTelemetry [] publishOk e).outcome = Outcome.completed ∧
      (handleTelemetry [] publishOk e).caught = false) := by
  unfold handleTelemetry
  split_ifs with h1 h2
  · simp at h2
  · exact ⟨rfl, fun _ => ⟨rfl, rfl⟩⟩
  · exact ⟨rfl, fun hv => absurd hv h1⟩

theorem empty_receivers_skip_publish_witness :
    validTime (Event.bike_speed 18 1700000000000).timestamp = true ∧
    (handleTelemetry [] false (Event.bike_speed 18 1700000000000)).calls = [] ∧
    (handleTelemetry [] false (Event.bike_speed 18 1700000000000)).outcome =
      Outcome.completed :=
  ⟨by decide, (empty_receivers_skip_publish false (Event.bike_speed 18 1700000000000)).1,
    ((empty_receivers_skip_publish false (Event.bike_speed 18 1700000000000)).2
      (by decide)).1⟩

theorem empty_receivers_handler_throws :
    (handleTelemetry [] true (Event.bike_gps 0 0 10000000000000000)).calls = [] ∧
    (handleTelemetry [] true (Event.bike_gps 0 0 10000000000000000)).outcome =
      Outcome.threw ∧
    ¬ ((handleTelemetry [] true (Event.bike_gps 0 0 10000000000000000)).calls = [] ∧
      (handleTelemetry [] true (Event.bike_gps 0 0 10000000000000000)).outcome =
        Outcome.completed) := by
  decide

/-- C17, the claim as stated fails: after an event whose publish fails, the
next event carries a timestamp that cannot be printed as a date; its handler
throws at the log line, before the `try`, and makes no publish attempt. -/
theorem next_event_not_published :
    (relayRun [some "receiver-1"]
      [(Inbound.telemetry (Event.bike_torch true 1700000000000), false),
        (Inbound.telemetry (Event.bike_torch false 10000000000000000), true)]).map
          (fun h => (h.calls.length, h.caught, h.outcome)) =
      [(1, true, Outcome.completed), (0, false, Outcome.threw)] ∧
    (handle [some "receiver-1"] true
      (Inbound.telemetry (Event.bike_torch false 10000000000000000))).calls = [] ∧
    ¬ ((handle [some "receiver-1"] true
      (Inbound.telemetry (Event.bike_torch false 10000000000000000))).calls.length = 1) := by
  decide

/-- C17, as the code has it: when the publish call of a telemetry handler
fails, the handler still completes (the `catch` block logs the error) and the
failed call is its only publish call; the next message is handled exactly as it
would be on its own, so a following telemetry event whose timestamp can be
printed as a date gets its one publish call and its handler completes. -/
theorem publish_failure_swallowed (receiversId : List (Option String)) (e : Event)
    (hcalled : (handleTelemetry receiversId false e).calls ≠ []) :
    (handleTelemetry receiversId false e).outcome = Outcome.completed ∧
    (handleTelemetry receiversId false e).caught = true ∧
    (handleTelemetry receiversId false e).calls = [⟨e.busName, receiversId, e⟩] ∧
    (∀ (f : Event) (ok : Bool), validTime f.timestamp = true →
      relayRun receiversId [(Inbound.telemetry e, false), (Inbound.telemetry f, ok)] =
        [⟨[⟨e.busName, receiversId, e⟩], true, Outcome.completed⟩,
          ⟨[⟨f.busName, receiversId, f⟩], !ok, Outcome.completed⟩]) ∧
    (∀ (next : Inbound) (ok : Bool),
      relayRun receiversId [(Inbound.telemetry e, false), (next, ok)] =
        [handleTelemetry receiversId false e, handle receiversId ok next]) := by
  have hr : receiversId ≠ [] := by
    intro h
    apply hcalled
    rw [h]
    unfold handleTelemetry
    split_ifs with h1 h2
    · simp at h2
    · rfl
    · rfl
  have hv : validTime e.timestamp = true := by
    by_contra h
    apply hcalled
    unfold handleTelemetry
    rw [if_neg h]
  rw [handleTelemetry_of_valid receiversId false e hv hr]
  refine ⟨rfl, rfl, rfl, fun f ok hf => ?_, fun next ok => ?_⟩
  · simp [relayRun, handle, handleTelemetry_of_valid receiversId false e hv hr,
      handleTelemetry_of_valid receiversId ok f hf hr]
  · simp [relayRun, handle, handleTelemetry_of_valid receiversId false e hv hr]

theorem publish_failure_swallowed_witness :
    (handleTelemetry [some "receiver-1"] false (Event.bike_torch true 1700000000000)).calls
      ≠ [] ∧
    validTime (Event.bike_torch false 1700000001000).timestamp = true ∧
    (handleTelemetry [some "receiver-1"] false
      (Event.bike_torch true 1700000000000)).outcome = Outcome.completed ∧
    relayRun [some "receiver-1"]
      [(Inbound.telemetry (Event.bike_torch true 1700000000000), false),
        (Inbound.telemetry (Event.bike_torch false 1700000001000), true)] =
      [⟨[⟨(Event.bike_torch true 1700000000000).busName, [some "receiver-1"],
          Event.bike_torch true 1700000000000⟩], true, Outcome.completed⟩,
        ⟨[⟨(Event.bike_torch false 1700000001000).busName, [some "receiver-1"],
          Event.bike_torch false 1700000001000⟩], !true, Outcome.completed⟩] :=
  have hc : (handleTelemetry [some "receiver-1"] false
      (Event.bike_torch true 1700000000000)).calls ≠ [] := by decide
  have h := publish_failure_swallowed [some "receiver-1"]
    (Event.bike_torch true 1700000000000) hc
  ⟨hc, by decide, h.1, h.2.2.2.1 (Event.bike_torch false 1700000001000) true (by decide)⟩

/-- C18: the handlers of `bike_data`, `plan_selected` and `plan_purchased` make
no publish call, whatever the payload, the receiver list and the bus. -/
theorem non_telemetry_not_relayed (receiversId : List (Option String)) (publishOk : Bool)
    (timestamp : Option ℤ) :
    (handle receiversId publishOk (Inbound.bike_data timestamp)).calls = [] ∧
    (handle receiversId publishOk (Inbound.plan_selected timestamp)).calls = [] ∧
    (handle receiversId publishOk (Inbound.plan_purchased timestamp)).calls = [] := by
  have h : (handleLogOnly timestamp).calls = [] := by
    unfold handleLogOnly
    split
    · split_ifs <;> rfl
    · rfl
  exact ⟨h, h, h⟩

/-- C19: every publish call of a telemetry handler carries the inbound event
itself, metric fields and timestamp unchanged; for an event emitted by a step
of `App` that timestamp is the `Date.now()` of the emission. -/
theorem relay_payload_unchanged (receiversId : List (Option String)) (publishOk : Bool)
    (e : Event) :
    (∀ call ∈ (handleTelemetry receiversId publishOk e).calls,
      call.payload = e ∧ call.payload.timestamp = e.timestamp) ∧
    (∀ (σ : AppState) (a : AppEvent) (clock : ℤ), e ∈ (σ.step a clock).2 →
      ∀ call ∈ (handleTelemetry receiversId publishOk e).calls,
        call.payload.timestamp = clock) := by
  have key : ∀ call ∈ (handleTelemetry receiversId publishOk e).calls, call.payload = e := by
    intro call hc
    rcases handleTelemetry_calls receiversId publishOk e with h | h
    · rw [h] at hc
      cases hc
    · rw [h, List.mem_singleton] at hc
      rw [hc]
  refine ⟨fun call hc => ⟨key call hc, by rw [key call hc]⟩, ?_⟩
  intro σ a clock he call hc
  rw [key call hc]
  exact step_stamped σ a clock e he

theorem relay_payload_unchanged_witness :
    Event.bike_speed (toFixedNum 1 18) 1 ∈
      (AppState.initial.step (AppEvent.onTick SimData.atMount) 1).2 ∧
    PublishCall.mk "trackpedal/speed" [some "receiver-1"]
        (Event.bike_speed (toFixedNum 1 18) 1) ∈
      (handleTelemetry [some "receiver-1"] true (Event.bike_speed (toFixedNum 1 18) 1)).calls ∧
    (PublishCall.mk "trackpedal/speed" [some "receiver-1"]
      (Event.bike_speed (toFixedNum 1 18) 1)).payload.timestamp = 1 :=
  have hmem : Event.bike_speed (toFixedNum 1 18) 1 ∈
      (AppState.initial.step (AppEvent.onTick SimData.atMount) 1).2 :=
    List.Mem.tail _ (List.Mem.head _)
  have hcall : PublishCall.mk "trackpedal/speed" [some "receiver-1"]
        (Event.bike_speed (toFixedNum 1 18) 1) ∈
      (handleTelemetry [some "receiver-1"] true
        (Event.bike_speed (toFixedNum 1 18) 1)).calls :=
    List.Mem.head _
  ⟨hmem, hcall, (relay_payload_unchanged [some "receiver-1"] true
    (Event.bike_speed (toFixedNum 1 18) 1)).2 AppState.initial
    (AppEvent.onTick SimData.atMount) 1 hmem _ hcall⟩

/-! ## Theorems: the session cache -/

/-- C20, what the code does against the claim: a failed creation is stored.
The first request for session `s1` fails; the cache then has the key `s1`
with value `undefined`, and a second request, for which creation would
succeed, makes no creation call and answers with no URL. -/
theorem failed_creation_is_cached :
    (connect Plan.basic (some "s1") none []).created = [(Plan.basic, "s1")] ∧
    (connect Plan.basic (some "s1") none []).sessions.has "s1" = true ∧
    (connect Plan.basic (some "s1") (some "https://embed/42")
      (connect Plan.basic (some "s1") none []).sessions).created = [] ∧
    (connect Plan.basic (some "s1") (some "https://embed/42")
      (connect Plan.basic (some "s1") none []).sessions).url = none := by
  decide

/-! ## Theorems: one tick, reset, and `wrapDeg` again -/

/-- C25: Reset sets the position to `(0, 0)` and the heading to 0 and leaves
battery level, distance on battery, tyre pressure, torch, speed and the
running flag (and the last-tick time and the drift) as they were. -/
theorem reset_frame (env : MathEnv) (s : SimState) :
    (s.apply env SimCmd.reset).pos = ⟨0, 0⟩ ∧
    (s.apply env SimCmd.reset).headingDeg = 0 ∧
    (s.apply env SimCmd.reset).batteryLevel = s.batteryLevel ∧
    (s.apply env SimCmd.reset).distanceByBatteryKm = s.distanceByBatteryKm ∧
    (s.apply env SimCmd.reset).tyrePressurePsi = s.tyrePressurePsi ∧
    (s.apply env SimCmd.reset).torchOn = s.torchOn ∧
    (s.apply env SimCmd.reset).speedKmh = s.speedKmh ∧
    (s.apply env SimCmd.reset).running = s.running ∧
    (s.apply env SimCmd.reset).lastTick = s.lastTick ∧
    (s.apply env SimCmd.reset).drift = s.drift :=
  ⟨rfl, rfl, rfl, rfl, rfl, rfl, rfl, rfl, rfl, rfl⟩

/-- C26: a tick changes neither the tyre pressure nor the torch nor the speed,
for every state and every `now` (every `dt`); a command that changes the tyre
pressure is `+ Tyre`, `- Tyre` or `setTyrePressure`. -/
theorem tick_frame (env : MathEnv) (s : SimState) :
    (∀ now rnd : ℚ,
      (s.apply env (SimCmd.tick now rnd)).tyrePressurePsi = s.tyrePressurePsi ∧
      (s.apply env (SimCmd.tick now rnd)).torchOn = s.torchOn ∧
      (s.apply env (SimCmd.tick now rnd)).speedKmh = s.speedKmh ∧
      (loop env now rnd s).tyrePressurePsi = s.tyrePressurePsi ∧
      (loop env now rnd s).torchOn = s.torchOn ∧
      (loop env now rnd s).speedKmh = s.speedKmh) ∧
    (∀ c : SimCmd, (s.apply env c).tyrePressurePsi ≠ s.tyrePressurePsi →
      c = SimCmd.tyrePlus ∨ c = SimCmd.tyreMinus ∨ ∃ n, c = SimCmd.setTyrePressure n) := by
  constructor
  · intro now rnd
    simp only [SimState.apply]
    split_ifs
    · exact ⟨rfl, rfl, rfl, rfl, rfl, rfl⟩
    · exact ⟨rfl, rfl, rfl, rfl, rfl, rfl⟩
  · intro c hc
    cases c with
    | tick now rnd =>
      exfalso
      apply hc
      simp only [SimState.apply]
      split_ifs <;> rfl
    | toggleRunning now =>
      exfalso
      apply hc
      simp only [SimState.apply]
      split_ifs <;> rfl
    | tyrePlus => exact Or.inl rfl
    | tyreMinus => exact Or.inr (Or.inl rfl)
    | setTyrePressure n => exact Or.inr (Or.inr ⟨n, rfl⟩)
    | _ => exact absurd rfl hc

theorem wrapDeg_of_mem (d : ℚ) (h0 : 0 ≤ d) (h1 : d < 360) : wrapDeg d = d := by
  have hq0 : (0 : ℚ) ≤ d / 360 := by positivity
  have hq1 : d / 360 < 1 := by
    rw [div_lt_one (by norm_num)]
    exact h1
  have hf : ⌊d / 360⌋ = 0 := by
    rw [Int.floor_eq_iff]
    constructor
    · simpa using hq0
    · simpa using hq1
  have hr : jsRem d 360 = d := by
    unfold jsRem truncQ
    rw [if_pos hq0, hf]
    simp
  unfold wrapDeg
  simp only [hr]
  rw [if_neg (not_lt.mpr h0)]

theorem loop_pos (env : MathEnv) (now rnd : ℚ) (s : SimState) :
    (loop env now rnd s).pos =
      ⟨s.pos.x + env.cos ((loop env now rnd s).headingDeg * env.pi / 180) *
          (s.speedKmh * 1000 / 3600 * tickDt now s.lastTick),
        s.pos.y + env.sin ((loop env now rnd s).headingDeg * env.pi / 180) *
          (s.speedKmh * 1000 / 3600 * tickDt now s.lastTick)⟩ :=
  rfl

theorem loop_heading (env : MathEnv) (now rnd : ℚ) (s : SimState) :
    (loop env now rnd s).headingDeg = wrapDeg (s.headingDeg + headingChange now rnd s) := by
  simp only [loop, headingChange, add_assoc]

theorem loop_battery (env : MathEnv) (now rnd : ℚ) (s : SimState) :
    (loop env now rnd s).batteryLevel =
      max 0 (min 100 (s.batteryLevel -
        s.speedKmh * 1000 / 3600 * tickDt now s.lastTick * (1 / 1000))) :=
  rfl

/-- C22: a tick whose new heading is 0 degrees, with `Math.cos(0) = 1` and
`Math.sin(0) = 0`, moves the position by `dx = speedKmh * 1000 / 3600 * dt`
and `dy = 0`, and takes `0.001 * dx` off the battery (before clamping); at
18 km/h with `dt = 1` from the start state that is `dx = 5`, `dy = 0`, a drop
of 0.005 points and 0.005 km more on the battery distance. -/
theorem tick_along_x (env : MathEnv) (hcos : env.cos 0 = 1) (hsin : env.sin 0 = 0)
    (now rnd : ℚ) (s : SimState) (hh : (loop env now rnd s).headingDeg = 0) :
    ((loop env now rnd s).pos.x = s.pos.x + s.speedKmh * 1000 / 3600 * tickDt now s.lastTick ∧
      (loop env now rnd s).pos.y = s.pos.y ∧
      (loop env now rnd s).batteryLevel =
        max 0 (min 100 (s.batteryLevel -
          1 / 1000 * ((loop env now rnd s).pos.x - s.pos.x)))) ∧
    (s = SimState.initial 18 (now - 1000) → rnd = 1 / 2 →
      tickDt now s.lastTick = 1 ∧
      (loop env now rnd s).pos = ⟨5, 0⟩ ∧
      (loop env now rnd s).batteryLevel = 100 - 5 / 1000 ∧
      (loop env now rnd s).distanceByBatteryKm = 5 / 1000) := by
  have hx : (loop env now rnd s).pos.x =
      s.pos.x + s.speedKmh * 1000 / 3600 * tickDt now s.lastTick := by
    rw [loop_pos, hh]
    simp [hcos]
  have hy : (loop env now rnd s).pos.y = s.pos.y := by
    rw [loop_pos, hh]
    simp [hsin]
  refine ⟨⟨hx, hy, ?_⟩, ?_⟩
  · rw [loop_battery, hx]
    congr 2
    ring
  · intro hs hr
    have hdt : tickDt now s.lastTick = 1 := by
      rw [hs]
      norm_num [tickDt, SimState.initial]
    refine ⟨hdt, ?_, ?_, ?_⟩
    · have h1 := hx
      have h2 := hy
      rw [hdt] at h1
      rw [hs] at h1 h2
      have e1 : (loop env now rnd (SimState.initial 18 (now - 1000))).pos.x = 5 := by
        rw [h1]
        norm_num [SimState.initial]
      have e2 : (loop env now rnd (SimState.initial 18 (now - 1000))).pos.y = 0 := by
        rw [h2]
        rfl
      rw [hs]
      cases hp : (loop env now rnd (SimState.initial 18 (now - 1000))).pos with
      | mk px py =>
        rw [hp] at e1 e2
        simp only at e1 e2
        rw [e1, e2]
    · rw [loop_battery, hdt, hs]
      norm_num [SimState.initial]
    · have hD : (loop env now rnd s).distanceByBatteryKm =
          s.distanceByBatteryKm + s.speedKmh * 1000 / 3600 * tickDt now s.lastTick / 1000 :=
        rfl
      rw [hD, hdt, hs]
      norm_num [SimState.initial]

theorem wrapDeg_zero : wrapDeg 0 = 0 :=
  wrapDeg_of_mem 0 (le_refl _) (by norm_num)

theorem start_tick_heading :
    (loop MathEnv.straight 1000 (1 / 2) (SimState.initial 18 (1000 - 1000))).headingDeg = 0 := by
  rw [loop_heading]
  have h : headingChange 1000 (1 / 2) (SimState.initial 18 (1000 - 1000)) = 0 := by
    simp [headingChange, SimState.initial]
  rw [h]
  simpa [SimState.initial] using wrapDeg_zero

theorem tick_along_x_witness :
    MathEnv.straight.cos 0 = 1 ∧ MathEnv.straight.sin 0 = 0 ∧
    (loop MathEnv.straight 1000 (1 / 2) (SimState.initial 18 (1000 - 1000))).headingDeg = 0 ∧
    tickDt 1000 (SimState.initial 18 (1000 - 1000)).lastTick = 1 ∧
    (loop MathEnv.straight 1000 (1 / 2) (SimState.initial 18 (1000 - 1000))).pos = ⟨5, 0⟩ ∧
    (loop MathEnv.straight 1000 (1 / 2) (SimState.initial 18 (1000 - 1000))).batteryLevel =
      100 - 5 / 1000 ∧
    (loop MathEnv.straight 1000 (1 / 2)
      (SimState.initial 18 (1000 - 1000))).distanceByBatteryKm = 5 / 1000 :=
  ⟨rfl, rfl, start_tick_heading,
    (tick_along_x MathEnv.straight rfl rfl 1000 (1 / 2) (SimState.initial 18 (1000 - 1000))
      start_tick_heading).2 rfl rfl⟩

theorem loop_pos_of_zero_speed (env : MathEnv) (now rnd : ℚ) (s : SimState)
    (hv : s.speedKmh = 0) : (loop env now rnd s).pos = s.pos := by
  rw [loop_pos, hv]
  simp

/-- C23: a tick at speed 0 leaves the position where it was, whatever `dt`,
heading, drift and noise; and once the quantized position is what the gps
channel emitted last, the snapshot of that tick emits no `bike_gps` event and
leaves `prevPosRef` alone. -/
theorem still_bike_no_gps (env : MathEnv) (now rnd : ℚ) (s : SimState)
    (hv : s.speedKmh = 0) :
    (loop env now rnd s).pos = s.pos ∧
    (s.apply env (SimCmd.tick now rnd)).pos = s.pos ∧
    ∀ (σ : AppState) (timestamp clock : ℤ),
      σ.prevPos = some (toFixedNum 2 s.pos.x, toFixedNum 2 s.pos.y) →
      onChannel Channel.gps
          (σ.step (AppEvent.onTick ((loop env now rnd s).snapshot timestamp)) clock).2 = [] ∧
        (σ.step (AppEvent.onTick ((loop env now rnd s).snapshot timestamp)) clock).1.prevPos =
          σ.prevPos := by
  have hp := loop_pos_of_zero_speed env now rnd s hv
  refine ⟨hp, ?_, ?_⟩
  · simp only [SimState.apply]
    split_ifs
    · exact hp
    · rfl
  · intro σ timestamp clock hprev
    apply gps_silent
    intro d x y hd hx hy
    have hd2 : d = (loop env now rnd s).snapshot timestamp := (Option.some.inj hd).symm
    subst hd2
    have hx2 : toFixedNum 2 (loop env now rnd s).pos.x = x := Option.some.inj hx
    have hy2 : toFixedNum 2 (loop env now rnd s).pos.y = y := Option.some.inj hy
    rw [hp] at hx2 hy2
    rw [hprev, hx2, hy2]

theorem still_bike_no_gps_witness :
    (SimState.initial 0 0).speedKmh = 0 ∧
    tickDt 250 (SimState.initial 0 0).lastTick = 1 / 4 ∧
    (loop MathEnv.straight 250 (1 / 2) (SimState.initial 0 0)).pos =
      (SimState.initial 0 0).pos ∧
    AppState.mounted.prevPos = some (toFixedNum 2 (SimState.initial 0 0).pos.x,
      toFixedNum 2 (SimState.initial 0 0).pos.y) ∧
    onChannel Channel.gps
      (AppState.mounted.step (AppEvent.onTick
        ((loop MathEnv.straight 250 (1 / 2) (SimState.initial 0 0)).snapshot 250)) 250).2 = [] :=
  have h := still_bike_no_gps MathEnv.straight 250 (1 / 2) (SimState.initial 0 0) rfl
  ⟨rfl, by norm_num [tickDt, SimState.initial], h.1, rfl,
    (h.2.2 AppState.mounted 250 250 rfl).1⟩

theorem easeInOutCubic_bounds (t : ℚ) (h0 : 0 ≤ t) (h1 : t ≤ 1) :
    0 ≤ easeInOutCubic t ∧ easeInOutCubic t ≤ 1 := by
  unfold easeInOutCubic
  split_ifs with h
  · constructor
    · positivity
    · nlinarith [mul_nonneg h0 h0, mul_nonneg (mul_nonneg h0 h0) h0,
        mul_nonneg h0 (sub_nonneg.mpr (le_of_lt h)),
        mul_nonneg (mul_nonneg h0 h0) (sub_nonneg.mpr (le_of_lt h))]
  · have hu0 : (0 : ℚ) ≤ -2 * t + 2 := by linarith
    have hu1 : -2 * t + 2 ≤ 1 := by linarith [not_lt.mp h]
    have hc0 : (0 : ℚ) ≤ (-2 * t + 2) ^ 3 := by positivity
    have hc1 : (-2 * t + 2) ^ 3 ≤ 1 := pow_le_one₀ hu0 hu1
    constructor <;> linarith

theorem loop_progress (env : MathEnv) (now rnd : ℚ) (s : SimState) :
    (loop env now rnd s).drift.t = min 1 (s.drift.t + tickDt now s.lastTick / 3) ∧
    (loop env now rnd s).drift.target = s.drift.target :=
  ⟨rfl, rfl⟩

theorem progress_bounds (t dt : ℚ) (h0 : 0 ≤ t) (hdt : 0 ≤ dt) :
    0 ≤ min 1 (t + dt / 3) ∧ min 1 (t + dt / 3) ≤ 1 :=
  ⟨le_min (by norm_num) (by positivity), min_le_left _ _⟩

/-- C27: in a tick whose clock has not run backwards (so `dt` is in `[0, 1]`),
with a drift target in `[-8, 8)` as `randomizeDrift` produces, an ease progress
in `[0, 1]` and `Math.random()` in `[0, 1)`, the heading change before
wrapping is at most `8.4 * dt` in absolute value, hence at most 8.4 degrees. -/
theorem heading_change_bound (env : MathEnv) (now rnd : ℚ) (s : SimState)
    (hclock : s.lastTick ≤ now) (htarget : -8 ≤ s.drift.target ∧ s.drift.target < 8)
    (ht : 0 ≤ s.drift.t ∧ s.drift.t ≤ 1) (hr : 0 ≤ rnd ∧ rnd < 1) :
    (loop env now rnd s).headingDeg = wrapDeg (s.headingDeg + headingChange now rnd s) ∧
    |headingChange now rnd s| ≤ 84 / 10 * tickDt now s.lastTick ∧
    |headingChange now rnd s| ≤ 84 / 10 ∧
    (∀ r : ℚ, 0 ≤ r → r < 1 →
      -8 ≤ (s.apply env (SimCmd.randomizeDrift r)).drift.target ∧
      (s.apply env (SimCmd.randomizeDrift r)).drift.target < 8) := by
  have hdt0 := tickDt_nonneg now s.lastTick hclock
  have hdt1 := tickDt_le_one now s.lastTick
  have hp := progress_bounds s.drift.t (tickDt now s.lastTick) ht.1 hdt0
  have he := easeInOutCubic_bounds _ hp.1 hp.2
  have hkey : |headingChange now rnd s| ≤ 84 / 10 * tickDt now s.lastTick := by
    have hform : headingChange now rnd s =
        (s.drift.target * easeInOutCubic (min 1 (s.drift.t + tickDt now s.lastTick / 3)) +
          (rnd - 1 / 2) * (4 / 5)) * tickDt now s.lastTick := by
      simp only [headingChange]
      ring
    rw [hform, abs_mul, abs_of_nonneg hdt0]
    apply mul_le_mul_of_nonneg_right _ hdt0
    rw [abs_le]
    constructor
    · nlinarith [mul_nonneg (by linarith [htarget.1] : (0 : ℚ) ≤ s.drift.target + 8) he.1,
        mul_nonneg (by linarith [htarget.1] : (0 : ℚ) ≤ s.drift.target + 8)
          (sub_nonneg.mpr he.2), he.1, he.2, hr.1]
    · nlinarith [mul_nonneg (by linarith [htarget.2] : (0 : ℚ) ≤ 8 - s.drift.target) he.1,
        mul_nonneg (by linarith [htarget.2] : (0 : ℚ) ≤ 8 - s.drift.target)
          (sub_nonneg.mpr he.2), he.1, he.2, hr.2]
  refine ⟨loop_heading env now rnd s, hkey, ?_, ?_⟩
  · calc |headingChange now rnd s| ≤ 84 / 10 * tickDt now s.lastTick := hkey
      _ ≤ 84 / 10 * 1 := by apply mul_le_mul_of_nonneg_left hdt1; norm_num
      _ = 84 / 10 := by ring
  · intro r h0 h1
    simp only [SimState.apply]
    constructor <;> linarith

theorem heading_change_bound_witness :
    (SimState.initial 18 0).lastTick ≤ 250 ∧
    |headingChange 250 (1 / 4) (SimState.initial 18 0)| ≤
      84 / 10 * tickDt 250 (SimState.initial 18 0).lastTick ∧
    |headingChange 250 (1 / 4) (SimState.initial 18 0)| ≤ 84 / 10 :=
  have h := heading_change_bound MathEnv.straight 250 (1 / 4) (SimState.initial 18 0)
    (by norm_num [SimState.initial]) (by norm_num [SimState.initial])
    (by norm_num [SimState.initial]) (by norm_num)
  ⟨by norm_num [SimState.initial], h.2.1, h.2.2.1⟩

/-! ## Theorems: the ease progress along a run -/

theorem min_progress_add (t d e : ℚ) (_hd : 0 ≤ d) (he : 0 ≤ e) :
    min 1 (min 1 (t + d / 3) + e / 3) = min 1 (t + (d + e) / 3) := by
  simp only [min_def]
  split_ifs <;> linarith

/-! ## Theorems: the session cache over a sequence of requests -/

theorem serve_of_cached (m : Sessions) (r : Request) (v : Option String)
    (h : m.lookup r.session = some v) :
    (serve m r).url = v ∧ (serve m r).created = [] ∧ (serve m r).sessions = m := by
  have hhas : m.has (sessionOf r.plan r.query) = true := by
    have : m.lookup (sessionOf r.plan r.query) = some v := h
    simp [Sessions.has, this]
  have hget : m.get (sessionOf r.plan r.query) = v := by
    have : m.lookup (sessionOf r.plan r.query) = some v := h
    simp [Sessions.get, this]
  have e : serve m r =
      { sessions := m, url := m.get (sessionOf r.plan r.query), created := [] } := by
    simp only [serve, connect, hhas, if_true]
  rw [e]
  exact ⟨hget, rfl, rfl⟩

theorem serve_of_new (m : Sessions) (r : Request) (h : m.has r.session = false) :
    (serve m r).url = r.result ∧ (serve m r).created = [(r.plan, r.session)] ∧
    (serve m r).sessions = (r.session, r.result) :: m := by
  have hhas : m.has (sessionOf r.plan r.query) = false := h
  have e : serve m r =
      { sessions := m.set (sessionOf r.plan r.query) r.result
        url := (m.set (sessionOf r.plan r.query) r.result).get (sessionOf r.plan r.query)
        created := [(r.plan, sessionOf r.plan r.query)] } := by
    simp only [serve, connect, hhas, Bool.false_eq_true, if_false]
  rw [e]
  refine ⟨?_, rfl, rfl⟩
  simp [Sessions.get, Sessions.set, List.lookup]

theorem serve_keeps (m : Sessions) (r : Request) (s : String) (v : Option String)
    (h : m.lookup s = some v) : (serve m r).sessions.lookup s = some v := by
  cases hh : m.has r.session with
  | true =>
    obtain ⟨w, hw⟩ := Option.isSome_iff_exists.mp hh
    rw [(serve_of_cached m r w hw).2.2]
    exact h
  | false =>
    rw [(serve_of_new m r hh).2.2]
    have hne : (s == r.session) = false := by
      rw [beq_eq_false_iff_ne]
      intro heq
      rw [heq] at h
      simp [Sessions.has, h] at hh
    simp [List.lookup, hne, h]

theorem serve_records (m : Sessions) (r : Request) :
    (serve m r).sessions.lookup r.session = some (serve m r).url := by
  cases hh : m.has r.session with
  | true =>
    obtain ⟨w, hw⟩ := Option.isSome_iff_exists.mp hh
    obtain ⟨h1, -, h3⟩ := serve_of_cached m r w hw
    rw [h3, h1]
    exact hw
  | false =>
    obtain ⟨h1, -, h3⟩ := serve_of_new m r hh
    rw [h3, h1]
    simp [List.lookup]

theorem serveAll_keeps (reqs : List Request) (m : Sessions) (s : String) (v : Option String)
    (h : m.lookup s = some v) : (serveAll m reqs).1.lookup s = some v := by
  induction reqs generalizing m with
  | nil => exact h
  | cons r rs ih => exact ih (serve m r).sessions (serve_keeps m r s v h)

theorem serveAll_answers (reqs : List Request) (m : Sessions) (s : String) (v : Option String)
    (h : m.lookup s = some v) :
    ∀ p ∈ reqs.zip (serveAll m reqs).2, p.1.session = s → p.2.url = v ∧ p.2.created = [] := by
  induction reqs generalizing m with
  | nil =>
    intro p hp
    simp [serveAll] at hp
  | cons r rs ih =>
    intro p hp hs
    simp only [serveAll, List.zip_cons_cons, List.mem_cons] at hp
    rcases hp with hp | hp
    · subst hp
      simp only at hs ⊢
      obtain ⟨h1, h2, -⟩ := serve_of_cached m r v (by rw [hs]; exact h)
      exact ⟨h1, h2⟩
    · exact ih (serve m r).sessions (serve_keeps m r s v h) p hp hs

/-- C21: once creation has succeeded for a session (the request `first` found
no entry and `createIntegrator` returned `u`), every later request for that
session, on either endpoint, answers `u` and makes no creation call, and the
entry is still there at the end; no request removes or overwrites an entry. -/
theorem cached_url_is_stable (m : Sessions) (first : Request) (u : String)
    (later : List Request) (hnew : m.has first.session = false)
    (hok : first.result = some u) :
    (serve m first).url = some u ∧
    (serve m first).created = [(first.plan, first.session)] ∧
    (∀ p ∈ later.zip (serveAll (serve m first).sessions later).2,
      p.1.session = first.session → p.2.url = some u ∧ p.2.created = []) ∧
    (serveAll (serve m first).sessions later).1.lookup first.session = some (some u) ∧
    (∀ (k : Sessions) (reqs : List Request) (s : String) (v : Option String),
      k.lookup s = some v → (serveAll k reqs).1.lookup s = some v) := by
  obtain ⟨h1, h2, -⟩ := serve_of_new m first hnew
  have hrec : (serve m first).sessions.lookup first.session = some (some u) := by
    rw [serve_records, h1, hok]
  exact ⟨by rw [h1, hok], h2, serveAll_answers later _ _ _ hrec, serveAll_keeps later _ _ _ hrec,
    fun k reqs s v hk => serveAll_keeps reqs k s v hk⟩

theorem cached_url_is_stable_witness :
    Sessions.has [] (Request.mk Plan.basic (some "s1") (some "https://embed/1")).session
      = false ∧
    (serve [] (Request.mk Plan.basic (some "s1") (some "https://embed/1"))).url =
      some "https://embed/1" ∧
    (serveAll (serve [] (Request.mk Plan.basic (some "s1") (some "https://embed/1"))).sessions
      [Request.mk Plan.basic (some "s2") none,
        Request.mk Plan.basic (some "s1") (some "https://embed/2")]).1.lookup
        (Request.mk Plan.basic (some "s1") (some "https://embed/1")).session =
      some (some "https://embed/1") :=
  have h := cached_url_is_stable [] (Request.mk Plan.basic (some "s1") (some "https://embed/1"))
    "https://embed/1" [Request.mk Plan.basic (some "s2") none,
      Request.mk Plan.basic (some "s1") (some "https://embed/2")] rfl rfl
  ⟨rfl, h.1, h.2.2.2.1⟩

/-- C29: the cache is shared by the two endpoints and keyed by the session id
alone.  After a request for a session on one endpoint, a later request with
the same session id, on the other endpoint or the same, whatever came in
between, answers what the first one answered and makes no creation call. -/
theorem cache_shared_across_plans (m : Sessions) (r1 r2 : Request) (between : List Request)
    (hs : r2.session = r1.session) :
    (serve (serveAll (serve m r1).sessions between).1 r2).url = (serve m r1).url ∧
    (serve (serveAll (serve m r1).sessions between).1 r2).created = [] := by
  have hrec := serveAll_keeps between _ _ _ (serve_records m r1)
  obtain ⟨h1, h2, -⟩ := serve_of_cached _ r2 _ (by rw [hs]; exact hrec)
  exact ⟨h1, h2⟩

theorem cache_shared_across_plans_witness :
    (Request.mk Plan.pro (some "s1") (some "https://embed/2")).session =
      (Request.mk Plan.basic (some "s1") (some "https://embed/1")).session ∧
    (serve (serveAll (serve [] (Request.mk Plan.basic (some "s1")
      (some "https://embed/1"))).sessions []).1
      (Request.mk Plan.pro (some "s1") (some "https://embed/2"))).url =
      (serve [] (Request.mk Plan.basic (some "s1") (some "https://embed/1"))).url ∧
    (serve (serveAll (serve [] (Request.mk Plan.basic (some "s1")
      (some "https://embed/1"))).sessions []).1
      (Request.mk Plan.pro (some "s1") (some "https://embed/2"))).created = [] :=
  ⟨by decide, cache_shared_across_plans [] (Request.mk Plan.basic (some "s1")
    (some "https://embed/1")) (Request.mk Plan.pro (some "s1") (some "https://embed/2")) []
    (by decide)⟩

/-! ## Theorems: the receiver list at startup -/

/-- C28, as the code has it: the receiver list built at startup has exactly
one element, the configured identifier or `undefined`, so the guard
`receiversId.length > 0` always holds, and every telemetry event whose
timestamp can be printed as a date triggers exactly one publish call. -/
theorem startup_receivers_single (configured : Option String) :
    (receiversAtStartup configured).length = 1 ∧
    receiversAtStartup configured = [configured] ∧
    0 < (receiversAtStartup configured).length ∧
    (∀ (e : Event) (publishOk : Bool), validTime e.timestamp = true →
      (handleTelemetry (receiversAtStartup configured) publishOk e).calls =
        [⟨e.busName, receiversAtStartup configured, e⟩]) := by
  refine ⟨rfl, rfl, Nat.one_pos, fun e publishOk hv => ?_⟩
  rw [handleTelemetry_of_valid _ publishOk e hv (by simp [receiversAtStartup])]

theorem startup_receivers_single_witness :
    validTime (Event.bike_battery 100 1700000000000).timestamp = true ∧
    (handleTelemetry (receiversAtStartup none) false
      (Event.bike_battery 100 1700000000000)).calls =
      [⟨(Event.bike_battery 100 1700000000000).busName, receiversAtStartup none,
        Event.bike_battery 100 1700000000000⟩] :=
  ⟨by decide, (startup_receivers_single none).2.2.2 (Event.bike_battery 100 1700000000000)
    false (by decide)⟩

theorem startup_receivers_no_publish :
    (receiversAtStartup (some "receiver-1")).length = 1 ∧
    (handleTelemetry (receiversAtStartup (some "receiver-1")) true
      (Event.bike_speed 18 10000000000000000)).calls = [] ∧
    ¬ ((handleTelemetry (receiversAtStartup (some "receiver-1")) true
      (Event.bike_speed 18 10000000000000000)).calls.length = 1) := by
  decide

/-! ## Theorems: rounding to the nearest double -/

theorem roundHalfEven_floor_le (q : ℚ) : ⌊q⌋ ≤ roundHalfEven q := by
  unfold roundHalfEven
  split_ifs <;> omega

theorem roundHalfEven_le_floor_succ (q : ℚ) : roundHalfEven q ≤ ⌊q⌋ + 1 := by
  unfold roundHalfEven
  split_ifs <;> omega

theorem roundHalfEven_sub_le (q : ℚ) : (roundHalfEven q : ℚ) - q ≤ 1 / 2 := by
  have h1 := Int.floor_le q
  have h2 := Int.lt_floor_add_one q
  unfold roundHalfEven
  split_ifs with a b c
  · linarith
  · push_cast
    linarith
  · linarith
  · push_cast
    linarith

theorem sub_roundHalfEven_le (q : ℚ) : q - (roundHalfEven q : ℚ) ≤ 1 / 2 := by
  have h1 := Int.floor_le q
  have h2 := Int.lt_floor_add_one q
  unfold roundHalfEven
  split_ifs with a b c
  · linarith
  · push_cast
    linarith
  · linarith
  · push_cast
    linarith

theorem roundHalfEven_intCast (n : ℤ) : roundHalfEven (n : ℚ) = n := by
  unfold roundHalfEven
  rw [Int.floor_intCast, if_pos (by norm_num)]

theorem roundHalfEven_le_of_le (q : ℚ) (n : ℤ) (h : q ≤ n) : roundHalfEven q ≤ n := by
  rcases eq_or_lt_of_le h with h | h
  · rw [h, roundHalfEven_intCast]
  · have hf : ⌊q⌋ < n := Int.floor_lt.mpr h
    have := roundHalfEven_le_floor_succ q
    omega

theorem le_roundHalfEven_of_le (q : ℚ) (n : ℤ) (h : (n : ℚ) ≤ q) : n ≤ roundHalfEven q :=
  le_trans (Int.le_floor.mpr h) (roundHalfEven_floor_le q)

theorem roundHalfEven_of_near (q : ℚ) (n : ℤ) (h1 : (n : ℚ) - 1 / 2 < q)
    (h2 : q < (n : ℚ) + 1 / 2) : roundHalfEven q = n := by
  unfold roundHalfEven
  rcases le_or_lt (n : ℚ) q with h | h
  · have hf : ⌊q⌋ = n := by
      rw [Int.floor_eq_iff]
      constructor <;> linarith
    rw [hf, if_pos (by linarith)]
  · have hf : ⌊q⌋ = n - 1 := by
      rw [Int.floor_eq_iff]
      push_cast
      constructor <;> linarith
    rw [hf]
    push_cast
    rw [if_neg (by linarith), if_pos (by linarith)]
    ring

theorem ulp_pos (x : ℚ) : 0 < ulp x := by
  unfold ulp
  positivity

theorem toDouble_zero : toDouble 0 = 0 := by
  unfold toDouble
  rw [zero_div]
  have : roundHalfEven 0 = 0 := by
    have := roundHalfEven_intCast 0
    simpa using this
  rw [this]
  simp

theorem toDouble_nonneg (x : ℚ) (h : 0 ≤ x) : 0 ≤ toDouble x := by
  unfold toDouble
  have hq : ((0 : ℤ) : ℚ) ≤ x / ulp x := by
    have := div_nonneg h (ulp_pos x).le
    simpa using this
  have := le_roundHalfEven_of_le _ 0 hq
  have hc : (0 : ℚ) ≤ (roundHalfEven (x / ulp x) : ℚ) := by exact_mod_cast this
  exact mul_nonneg hc (ulp_pos x).le

theorem toDouble_nonpos (x : ℚ) (h : x ≤ 0) : toDouble x ≤ 0 := by
  unfold toDouble
  have hq : x / ulp x ≤ ((0 : ℤ) : ℚ) := by
    have := div_nonpos_of_nonpos_of_nonneg h (ulp_pos x).le
    simpa using this
  have := roundHalfEven_le_of_le _ 0 hq
  have hc : (roundHalfEven (x / ulp x) : ℚ) ≤ 0 := by exact_mod_cast this
  exact mul_nonpos_of_nonpos_of_nonneg hc (ulp_pos x).le

/-- The rounding error of one operation is at most half the spacing. -/
theorem toDouble_sub_le (x : ℚ) : toDouble x - x ≤ ulp x / 2 := by
  have hu := ulp_pos x
  have h := roundHalfEven_sub_le (x / ulp x)
  have hx : x / ulp x * ulp x = x := by field_simp
  have h2 : ((roundHalfEven (x / ulp x) : ℚ) - x / ulp x) * ulp x ≤ 1 / 2 * ulp x :=
    mul_le_mul_of_nonneg_right h hu.le
  rw [sub_mul, hx] at h2
  unfold toDouble
  linarith

theorem sub_toDouble_le (x : ℚ) : x - toDouble x ≤ ulp x / 2 := by
  have hu := ulp_pos x
  have h := sub_roundHalfEven_le (x / ulp x)
  have hx : x / ulp x * ulp x = x := by field_simp
  have h2 : (x / ulp x - (roundHalfEven (x / ulp x) : ℚ)) * ulp x ≤ 1 / 2 * ulp x :=
    mul_le_mul_of_nonneg_right h hu.le
  rw [sub_mul, hx] at h2
  unfold toDouble
  linarith

theorem abs_toDouble_sub_le (x : ℚ) : |toDouble x - x| ≤ ulp x / 2 := by
  rw [abs_le]
  constructor
  · have := sub_toDouble_le x
    linarith
  · exact toDouble_sub_le x

theorem binade_of_bounds (x : ℚ) (e : ℤ) (he : -1022 ≤ e) (hlo : (2 : ℚ) ^ e ≤ |x|)
    (hhi : |x| < (2 : ℚ) ^ (e + 1)) : binade x = e := by
  have hpos : 0 < |x| := lt_of_lt_of_le (by positivity) hlo
  have hx0 : x ≠ 0 := abs_pos.mp hpos
  have h1 : e ≤ Int.log 2 |x| := by
    rw [← Int.zpow_le_iff_le_log (by norm_num) hpos]
    exact_mod_cast hlo
  have h2 : Int.log 2 |x| < e + 1 := by
    rw [← Int.lt_zpow_iff_log_lt (by norm_num) hpos]
    exact_mod_cast hhi
  unfold binade
  rw [if_neg hx0, max_eq_left (by omega)]
  omega

theorem binade_ge (x : ℚ) : -1022 ≤ binade x := by
  unfold binade
  split_ifs
  · exact le_refl _
  · exact le_max_right _ _

/-- Below `2 ^ (k + 1)` in size, the exponent is at most `k`. -/
theorem binade_le (x : ℚ) (k : ℤ) (hk : -1022 ≤ k) (hx : |x| < (2 : ℚ) ^ (k + 1)) :
    binade x ≤ k := by
  unfold binade
  split_ifs with h0
  · exact hk
  · apply max_le _ hk
    have hpos : 0 < |x| := abs_pos.mpr h0
    have h2 : Int.log 2 |x| < k + 1 := by
      rw [← Int.lt_zpow_iff_log_lt (by norm_num) hpos]
      exact_mod_cast hx
    omega

theorem ulp_le (x : ℚ) (k : ℤ) (hk : -1022 ≤ k) (hx : |x| < (2 : ℚ) ^ (k + 1)) :
    ulp x ≤ (2 : ℚ) ^ (k - 52) := by
  unfold ulp
  exact zpow_le_zpow_right₀ (by norm_num) (by have := binade_le x k hk hx; omega)

theorem toDouble_of_near (x : ℚ) (e n : ℤ) (he : -1022 ≤ e) (hlo : (2 : ℚ) ^ e ≤ |x|)
    (hhi : |x| < (2 : ℚ) ^ (e + 1)) (h1 : (n : ℚ) - 1 / 2 < x / (2 : ℚ) ^ (e - 52))
    (h2 : x / (2 : ℚ) ^ (e - 52) < (n : ℚ) + 1 / 2) :
    toDouble x = (n : ℚ) * (2 : ℚ) ^ (e - 52) := by
  unfold toDouble ulp
  rw [binade_of_bounds x e he hlo hhi, roundHalfEven_of_near _ n h1 h2]

/-- A bound that is a multiple of the spacing survives the rounding. -/
theorem toDouble_le_dyadic (x : ℚ) (n j k : ℤ) (hk : -1022 ≤ k)
    (hx : |x| < (2 : ℚ) ^ (k + 1)) (hj : k - 52 ≤ j) (h : x ≤ (n : ℚ) * (2 : ℚ) ^ j) :
    toDouble x ≤ (n : ℚ) * (2 : ℚ) ^ j := by
  have hb := binade_le x k hk hx
  have hu := ulp_pos x
  obtain ⟨d, hd⟩ : ∃ d : ℕ, j = binade x - 52 + d := ⟨(j - (binade x - 52)).toNat, by omega⟩
  have hpow : (2 : ℚ) ^ j = ((2 ^ d : ℤ) : ℚ) * ulp x := by
    unfold ulp
    rw [hd, zpow_add₀ (by norm_num), zpow_natCast]
    push_cast
    ring
  have hc : (n : ℚ) * (2 : ℚ) ^ j = ((n * 2 ^ d : ℤ) : ℚ) * ulp x := by
    rw [hpow]
    push_cast
    ring
  rw [hc] at h ⊢
  unfold toDouble
  apply mul_le_mul_of_nonneg_right _ hu.le
  have hq : x / ulp x ≤ ((n * 2 ^ d : ℤ) : ℚ) := by
    rw [div_le_iff₀ hu]
    exact h
  exact_mod_cast roundHalfEven_le_of_le _ _ hq

theorem le_toDouble_dyadic (x : ℚ) (n j k : ℤ) (hk : -1022 ≤ k)
    (hx : |x| < (2 : ℚ) ^ (k + 1)) (hj : k - 52 ≤ j) (h : (n : ℚ) * (2 : ℚ) ^ j ≤ x) :
    (n : ℚ) * (2 : ℚ) ^ j ≤ toDouble x := by
  have hb := binade_le x k hk hx
  have hu := ulp_pos x
  obtain ⟨d, hd⟩ : ∃ d : ℕ, j = binade x - 52 + d := ⟨(j - (binade x - 52)).toNat, by omega⟩
  have hpow : (2 : ℚ) ^ j = ((2 ^ d : ℤ) : ℚ) * ulp x := by
    unfold ulp
    rw [hd, zpow_add₀ (by norm_num), zpow_natCast]
    push_cast
    ring
  have hc : (n : ℚ) * (2 : ℚ) ^ j = ((n * 2 ^ d : ℤ) : ℚ) * ulp x := by
    rw [hpow]
    push_cast
    ring
  rw [hc] at h ⊢
  unfold toDouble
  apply mul_le_mul_of_nonneg_right _ hu.le
  have hq : ((n * 2 ^ d : ℤ) : ℚ) ≤ x / ulp x := by
    rw [le_div_iff₀ hu]
    exact h
  exact_mod_cast le_roundHalfEven_of_le _ _ hq

/-- An integer bound survives the rounding of a number below `2 ^ 53` in size. -/
theorem toDouble_le_int (x : ℚ) (n : ℤ) (hx : |x| < (2 : ℚ) ^ (53 : ℤ)) (h : x ≤ n) :
    toDouble x ≤ n := by
  have := toDouble_le_dyadic x n 0 52 (by norm_num) (by simpa using hx) (by norm_num)
    (by simpa using h)
  simpa using this

theorem toDouble_of_exact (x : ℚ) (e n : ℤ) (he : -1022 ≤ e) (hlo : (2 : ℚ) ^ e ≤ |x|)
    (hhi : |x| < (2 : ℚ) ^ (e + 1)) (hx : x = (n : ℚ) * (2 : ℚ) ^ (e - 52)) :
    toDouble x = x := by
  have hp : (0 : ℚ) < (2 : ℚ) ^ (e - 52) := by positivity
  have hq : x / (2 : ℚ) ^ (e - 52) = n := by
    rw [hx]
    field_simp
  rw [toDouble_of_near x e n he hlo hhi (by rw [hq]; linarith) (by rw [hq]; linarith)]
  exact hx.symm

theorem toDouble_one : toDouble 1 = 1 :=
  toDouble_of_exact 1 0 (2 ^ 52) (by norm_num) (by norm_num) (by norm_num) (by norm_num)

theorem jsRem_of_small (d : ℚ) (h1 : -360 < d) (h2 : d < 360) : jsRem d 360 = d := by
  unfold jsRem truncQ
  split_ifs with h
  · have hf : ⌊d / 360⌋ = 0 := by
      rw [Int.floor_eq_iff]
      constructor
      · simpa using h
      · rw [div_lt_iff₀ (by norm_num)]
        push_cast
        linarith
    rw [hf]
    simp
  · have hc : ⌈d / 360⌉ = 0 := by
      rw [Int.ceil_eq_iff]
      constructor
      · rw [lt_div_iff₀ (by norm_num)]
        push_cast
        linarith
      · push_neg at h
        simpa using h.le
    rw [hc]
    simp

theorem jsRem_sub_multiple (d : ℚ) : ∃ k : ℤ, jsRem d 360 = d + 360 * (k : ℚ) :=
  ⟨-truncQ (d / 360), by unfold jsRem; push_cast; ring⟩

theorem jsRem_360_abs_lt (d : ℚ) : -360 < jsRem d 360 ∧ jsRem d 360 < 360 := by
  have hb := jsRem_360_bounds d
  rcases le_or_lt 0 d with h | h
  · obtain ⟨h1, h2⟩ := hb.1 h
    exact ⟨by linarith, h2⟩
  · obtain ⟨h1, h2⟩ := hb.2 h
    exact ⟨h1, by linarith⟩

theorem wrapDeg64_of_rem_nonneg (d : ℚ) (h : 0 ≤ jsRem d 360) :
    wrapDeg64 d = jsRem d 360 := by
  unfold wrapDeg64
  simp only
  rw [if_neg (not_lt.mpr h)]

theorem wrapDeg64_of_rem_neg (d : ℚ) (h : jsRem d 360 < 0) :
    wrapDeg64 d = toDouble (jsRem d 360 + 360) := by
  unfold wrapDeg64
  simp only
  rw [if_pos h]

theorem wrapDeg64_of_mem (d : ℚ) (h0 : 0 ≤ d) (h1 : d < 360) : wrapDeg64 d = d := by
  have hr := jsRem_of_small d (by linarith) h1
  rw [wrapDeg64_of_rem_nonneg d (by rw [hr]; exact h0), hr]

theorem wrapDeg64_nonneg (d : ℚ) : 0 ≤ wrapDeg64 d := by
  rcases le_or_lt 0 (jsRem d 360) with h | h
  · rw [wrapDeg64_of_rem_nonneg d h]
    exact h
  · rw [wrapDeg64_of_rem_neg d h]
    exact toDouble_nonneg _ (by linarith [(jsRem_360_abs_lt d).1])

theorem wrapDeg64_le (d : ℚ) : wrapDeg64 d ≤ 360 := by
  rcases le_or_lt 0 (jsRem d 360) with h | h
  · rw [wrapDeg64_of_rem_nonneg d h]
    exact (jsRem_360_abs_lt d).2.le
  · rw [wrapDeg64_of_rem_neg d h]
    have h1 := (jsRem_360_abs_lt d).1
    have := toDouble_le_int (jsRem d 360 + 360) 360
      (by rw [abs_of_pos (by linarith)]; norm_num; linarith) (by push_cast; linarith)
    simpa using this

/-- A negative input closer to zero than `2 ^ (-45)` is wrapped to 360: the sum
`x + 360` is nearer to 360 than to the double below it. -/
theorem wrapDeg64_tiny_neg (d : ℚ) (h1 : -(1 / 2 ^ 45) < d) (h2 : d < 0) :
    wrapDeg64 d = 360 := by
  have hr := jsRem_of_small d (by linarith [show (1 : ℚ) / 2 ^ 45 < 360 by norm_num])
    (by linarith)
  rw [wrapDeg64_of_rem_neg d (by rw [hr]; exact h2), hr]
  have hpos : 0 < d + 360 := by linarith [show (1 : ℚ) / 2 ^ 45 < 360 by norm_num]
  rw [toDouble_of_near (d + 360) 8 (360 * 2 ^ 44) (by norm_num)
    (by rw [abs_of_pos hpos]; norm_num; linarith [show (1 : ℚ) / 2 ^ 45 < 104 by norm_num])
    (by rw [abs_of_pos hpos]; norm_num; linarith)
    (by norm_num; linarith) (by norm_num; linarith)]
  norm_num

theorem toDouble_of_near_pos (x : ℚ) (e n : ℤ) (he : -1022 ≤ e) (hlo : (2 : ℚ) ^ e ≤ x)
    (hhi : x < (2 : ℚ) ^ (e + 1)) (h1 : (n : ℚ) - 1 / 2 < x / (2 : ℚ) ^ (e - 52))
    (h2 : x / (2 : ℚ) ^ (e - 52) < (n : ℚ) + 1 / 2) :
    toDouble x = (n : ℚ) * (2 : ℚ) ^ (e - 52) := by
  have hpos : 0 < x := lt_of_lt_of_le (by positivity) hlo
  exact toDouble_of_near x e n he (by rw [abs_of_pos hpos]; exact hlo)
    (by rw [abs_of_pos hpos]; exact hhi) h1 h2

theorem toDouble_of_near_neg (x : ℚ) (e n : ℤ) (he : -1022 ≤ e) (hlo : (2 : ℚ) ^ e ≤ -x)
    (hhi : -x < (2 : ℚ) ^ (e + 1)) (h1 : (n : ℚ) - 1 / 2 < x / (2 : ℚ) ^ (e - 52))
    (h2 : x / (2 : ℚ) ^ (e - 52) < (n : ℚ) + 1 / 2) :
    toDouble x = (n : ℚ) * (2 : ℚ) ^ (e - 52) := by
  have hneg : x < 0 := by
    have : (0 : ℚ) < (2 : ℚ) ^ e := by positivity
    linarith
  exact toDouble_of_near x e n he (by rw [abs_of_neg hneg]; exact hlo)
    (by rw [abs_of_neg hneg]; exact hhi) h1 h2
theorem roundHalfEven_mono (p q : ℚ) (h : p ≤ q) : roundHalfEven p ≤ roundHalfEven q := by
  have hf : ⌊p⌋ ≤ ⌊q⌋ := Int.floor_mono h
  rcases eq_or_lt_of_le hf with he | hl
  · unfold roundHalfEven
    rw [he]
    split_ifs <;> first | omega | linarith
  · have h1 := roundHalfEven_le_floor_succ p
    have h2 := roundHalfEven_floor_le q
    omega

theorem abs_lt_zpow_binade (x : ℚ) : |x| < (2 : ℚ) ^ (binade x + 1) := by
  rcases eq_or_ne x 0 with h0 | h0
  · rw [h0, abs_zero]
    positivity
  · have hpos : 0 < |x| := abs_pos.mpr h0
    have h1 : |x| < ((2 : ℕ) : ℚ) ^ (Int.log 2 |x| + 1) := Int.lt_zpow_succ_log_self (by norm_num) _
    have h2 : Int.log 2 |x| ≤ binade x := by
      unfold binade
      rw [if_neg h0]
      exact le_max_left _ _
    have h3 : (2 : ℚ) ^ (Int.log 2 |x| + 1) ≤ (2 : ℚ) ^ (binade x + 1) :=
      zpow_le_zpow_right₀ (by norm_num) (by omega)
    exact lt_of_lt_of_le (by exact_mod_cast h1) h3

theorem zpow_binade_le_abs (x : ℚ) (h : -1022 < binade x) : (2 : ℚ) ^ binade x ≤ |x| := by
  have h0 : x ≠ 0 := by
    intro h0
    rw [h0] at h
    simp [binade] at h
  have hpos : 0 < |x| := abs_pos.mpr h0
  have hb : binade x = Int.log 2 |x| := by
    unfold binade at h ⊢
    rw [if_neg h0] at h ⊢
    rcases max_cases (Int.log 2 |x|) (-1022) with ⟨h1, _⟩ | ⟨h1, _⟩
    · exact h1
    · rw [h1] at h
      exact absurd h (lt_irrefl _)
  rw [hb]
  have := Int.zpow_log_le_self (b := 2) (by norm_num) hpos
  exact_mod_cast this

theorem le_binade (x : ℚ) (k : ℤ) (h : (2 : ℚ) ^ k ≤ |x|) : k ≤ binade x := by
  have hpos : 0 < |x| := lt_of_lt_of_le (by positivity) h
  have h0 : x ≠ 0 := abs_pos.mp hpos
  have h1 : k ≤ Int.log 2 |x| := by
    rw [← Int.zpow_le_iff_le_log (by norm_num) hpos]
    exact_mod_cast h
  unfold binade
  rw [if_neg h0]
  exact le_trans h1 (le_max_left _ _)

theorem binade_mono (x y : ℚ) (h0 : 0 < x) (h : x ≤ y) : binade x ≤ binade y := by
  have hy : 0 < y := lt_of_lt_of_le h0 h
  unfold binade
  rw [if_neg h0.ne', if_neg hy.ne', abs_of_pos h0, abs_of_pos hy]
  exact max_le_max (Int.log_mono_right h0 h) (le_refl _)

theorem toDouble_le_zpow_succ (x : ℚ) : toDouble x ≤ (2 : ℚ) ^ (binade x + 1) := by
  have h := toDouble_le_dyadic x 1 (binade x + 1) (binade x) (binade_ge x)
    (abs_lt_zpow_binade x) (by omega)
    (by push_cast; rw [one_mul]; exact le_trans (le_abs_self x) (abs_lt_zpow_binade x).le)
  simpa using h

theorem zpow_le_toDouble (x : ℚ) (h0 : 0 ≤ x) (h : -1022 < binade x) :
    (2 : ℚ) ^ binade x ≤ toDouble x := by
  have hx := zpow_binade_le_abs x h
  rw [abs_of_nonneg h0] at hx
  have := le_toDouble_dyadic x 1 (binade x) (binade x) (binade_ge x)
    (abs_lt_zpow_binade x) (by omega) (by push_cast; rw [one_mul]; exact hx)
  simpa using this

/-- Rounding keeps the order of non-negative numbers. -/
theorem toDouble_mono (x y : ℚ) (h0 : 0 ≤ x) (h : x ≤ y) : toDouble x ≤ toDouble y := by
  rcases eq_or_lt_of_le h0 with hx0 | hpos
  · rw [← hx0, toDouble_zero]
    exact toDouble_nonneg y (le_trans h0 h)
  · have hb := binade_mono x y hpos h
    rcases eq_or_lt_of_le hb with he | hl
    · have hu : ulp x = ulp y := by
        unfold ulp
        rw [he]
      unfold toDouble
      rw [hu]
      apply mul_le_mul_of_nonneg_right _ (ulp_pos y).le
      have hq : x / ulp y ≤ y / ulp y := div_le_div_of_nonneg_right h (ulp_pos y).le
      exact_mod_cast roundHalfEven_mono _ _ hq
    · have h1 := toDouble_le_zpow_succ x
      have h2 := zpow_le_toDouble y (le_trans h0 h) (lt_of_le_of_lt (binade_ge x) hl)
      have h3 : (2 : ℚ) ^ (binade x + 1) ≤ (2 : ℚ) ^ binade y :=
        zpow_le_zpow_right₀ (by norm_num) (by omega)
      linarith

theorem toDouble_of_multiple (y : ℚ) (n : ℤ) (h : y = (n : ℚ) * ulp y) : toDouble y = y := by
  have hu := ulp_pos y
  have hq : y / ulp y = n := by
    rw [div_eq_iff hu.ne']
    exact h
  unfold toDouble
  rw [hq, roundHalfEven_intCast]
  exact h.symm

/-- A double is rounded to itself. -/
theorem toDouble_idem (x : ℚ) : toDouble (toDouble x) = toDouble x := by
  have hu := ulp_pos x
  have hlt := abs_lt_zpow_binade x
  have hquot : |x / ulp x| < (2 : ℚ) ^ (53 : ℤ) := by
    rw [abs_div, abs_of_pos hu, div_lt_iff₀ hu]
    have : (2 : ℚ) ^ (53 : ℤ) * ulp x = (2 : ℚ) ^ (binade x + 1) := by
      unfold ulp
      rw [← zpow_add₀ (by norm_num)]
      congr 1
      ring
    rw [this]
    exact hlt
  have hN1 : roundHalfEven (x / ulp x) ≤ 2 ^ 53 := by
    apply roundHalfEven_le_of_le
    have := (abs_lt.mp hquot).2
    push_cast
    norm_num at this ⊢
    exact this.le
  have hN2 : -(2 ^ 53) ≤ roundHalfEven (x / ulp x) := by
    apply le_roundHalfEven_of_le
    have := (abs_lt.mp hquot).1
    push_cast
    norm_num at this ⊢
    exact this.le
  set N := roundHalfEven (x / ulp x) with hN
  have hy : toDouble x = (N : ℚ) * ulp x := rfl
  rcases eq_or_ne N 0 with hz | hz
  · rw [hy, hz]
    simp [toDouble_zero]
  -- the size of the rounded value
  have habs : |toDouble x| = (|N| : ℤ) * ulp x := by
    rw [hy, abs_mul, abs_of_pos hu]
    push_cast
    rfl
  have hNpos : (1 : ℤ) ≤ |N| := Int.one_le_abs hz
  -- a normal `x` keeps its quotient at or above `2 ^ 52`
  have hnormal : -1022 < binade x → 2 ^ 52 ≤ |N| := by
    intro hb
    have hx := zpow_binade_le_abs x hb
    have hq : (2 : ℚ) ^ (52 : ℤ) ≤ |x / ulp x| := by
      rw [abs_div, abs_of_pos hu, le_div_iff₀ hu]
      have : (2 : ℚ) ^ (52 : ℤ) * ulp x = (2 : ℚ) ^ binade x := by
        unfold ulp
        rw [← zpow_add₀ (by norm_num)]
        congr 1
        ring
      rw [this]
      exact hx
    rcases le_or_lt 0 (x / ulp x) with hs | hs
    · rw [abs_of_nonneg hs] at hq
      have : (2 ^ 52 : ℤ) ≤ N := by
        apply le_roundHalfEven_of_le
        push_cast
        norm_num at hq ⊢
        exact hq
      exact le_trans this (le_abs_self N)
    · rw [abs_of_neg hs] at hq
      have : N ≤ -(2 ^ 52 : ℤ) := by
        apply roundHalfEven_le_of_le
        push_cast
        norm_num at hq ⊢
        linarith
      exact le_trans (by omega) (neg_le_abs N)
  have hNabs : |N| ≤ 2 ^ 53 := abs_le.mpr ⟨hN2, hN1⟩
  rcases eq_or_lt_of_le hNabs with htop | hbelow
  · -- rounded up to the next power of two
    have hsize : |toDouble x| = (2 : ℚ) ^ (binade x + 1) := by
      rw [habs, htop]
      unfold ulp
      push_cast
      rw [show (9007199254740992 : ℚ) = (2 : ℚ) ^ (53 : ℤ) by norm_num,
        ← zpow_add₀ (by norm_num)]
      congr 1
      ring
    have hb : binade (toDouble x) = binade x + 1 :=
      binade_of_bounds _ _ (by have := binade_ge x; omega) (le_of_eq hsize.symm)
        (by rw [hsize]; exact zpow_lt_zpow_right₀ (by norm_num) (by omega))
    have hu2 : ulp (toDouble x) = 2 * ulp x := by
      unfold ulp
      rw [hb, show binade x + 1 - 52 = (binade x - 52) + 1 by ring, zpow_add₀ (by norm_num)]
      ring
    have heven : ∃ k : ℤ, N = 2 * k := by
      rcases abs_cases N with ⟨h1, _⟩ | ⟨h1, _⟩
      · exact ⟨2 ^ 52, by omega⟩
      · exact ⟨-(2 ^ 52), by omega⟩
    obtain ⟨k, hk⟩ := heven
    apply toDouble_of_multiple _ k
    rw [hu2]
    nth_rewrite 1 [hy]
    rw [hk]
    push_cast
    ring
  · have hsize : |toDouble x| < (2 : ℚ) ^ (binade x + 1) := by
      rw [habs]
      have : ((|N| : ℤ) : ℚ) < (2 : ℚ) ^ (53 : ℤ) := by
        have : ((|N| : ℤ) : ℚ) < ((2 ^ 53 : ℤ) : ℚ) := by exact_mod_cast hbelow
        norm_num at this ⊢
        exact this
      calc ((|N| : ℤ) : ℚ) * ulp x < (2 : ℚ) ^ (53 : ℤ) * ulp x :=
            mul_lt_mul_of_pos_right this hu
        _ = (2 : ℚ) ^ (binade x + 1) := by
            unfold ulp
            rw [← zpow_add₀ (by norm_num)]
            congr 1
            ring
    have hb1 : binade (toDouble x) ≤ binade x := binade_le _ _ (binade_ge x) hsize
    have hb2 : binade x ≤ binade (toDouble x) := by
      rcases eq_or_lt_of_le (binade_ge x) with he | hgt
      · rw [← he]
        exact binade_ge _
      · apply le_binade
        rw [habs]
        have h52 := hnormal hgt
        have : (2 : ℚ) ^ (52 : ℤ) ≤ ((|N| : ℤ) : ℚ) := by
          have : ((2 ^ 52 : ℤ) : ℚ) ≤ ((|N| : ℤ) : ℚ) := by exact_mod_cast h52
          norm_num at this ⊢
          exact this
        calc (2 : ℚ) ^ binade x = (2 : ℚ) ^ (52 : ℤ) * ulp x := by
              unfold ulp
              rw [← zpow_add₀ (by norm_num)]
              congr 1
              ring
          _ ≤ ((|N| : ℤ) : ℚ) * ulp x := mul_le_mul_of_nonneg_right this hu.le
    have hu2 : ulp (toDouble x) = ulp x := by
      unfold ulp
      rw [le_antisymm hb1 hb2]
    apply toDouble_of_multiple _ N
    rw [hu2]
    exact hy
/-! ## Theorems: the heading on doubles -/

/-- C1: on doubles the wrapped heading is in `[0, 360]` but can be 360 itself:
`wrapDeg` of a tiny negative number is 360, and the first tick after mount, with
the drift target 0 that `Math.random() = 0.5` gives and the noise sample
`0.5 - 2 ^ (-52)`, stores the heading 360. -/
theorem heading_reaches_360 (m : Math64) :
    (∀ d : ℚ, 0 ≤ wrapDeg64 d ∧ wrapDeg64 d ≤ 360) ∧
    wrapDeg64 (-(1 / 2 ^ 50)) = 360 ∧
    (((SimState.initial 18 0).apply64 m (SimCmd.randomizeDrift (1 / 2))).apply64 m
      (SimCmd.tick 1000 (1 / 2 - 1 / 2 ^ 52))).headingDeg = 360 ∧
    ¬ ((((SimState.initial 18 0).apply64 m (SimCmd.randomizeDrift (1 / 2))).apply64 m
      (SimCmd.tick 1000 (1 / 2 - 1 / 2 ^ 52))).headingDeg < 360) := by
  have e8 : toDouble (8) = 8 := by
    rw [toDouble_of_near_pos (8) (3) (4503599627370496) (by norm_num) (by norm_num)
      (by norm_num) (by norm_num) (by norm_num)]
    norm_num
  have e1000 : toDouble (1000) = 1000 := by
    rw [toDouble_of_near_pos (1000) (9) (8796093022208000) (by norm_num) (by norm_num)
      (by norm_num) (by norm_num) (by norm_num)]
    norm_num
  have e08 : toDouble (4 / 5) = 3602879701896397 / 4503599627370496 := by
    rw [toDouble_of_near_pos (4 / 5) (-1) (7205759403792794) (by norm_num) (by norm_num)
      (by norm_num) (by norm_num) (by norm_num)]
    norm_num
  have ea : toDouble (-(1 / 4503599627370496)) = -(1 / 4503599627370496) := by
    rw [toDouble_of_near_neg (-(1 / 4503599627370496)) (-52) (-4503599627370496) (by norm_num) (by
        norm_num)
      (by norm_num) (by norm_num) (by norm_num)]
    norm_num
  have eb : toDouble (-(3602879701896397 / 20282409603651670423947251286016)) = -(3602879701896397
      / 20282409603651670423947251286016) := by
    rw [toDouble_of_near_neg (-(3602879701896397 / 20282409603651670423947251286016)) (-53)
        (-7205759403792794) (by norm_num) (by norm_num)
      (by norm_num) (by norm_num) (by norm_num)]
    norm_num
  have key : (((SimState.initial 18 0).apply64 m (SimCmd.randomizeDrift (1 / 2))).apply64 m
      (SimCmd.tick 1000 (1 / 2 - 1 / 2 ^ 52))).headingDeg = 360 := by
    simp only [SimState.apply64, SimState.initial, loop64, tickDt64]
    norm_num [toDouble_zero, toDouble_one, e8, e1000, e08, ea, eb]
    exact wrapDeg64_tiny_neg _ (by norm_num) (by norm_num)
  refine ⟨fun d => ⟨wrapDeg64_nonneg d, wrapDeg64_le d⟩,
    wrapDeg64_tiny_neg _ (by norm_num) (by norm_num), key, ?_⟩
  rw [key]
  exact lt_irrefl _

/-- C30, the claim as stated fails on doubles: `wrapDeg(-(1 + 2 ^ (-52)))` is
359, which is not the input plus a multiple of 360, and `wrapDeg` applied twice
to `-(2 ^ (-50))` gives 0 where one application gives 360. -/
theorem wrapDeg64_not_multiple :
    wrapDeg64 (-(1 + 1 / 2 ^ 52)) = 359 ∧
    ¬ (∃ k : ℤ, wrapDeg64 (-(1 + 1 / 2 ^ 52)) = -(1 + 1 / 2 ^ 52) + 360 * (k : ℚ)) ∧
    wrapDeg64 (-(1 / 2 ^ 50)) = 360 ∧
    wrapDeg64 (wrapDeg64 (-(1 / 2 ^ 50))) = 0 ∧
    wrapDeg64 (wrapDeg64 (-(1 / 2 ^ 50))) ≠ wrapDeg64 (-(1 / 2 ^ 50)) := by
  have hr : jsRem (-(1 + 1 / 2 ^ 52)) 360 = -(1 + 1 / 2 ^ 52) :=
    jsRem_of_small _ (by norm_num) (by norm_num)
  have h359 : wrapDeg64 (-(1 + 1 / 2 ^ 52)) = 359 := by
    rw [wrapDeg64_of_rem_neg _ (by rw [hr]; norm_num), hr,
      toDouble_of_near_pos _ 8 (359 * 2 ^ 44) (by norm_num) (by norm_num) (by norm_num)
        (by norm_num) (by norm_num)]
    norm_num
  have h360 : wrapDeg64 (-(1 / 2 ^ 50)) = 360 :=
    wrapDeg64_tiny_neg _ (by norm_num) (by norm_num)
  have h0 : wrapDeg64 360 = 0 := by
    have hz : jsRem 360 360 = 0 := by
      unfold jsRem truncQ
      norm_num
    rw [wrapDeg64_of_rem_nonneg _ (by rw [hz]), hz]
  refine ⟨h359, ?_, h360, by rw [h360, h0], by rw [h360, h0]; norm_num⟩
  rintro ⟨k, hk⟩
  rw [h359] at hk
  have h1 : (1 : ℚ) < k := by
    have : (360 : ℚ) * k = 360 + 1 / 2 ^ 52 := by linarith
    have h2 : (360 : ℚ) < 360 * k := by rw [this]; norm_num
    linarith
  have h2 : (k : ℚ) < 2 := by
    have : (360 : ℚ) * k = 360 + 1 / 2 ^ 52 := by linarith
    have h2 : (360 : ℚ) * k < 720 := by rw [this]; norm_num
    linarith
  have h3 : (1 : ℤ) < k := by exact_mod_cast h1
  have h4 : k < (2 : ℤ) := by exact_mod_cast h2
  omega

/-- C30, as the doubles have it: `wrapDeg d = d` for `d` in `[0, 360)`; for
`d ≥ 0` the result is `d` plus an integer multiple of 360; for `d < 0` it is
within `2 ^ (-45)` of such a number, being the double nearest to
`d % 360 + 360` when the remainder is negative; and a result below 360 is a
fixed point of `wrapDeg`. -/
theorem wrapDeg64_fixes_range (d : ℚ) :
    (0 ≤ d → d < 360 → wrapDeg64 d = d) ∧
    (0 ≤ d → ∃ k : ℤ, wrapDeg64 d = d + 360 * (k : ℚ)) ∧
    (d < 0 → ∃ k : ℤ, |wrapDeg64 d - (d + 360 * (k : ℚ))| ≤ 1 / 2 ^ 45) ∧
    (jsRem d 360 < 0 → wrapDeg64 d = toDouble (jsRem d 360 + 360)) ∧
    (wrapDeg64 d < 360 → wrapDeg64 (wrapDeg64 d) = wrapDeg64 d) := by
  refine ⟨wrapDeg64_of_mem d, fun h0 => ?_, fun _ => ?_, wrapDeg64_of_rem_neg d, fun h =>
    wrapDeg64_of_mem _ (wrapDeg64_nonneg d) h⟩
  · obtain ⟨k, hk⟩ := jsRem_sub_multiple d
    exact ⟨k, by rw [wrapDeg64_of_rem_nonneg d ((jsRem_360_bounds d).1 h0).1, hk]⟩
  · obtain ⟨k, hk⟩ := jsRem_sub_multiple d
    rcases le_or_lt 0 (jsRem d 360) with hr | hr
    · refine ⟨k, ?_⟩
      rw [wrapDeg64_of_rem_nonneg d hr, hk, sub_self, abs_zero]
      positivity
    · refine ⟨k + 1, ?_⟩
      rw [wrapDeg64_of_rem_neg d hr]
      have hx : d + 360 * ((k + 1 : ℤ) : ℚ) = jsRem d 360 + 360 := by
        rw [hk]
        push_cast
        ring
      rw [hx]
      have hb := (jsRem_360_abs_lt d).1
      have hu : ulp (jsRem d 360 + 360) ≤ (2 : ℚ) ^ ((8 : ℤ) - 52) :=
        ulp_le _ 8 (by norm_num) (by rw [abs_of_pos (by linarith)]; norm_num; linarith)
      have he := abs_toDouble_sub_le (jsRem d 360 + 360)
      calc |toDouble (jsRem d 360 + 360) - (jsRem d 360 + 360)|
          ≤ ulp (jsRem d 360 + 360) / 2 := he
        _ ≤ (2 : ℚ) ^ ((8 : ℤ) - 52) / 2 := div_le_div_of_nonneg_right hu (by norm_num)
        _ = 1 / 2 ^ 45 := by norm_num

theorem wrapDeg64_fixes_range_witness :
    jsRem (-30) 360 < 0 ∧ wrapDeg64 (-30) = toDouble (jsRem (-30) 360 + 360) ∧
    (∃ k : ℤ, |wrapDeg64 (-30) - (-30 + 360 * (k : ℚ))| ≤ 1 / 2 ^ 45) :=
  have hr : jsRem (-30) 360 < 0 := by
    rw [jsRem_of_small (-30) (by norm_num) (by norm_num)]
    norm_num
  ⟨hr, (wrapDeg64_fixes_range (-30)).2.2.2.1 hr,
    (wrapDeg64_fixes_range (-30)).2.2.1 (by norm_num)⟩
/-! ## Theorems: the elapsed time of a tick -/

theorem tickDt64_le_one (now lastTick : ℚ) : tickDt64 now lastTick ≤ 1 :=
  min_le_left _ _

theorem tickDt64_nonneg (now lastTick : ℚ) (h : lastTick ≤ now) : 0 ≤ tickDt64 now lastTick := by
  unfold tickDt64
  apply le_min (by norm_num)
  apply toDouble_nonneg
  exact div_nonneg (toDouble_nonneg _ (by linarith)) (by norm_num)

theorem apply64_clock (m : Math64) (s : SimState) (c : SimCmd) (t : ℚ) (ht : s.lastTick ≤ t)
    (hc : ∀ u, c.clockReading = some u → t ≤ u) :
    (s.apply64 m c).lastTick ≤ (c.clockReading).getD t := by
  cases c with
  | tick now rnd =>
    simp only [SimState.apply64, SimCmd.clockReading, Option.getD_some]
    split_ifs
    · exact le_refl _
    · exact le_trans ht (hc now rfl)
  | toggleRunning now =>
    simp only [SimState.apply64, SimCmd.clockReading, Option.getD_some]
    split_ifs
    · exact le_trans ht (hc now rfl)
    · exact le_refl _
  | setTyrePressure n =>
    simp only [SimState.apply64, SimCmd.clockReading, Option.getD_none]
    split <;> exact ht
  | _ => exact ht

theorem clockMonotone_head (t : ℚ) (c : SimCmd) (cs : List SimCmd)
    (h : ClockMonotone t (c :: cs)) :
    (∀ u, c.clockReading = some u → t ≤ u) ∧ ClockMonotone ((c.clockReading).getD t) cs := by
  cases hu : c.clockReading with
  | none =>
    simp only [ClockMonotone, hu] at h
    exact ⟨fun u hu2 => by simp at hu2, by simpa using h⟩
  | some u =>
    simp only [ClockMonotone, hu] at h
    refine ⟨fun v hv => ?_, by simpa using h.2⟩
    simp only [Option.some.injEq] at hv
    rw [← hv]
    exact h.1

/-- With a clock that never runs backwards, the tick that follows the commands
`pre` reads a time that is not before the stored `lastTick`. -/
theorem run64_lastTick_le (m : Math64) (pre : List SimCmd) (s : SimState) (t now rnd : ℚ)
    (suf : List SimCmd) (ht : s.lastTick ≤ t)
    (hclock : ClockMonotone t (pre ++ SimCmd.tick now rnd :: suf)) :
    (s.run64 m pre).lastTick ≤ now := by
  induction pre generalizing s t with
  | nil =>
    obtain ⟨h1, _⟩ := clockMonotone_head t _ _ hclock
    exact le_trans ht (h1 now rfl)
  | cons c cs ih =>
    obtain ⟨h1, h2⟩ := clockMonotone_head t c _ hclock
    exact ih (s.apply64 m c) _ (apply64_clock m s c t ht h1) h2

/-- C14: `dt` is at most 1 for every pair of times, and at least 0 for every
pair the tick can read: its time `now` and the `lastTick` stored by the
commands before it are readings of `performance.now()`, which never runs
backwards.  Both hold for the formula on doubles and in exact arithmetic. -/
theorem tick_dt_clamped (m : Math64) (initialSpeedKmh t0 : ℚ) (pre suf : List SimCmd)
    (now rnd : ℚ) (hclock : ClockMonotone t0 (pre ++ SimCmd.tick now rnd :: suf)) :
    ((SimState.initial initialSpeedKmh t0).run64 m pre).lastTick ≤ now ∧
    0 ≤ tickDt64 now ((SimState.initial initialSpeedKmh t0).run64 m pre).lastTick ∧
    tickDt64 now ((SimState.initial initialSpeedKmh t0).run64 m pre).lastTick ≤ 1 ∧
    0 ≤ tickDt now ((SimState.initial initialSpeedKmh t0).run64 m pre).lastTick ∧
    tickDt now ((SimState.initial initialSpeedKmh t0).run64 m pre).lastTick ≤ 1 ∧
    ((SimState.initial initialSpeedKmh t0).run64 m (pre ++ [SimCmd.tick now rnd])).lastTick =
      (if ((SimState.initial initialSpeedKmh t0).run64 m pre).running then now
        else ((SimState.initial initialSpeedKmh t0).run64 m pre).lastTick) := by
  have h := run64_lastTick_le m pre (SimState.initial initialSpeedKmh t0) t0 now rnd suf
    (le_refl _) hclock
  refine ⟨h, tickDt64_nonneg _ _ h, tickDt64_le_one _ _, ?_, min_le_left _ _, ?_⟩
  · unfold tickDt
    exact le_min (by norm_num) (div_nonneg (by linarith) (by norm_num))
  · simp only [SimState.run64, List.foldl_append, List.foldl_cons, List.foldl_nil,
      SimState.apply64]
    split_ifs <;> rfl

theorem tick_dt_clamped_witness :
    ClockMonotone 0 ([SimCmd.tick 16 (1 / 2), SimCmd.setSpeed 25] ++
      SimCmd.tick 5000 (1 / 4) :: [SimCmd.toggleRunning 5010]) ∧
    0 ≤ tickDt64 5000 ((SimState.initial 18 0).run64 Math64.straight
      [SimCmd.tick 16 (1 / 2), SimCmd.setSpeed 25]).lastTick ∧
    tickDt64 5000 ((SimState.initial 18 0).run64 Math64.straight
      [SimCmd.tick 16 (1 / 2), SimCmd.setSpeed 25]).lastTick ≤ 1 :=
  have hc : ClockMonotone 0 ([SimCmd.tick 16 (1 / 2), SimCmd.setSpeed 25] ++
      SimCmd.tick 5000 (1 / 4) :: [SimCmd.toggleRunning 5010]) := by
    norm_num [ClockMonotone, SimCmd.clockReading]
  have h := tick_dt_clamped Math64.straight 18 0 [SimCmd.tick 16 (1 / 2), SimCmd.setSpeed 25]
    [SimCmd.toggleRunning 5010] 5000 (1 / 4) hc
  ⟨hc, h.2.1, h.2.2.1⟩
/-! ## Theorems: the ease progress on doubles -/

theorem abs_min_sub_min_le (u v : ℚ) : |min 1 u - min 1 v| ≤ |u - v| := by
  have h1 := le_abs_self (u - v)
  have h2 := neg_abs_le (u - v)
  rw [abs_le]
  rcases le_total 1 u with hu | hu <;> rcases le_total 1 v with hv | hv <;>
    simp only [min_eq_left, min_eq_right, hu, hv] <;> constructor <;> linarith

/-- One update of the ease progress on doubles: it stays in `[0, 1]` and is
within `2 ^ (-52)` of the exact `min 1 (p + dt / 3)`. -/
theorem progress_step_error (p dt : ℚ) (h0 : 0 ≤ p) (h1 : p ≤ 1) (hd0 : 0 ≤ dt)
    (hd1 : dt ≤ 1) :
    0 ≤ min 1 (toDouble (p + toDouble (dt / 3))) ∧
    |min 1 (toDouble (p + toDouble (dt / 3))) - min 1 (p + dt / 3)| ≤ 1 / 2 ^ 52 := by
  have hq0 : 0 ≤ dt / 3 := by positivity
  have ha0 : 0 ≤ toDouble (dt / 3) := toDouble_nonneg _ hq0
  have hae : |toDouble (dt / 3) - dt / 3| ≤ 1 / 2 ^ 55 := by
    have hu : ulp (dt / 3) ≤ (2 : ℚ) ^ ((-2 : ℤ) - 52) :=
      ulp_le _ (-2) (by norm_num) (by rw [abs_of_nonneg hq0]; norm_num; linarith)
    calc |toDouble (dt / 3) - dt / 3| ≤ ulp (dt / 3) / 2 := abs_toDouble_sub_le _
      _ ≤ (2 : ℚ) ^ ((-2 : ℤ) - 52) / 2 := div_le_div_of_nonneg_right hu (by norm_num)
      _ = 1 / 2 ^ 55 := by norm_num
  have hae2 := abs_le.mp hae
  have hx0 : 0 ≤ p + toDouble (dt / 3) := by linarith
  have hx2 : p + toDouble (dt / 3) < 2 := by
    have : (1 : ℚ) / 2 ^ 55 < 1 / 3 := by norm_num
    linarith [hae2.2]
  have hxe : |toDouble (p + toDouble (dt / 3)) - (p + toDouble (dt / 3))| ≤ 1 / 2 ^ 53 := by
    have hu : ulp (p + toDouble (dt / 3)) ≤ (2 : ℚ) ^ ((0 : ℤ) - 52) :=
      ulp_le _ 0 (by norm_num) (by rw [abs_of_nonneg hx0]; norm_num; linarith)
    calc |toDouble (p + toDouble (dt / 3)) - (p + toDouble (dt / 3))|
        ≤ ulp (p + toDouble (dt / 3)) / 2 := abs_toDouble_sub_le _
      _ ≤ (2 : ℚ) ^ ((0 : ℤ) - 52) / 2 := div_le_div_of_nonneg_right hu (by norm_num)
      _ = 1 / 2 ^ 53 := by norm_num
  have hxe2 := abs_le.mp hxe
  refine ⟨le_min (by norm_num) (toDouble_nonneg _ hx0), ?_⟩
  refine le_trans (abs_min_sub_min_le _ _) ?_
  rw [abs_le]
  have hc : (1 : ℚ) / 2 ^ 53 + 1 / 2 ^ 55 ≤ 1 / 2 ^ 52 := by norm_num
  constructor <;> linarith [hae2.1, hae2.2, hxe2.1, hxe2.2]

theorem elapsedDt64_cons (m : Math64) (s : SimState) (c : SimCmd) (cs : List SimCmd) :
    elapsedDt64 m s (c :: cs) = elapsedDt64 m s [c] + elapsedDt64 m (s.apply64 m c) cs := by
  simp [elapsedDt64]

theorem tickCount64_cons (m : Math64) (s : SimState) (c : SimCmd) (cs : List SimCmd) :
    tickCount64 m s (c :: cs) = tickCount64 m s [c] + tickCount64 m (s.apply64 m c) cs := by
  simp [tickCount64]

theorem apply64_progress (m : Math64) (s : SimState) (c : SimCmd)
    (hok : ∀ r, c ≠ SimCmd.randomizeDrift r)
    (ht : ∀ now rnd, c = SimCmd.tick now rnd → s.lastTick ≤ now)
    (h0 : 0 ≤ s.drift.t) (h1 : s.drift.t ≤ 1) :
    0 ≤ elapsedDt64 m s [c] ∧
    0 ≤ (s.apply64 m c).drift.t ∧ (s.apply64 m c).drift.t ≤ 1 ∧
    |(s.apply64 m c).drift.t - min 1 (s.drift.t + elapsedDt64 m s [c] / 3)| ≤
      (tickCount64 m s [c] : ℚ) * (1 / 2 ^ 52) ∧
    (s.apply64 m c).drift.target = s.drift.target := by
  have hsame : 0 ≤ s.drift.t ∧ s.drift.t ≤ 1 ∧
      |s.drift.t - min 1 (s.drift.t + (0 : ℚ) / 3)| ≤ ((0 : ℕ) : ℚ) * (1 / 2 ^ 52) ∧
      s.drift.target = s.drift.target := by
    refine ⟨h0, h1, ?_, rfl⟩
    rw [zero_div, add_zero, min_eq_right h1, sub_self, abs_zero]
    norm_num
  cases c with
  | tick now rnd =>
    simp only [elapsedDt64, tickCount64, SimState.apply64, add_zero]
    split_ifs
    · have hd0 := tickDt64_nonneg now _ (ht now rnd rfl)
      have hd1 := tickDt64_le_one now s.lastTick
      obtain ⟨a, b⟩ := progress_step_error s.drift.t _ h0 h1 hd0 hd1
      refine ⟨hd0, a, min_le_left _ _, ?_, rfl⟩
      simpa [loop64] using b
    · exact ⟨le_refl _, hsame⟩
  | toggleRunning now =>
    simp only [elapsedDt64, tickCount64, SimState.apply64, add_zero]
    split_ifs <;> exact ⟨le_refl _, hsame⟩
  | setTyrePressure n =>
    simp only [elapsedDt64, tickCount64, SimState.apply64, add_zero]
    split <;> exact ⟨le_refl _, hsame⟩
  | randomizeDrift r => exact absurd rfl (hok r)
  | _ =>
    simp only [elapsedDt64, tickCount64, SimState.apply64, add_zero]
    exact ⟨le_refl _, hsame.1, hsame.2.1, hsame.2.2.1, trivial⟩

/-- Along commands without a drift resample, with a clock that never runs
backwards, the progress on doubles stays in `[0, 1]` and within `2 ^ (-52)` per
tick of the exact `min 1 (progress + total dt / 3)`. -/
theorem run64_progress (m : Math64) (cmds : List SimCmd) (s : SimState) (t : ℚ)
    (ht : s.lastTick ≤ t) (hclock : ClockMonotone t cmds) (hnr : NoDriftResample cmds)
    (h0 : 0 ≤ s.drift.t) (h1 : s.drift.t ≤ 1) :
    0 ≤ elapsedDt64 m s cmds ∧
    0 ≤ (s.run64 m cmds).drift.t ∧ (s.run64 m cmds).drift.t ≤ 1 ∧
    |(s.run64 m cmds).drift.t - min 1 (s.drift.t + elapsedDt64 m s cmds / 3)| ≤
      (tickCount64 m s cmds : ℚ) * (1 / 2 ^ 52) ∧
    (s.run64 m cmds).drift.target = s.drift.target := by
  induction cmds generalizing s t with
  | nil =>
    refine ⟨le_refl _, h0, h1, ?_, rfl⟩
    simp [SimState.run64, elapsedDt64, tickCount64, h1]
  | cons c cs ih =>
    obtain ⟨hc, hclock2⟩ := clockMonotone_head t c cs hclock
    obtain ⟨a0, a1, a2, a3, a4⟩ := apply64_progress m s c
      (fun r hcr => hnr r (by rw [hcr]; exact List.mem_cons_self _ _))
      (fun now rnd hcn => le_trans ht (hc now (by rw [hcn]; rfl))) h0 h1
    obtain ⟨b0, b1, b2, b3, b4⟩ := ih (s.apply64 m c) _ (apply64_clock m s c t ht hc) hclock2
      (fun r hm => hnr r (List.mem_cons_of_mem _ hm)) a1 a2
    have hrun : s.run64 m (c :: cs) = (s.apply64 m c).run64 m cs := rfl
    rw [hrun, elapsedDt64_cons, tickCount64_cons]
    refine ⟨add_nonneg a0 b0, b1, b2, ?_, by rw [b4, a4]⟩
    rw [← min_progress_add _ _ _ a0 b0]
    have hl := abs_min_sub_min_le ((s.apply64 m c).drift.t + elapsedDt64 m (s.apply64 m c) cs / 3)
      (min 1 (s.drift.t + elapsedDt64 m s [c] / 3) + elapsedDt64 m (s.apply64 m c) cs / 3)
    rw [add_sub_add_right_eq_sub] at hl
    have htri := abs_sub_le ((s.apply64 m c).run64 m cs).drift.t
      (min 1 ((s.apply64 m c).drift.t + elapsedDt64 m (s.apply64 m c) cs / 3))
      (min 1 (min 1 (s.drift.t + elapsedDt64 m s [c] / 3) +
        elapsedDt64 m (s.apply64 m c) cs / 3))
    push_cast
    linarith
/-- Close enough to 1, the ease on doubles is exactly 1, for any `Math.pow`
that keeps the cube of a number in `[0, 2 ^ (-18)]` within `[0, 2 ^ (-54)]`. -/
theorem easeInOutCubic64_near_one (m : Math64)
    (hpow : ∀ y : ℚ, 0 ≤ y → y ≤ 1 / 2 ^ 18 → 0 ≤ m.pow3 y ∧ m.pow3 y ≤ 1 / 2 ^ 54)
    (p : ℚ) (hp1 : 1 - 1 / 2 ^ 19 ≤ p) (hp2 : p ≤ 1) : easeInOutCubic64 m p = 1 := by
  have hhalf : ¬ p < 1 / 2 := by
    have : (1 : ℚ) / 2 < 1 - 1 / 2 ^ 19 := by norm_num
    linarith
  have habs : |-2 * p| < (2 : ℚ) ^ ((1 : ℤ) + 1) := by
    rw [abs_of_nonpos (by linarith)]
    norm_num
    linarith
  have ha1 : -2 ≤ toDouble (-2 * p) := by
    have := le_toDouble_dyadic (-2 * p) (-2) 0 1 (by norm_num) habs (by norm_num)
      (by push_cast; norm_num; linarith)
    simpa using this
  have ha2 : toDouble (-2 * p) ≤ -2 + 1 / 2 ^ 18 := by
    have := toDouble_le_dyadic (-2 * p) (-(2 ^ 19 - 1)) (-18) 1 (by norm_num) habs
      (by norm_num) (by push_cast; norm_num; linarith)
    norm_num at this ⊢
    linarith
  have hz0 : 0 ≤ toDouble (-2 * p) + 2 := by linarith
  have hz1 : toDouble (-2 * p) + 2 ≤ 1 / 2 ^ 18 := by linarith
  have hy0 : 0 ≤ toDouble (toDouble (-2 * p) + 2) := toDouble_nonneg _ hz0
  have hy1 : toDouble (toDouble (-2 * p) + 2) ≤ 1 / 2 ^ 18 := by
    have := toDouble_le_dyadic (toDouble (-2 * p) + 2) 1 (-18) (-18) (by norm_num)
      (by rw [abs_of_nonneg hz0]; norm_num; norm_num at hz1; linarith) (by norm_num)
      (by push_cast; norm_num; norm_num at hz1; linarith)
    norm_num at this ⊢
    linarith
  obtain ⟨hw0, hw1⟩ := hpow _ hy0 hy1
  have hh0 : 0 ≤ m.pow3 (toDouble (toDouble (-2 * p) + 2)) / 2 := by positivity
  have hv0 : 0 ≤ toDouble (m.pow3 (toDouble (toDouble (-2 * p) + 2)) / 2) :=
    toDouble_nonneg _ hh0
  have hv1 : toDouble (m.pow3 (toDouble (toDouble (-2 * p) + 2)) / 2) ≤ 1 / 2 ^ 55 := by
    have := toDouble_le_dyadic (m.pow3 (toDouble (toDouble (-2 * p) + 2)) / 2) 1 (-55) (-55)
      (by norm_num)
      (by rw [abs_of_nonneg hh0]; norm_num; norm_num at hw1; linarith) (by norm_num)
      (by push_cast; norm_num; norm_num at hw1; linarith)
    norm_num at this ⊢
    linarith
  unfold easeInOutCubic64
  rw [if_neg hhalf]
  generalize toDouble (m.pow3 (toDouble (toDouble (-2 * p) + 2)) / 2) = v at hv0 hv1 ⊢
  have hv2 : v ≤ 1 / 36028797018963968 := by
    norm_num at hv1
    exact hv1
  rcases eq_or_lt_of_le hv0 with h | h
  · rw [← h, sub_zero]
    exact toDouble_one
  · rw [toDouble_of_near_pos _ (-1) (2 ^ 53) (by norm_num)
      (by norm_num; linarith) (by norm_num; linarith)
      (by norm_num; linarith) (by norm_num; linarith)]
    norm_num

theorem pow3_straight_accurate (y : ℚ) (h0 : 0 ≤ y) (h1 : y ≤ 1 / 2 ^ 18) :
    0 ≤ Math64.straight.pow3 y ∧ Math64.straight.pow3 y ≤ 1 / 2 ^ 54 := by
  have hc0 : 0 ≤ y ^ 3 := by positivity
  have hc1 : y ^ 3 ≤ 1 / 2 ^ 54 := by
    have := pow_le_pow_left₀ h0 h1 3
    norm_num at this ⊢
    exact this
  refine ⟨toDouble_nonneg _ hc0, ?_⟩
  have := toDouble_le_dyadic (y ^ 3) 1 (-54) (-54) (by norm_num)
    (by rw [abs_of_nonneg hc0]; norm_num; norm_num at hc1; linarith) (by norm_num)
    (by push_cast; norm_num; norm_num at hc1; linarith)
  show toDouble (y ^ 3) ≤ 1 / 2 ^ 54
  norm_num at this ⊢
  linarith
theorem tick_track (m : Math64) (s : SimState) (now rnd l p : ℚ) (hr : s.running = true)
    (hl : s.lastTick = l) (hp : s.drift.t = p) :
    (s.apply64 m (SimCmd.tick now rnd)).running = true ∧
    (s.apply64 m (SimCmd.tick now rnd)).lastTick = now ∧
    (s.apply64 m (SimCmd.tick now rnd)).drift.t =
      min 1 (toDouble (p + toDouble (tickDt64 now l / 3))) := by
  simp only [SimState.apply64, hr, if_true, loop64]
  rw [hl, hp]
  exact ⟨trivial, trivial, rfl⟩

theorem elapsedDt64_tick (m : Math64) (s : SimState) (now rnd l : ℚ) (cs : List SimCmd)
    (hr : s.running = true) (hl : s.lastTick = l) :
    elapsedDt64 m s (SimCmd.tick now rnd :: cs) =
      tickDt64 now l + elapsedDt64 m (s.apply64 m (SimCmd.tick now rnd)) cs := by
  simp only [elapsedDt64, hr, if_true, hl]

theorem tickCount64_tick (m : Math64) (s : SimState) (now rnd : ℚ) (cs : List SimCmd)
    (hr : s.running = true) :
    tickCount64 m s (SimCmd.tick now rnd :: cs) =
      1 + tickCount64 m (s.apply64 m (SimCmd.tick now rnd)) cs := by
  simp only [tickCount64, hr, if_true]

/-- Four ticks, 1 s, 1 s, 0.5 s and 0.5 s apart, after a drift resample: their
`dt` values total 3 s and the progress ends one rounding short of 1. -/
theorem four_tick_ride :
    elapsedDt64 Math64.straight ((SimState.initial 18 0).apply64 Math64.straight
        (SimCmd.randomizeDrift (3 / 4)))
      [SimCmd.tick 1000 (1 / 2), SimCmd.tick 2000 (1 / 2), SimCmd.tick 2500 (1 / 2),
      SimCmd.tick 3000 (1 / 2)] = 3 ∧
    tickCount64 Math64.straight ((SimState.initial 18 0).apply64 Math64.straight
        (SimCmd.randomizeDrift (3 / 4)))
      [SimCmd.tick 1000 (1 / 2), SimCmd.tick 2000 (1 / 2), SimCmd.tick 2500 (1 / 2),
      SimCmd.tick 3000 (1 / 2)] = 4 ∧
    (((SimState.initial 18 0).apply64 Math64.straight (SimCmd.randomizeDrift (3 / 4))).run64
        Math64.straight
      [SimCmd.tick 1000 (1 / 2), SimCmd.tick 2000 (1 / 2), SimCmd.tick 2500 (1 / 2),
      SimCmd.tick 3000 (1 / 2)]).drift.t = 1 - 1 / 2 ^ 53 := by
  have f1000 : toDouble (1000) = 1000 := by
    rw [toDouble_of_near_pos (1000) (9) (8796093022208000) (by norm_num) (by norm_num)
      (by norm_num) (by norm_num) (by norm_num)]
    norm_num
  have f500 : toDouble (500) = 500 := by
    rw [toDouble_of_near_pos (500) (8) (8796093022208000) (by norm_num) (by norm_num)
      (by norm_num) (by norm_num) (by norm_num)]
    norm_num
  have fhalf : toDouble (1 / 2) = 1 / 2 := by
    rw [toDouble_of_near_pos (1 / 2) (-1) (4503599627370496) (by norm_num) (by norm_num)
      (by norm_num) (by norm_num) (by norm_num)]
    norm_num
  have fa1 : toDouble (1 / 3) = 6004799503160661 / 18014398509481984 := by
    rw [toDouble_of_near_pos (1 / 3) (-2) (6004799503160661) (by norm_num) (by norm_num)
      (by norm_num) (by norm_num) (by norm_num)]
    norm_num
  have fa2 : toDouble (1 / 6) = 6004799503160661 / 36028797018963968 := by
    rw [toDouble_of_near_pos (1 / 6) (-3) (6004799503160661) (by norm_num) (by norm_num)
      (by norm_num) (by norm_num) (by norm_num)]
    norm_num
  have fp1 : toDouble (6004799503160661 / 18014398509481984) = 6004799503160661 / 18014398509481984
      := by
    rw [toDouble_of_near_pos (6004799503160661 / 18014398509481984) (-2) (6004799503160661) (by
        norm_num) (by norm_num)
      (by norm_num) (by norm_num) (by norm_num)]
    norm_num
  have fp2 : toDouble (6004799503160661 / 9007199254740992) = 6004799503160661 / 9007199254740992
      := by
    rw [toDouble_of_near_pos (6004799503160661 / 9007199254740992) (-1) (6004799503160661) (by
        norm_num) (by norm_num)
      (by norm_num) (by norm_num) (by norm_num)]
    norm_num
  have fp3 : toDouble (30023997515803305 / 36028797018963968) = 3752999689475413 / 4503599627370496
      := by
    rw [toDouble_of_near_pos (30023997515803305 / 36028797018963968) (-1) (7505999378950826) (by
        norm_num) (by norm_num)
      (by norm_num) (by norm_num) (by norm_num)]
    norm_num
  have fp4 : toDouble (36028797018963965 / 36028797018963968) = 9007199254740991 / 9007199254740992
      := by
    rw [toDouble_of_near_pos (36028797018963965 / 36028797018963968) (-1) (9007199254740991) (by
        norm_num) (by norm_num)
      (by norm_num) (by norm_num) (by norm_num)]
    norm_num
  have t0 : ((SimState.initial 18 0).apply64 Math64.straight (SimCmd.randomizeDrift (3 /
      4))).running = true ∧
      ((SimState.initial 18 0).apply64 Math64.straight (SimCmd.randomizeDrift (3 / 4))).lastTick =
          0 ∧
      ((SimState.initial 18 0).apply64 Math64.straight (SimCmd.randomizeDrift (3 / 4))).drift.t = 0
          := ⟨rfl, rfl, rfl⟩
  have d1 : tickDt64 1000 0 = 1 := by
    norm_num [tickDt64, toDouble_one, f1000, f500, fhalf]
  have t1 := tick_track Math64.straight _ 1000 (1 / 2) _ _ t0.1 t0.2.1 t0.2.2
  have c1 := elapsedDt64_tick Math64.straight _ 1000 (1 / 2) _
    [SimCmd.tick 2000 (1 / 2), SimCmd.tick 2500 (1 / 2), SimCmd.tick 3000 (1 / 2)] t0.1 t0.2.1
  have n1 := tickCount64_tick Math64.straight _ 1000 (1 / 2)
    [SimCmd.tick 2000 (1 / 2), SimCmd.tick 2500 (1 / 2), SimCmd.tick 3000 (1 / 2)] t0.1
  rw [d1] at t1 c1
  have e1 : min 1 (toDouble (0 + toDouble (1 / 3))) = 6004799503160661 / 18014398509481984 := by
    norm_num [toDouble_zero, f1000, f500, fhalf, fa1, fa2, fp1, fp2, fp3, fp4]
  rw [e1] at t1
  have d2 : tickDt64 2000 1000 = 1 := by
    norm_num [tickDt64, toDouble_one, f1000, f500, fhalf]
  have t2 := tick_track Math64.straight _ 2000 (1 / 2) _ _ t1.1 t1.2.1 t1.2.2
  have c2 := elapsedDt64_tick Math64.straight _ 2000 (1 / 2) _
    [SimCmd.tick 2500 (1 / 2), SimCmd.tick 3000 (1 / 2)] t1.1 t1.2.1
  have n2 := tickCount64_tick Math64.straight _ 2000 (1 / 2)
    [SimCmd.tick 2500 (1 / 2), SimCmd.tick 3000 (1 / 2)] t1.1
  rw [d2] at t2 c2
  have e2 : min 1 (toDouble (6004799503160661 / 18014398509481984 + toDouble (1 / 3))) =
      6004799503160661 / 9007199254740992 := by
    norm_num [toDouble_zero, f1000, f500, fhalf, fa1, fa2, fp1, fp2, fp3, fp4]
  rw [e2] at t2
  have d3 : tickDt64 2500 2000 = 1 / 2 := by
    norm_num [tickDt64, toDouble_one, f1000, f500, fhalf]
  have t3 := tick_track Math64.straight _ 2500 (1 / 2) _ _ t2.1 t2.2.1 t2.2.2
  have c3 := elapsedDt64_tick Math64.straight _ 2500 (1 / 2) _
    [SimCmd.tick 3000 (1 / 2)] t2.1 t2.2.1
  have n3 := tickCount64_tick Math64.straight _ 2500 (1 / 2)
    [SimCmd.tick 3000 (1 / 2)] t2.1
  rw [d3] at t3 c3
  have e3 : min 1 (toDouble (6004799503160661 / 9007199254740992 + toDouble (1 / 2 / 3))) =
      3752999689475413 / 4503599627370496 := by
    norm_num [toDouble_zero, f1000, f500, fhalf, fa1, fa2, fp1, fp2, fp3, fp4]
  rw [e3] at t3
  have d4 : tickDt64 3000 2500 = 1 / 2 := by
    norm_num [tickDt64, toDouble_one, f1000, f500, fhalf]
  have t4 := tick_track Math64.straight _ 3000 (1 / 2) _ _ t3.1 t3.2.1 t3.2.2
  have c4 := elapsedDt64_tick Math64.straight _ 3000 (1 / 2) _
    [] t3.1 t3.2.1
  have n4 := tickCount64_tick Math64.straight _ 3000 (1 / 2)
    [] t3.1
  rw [d4] at t4 c4
  have e4 : min 1 (toDouble (3752999689475413 / 4503599627370496 + toDouble (1 / 2 / 3))) =
      9007199254740991 / 9007199254740992 := by
    norm_num [toDouble_zero, f1000, f500, fhalf, fa1, fa2, fp1, fp2, fp3, fp4]
  rw [e4] at t4
  refine ⟨?_, ?_, ?_⟩
  · rw [c1, c2, c3, c4]
    norm_num [elapsedDt64]
  · rw [n1, n2, n3, n4]
    rfl
  · rw [show (1 : ℚ) - 1 / 2 ^ 53 = 9007199254740991 / 9007199254740992 by norm_num]
    exact t4.2.2
/-- C24, the claim as stated fails on doubles: after a drift resample, four
ticks whose `dt` values are 1, 1, 0.5 and 0.5 s total exactly 3 s, and the
progress is `1 - 2 ^ (-53)` (0.9999999999999999), not 1. -/
theorem progress_short_of_one :
    3 ≤ elapsedDt64 Math64.straight
      ((SimState.initial 18 0).apply64 Math64.straight (SimCmd.randomizeDrift (3 / 4)))
      [SimCmd.tick 1000 (1 / 2), SimCmd.tick 2000 (1 / 2), SimCmd.tick 2500 (1 / 2),
        SimCmd.tick 3000 (1 / 2)] ∧
    (((SimState.initial 18 0).apply64 Math64.straight (SimCmd.randomizeDrift (3 / 4))).run64
      Math64.straight [SimCmd.tick 1000 (1 / 2), SimCmd.tick 2000 (1 / 2),
        SimCmd.tick 2500 (1 / 2), SimCmd.tick 3000 (1 / 2)]).drift.t = 1 - 1 / 2 ^ 53 ∧
    (((SimState.initial 18 0).apply64 Math64.straight (SimCmd.randomizeDrift (3 / 4))).run64
      Math64.straight [SimCmd.tick 1000 (1 / 2), SimCmd.tick 2000 (1 / 2),
        SimCmd.tick 2500 (1 / 2), SimCmd.tick 3000 (1 / 2)]).drift.t ≠ 1 := by
  obtain ⟨h1, _, h3⟩ := four_tick_ride
  refine ⟨le_of_eq h1.symm, h3, ?_⟩
  rw [h3]
  norm_num

/-- C24, as the doubles have it: each tick sets the ease progress to
`min 1 (progress + dt / 3)` with the division and the sum rounded, and keeps the
drift target; with a clock that never runs backwards the progress stays in
`[0, 1]`, within `2 ^ (-52)` per tick of the exact `min 1 (progress + total dt / 3)`;
so once the `n` ticks since a resample (which sets it to 0) total at least 3 s
it is at least `1 - n * 2 ^ (-52)`, and for `n ≤ 2 ^ 33` the ease of it is
exactly 1 and the drift rate `target * ease(progress)` is the target. -/
theorem ease_progress_rounded (m : Math64) (s : SimState) (t : ℚ) (cmds : List SimCmd)
    (ht : s.lastTick ≤ t) (hclock : ClockMonotone t cmds) (hnr : NoDriftResample cmds)
    (h0 : 0 ≤ s.drift.t) (h1 : s.drift.t ≤ 1)
    (htarget : toDouble s.drift.target = s.drift.target)
    (hpow : ∀ y : ℚ, 0 ≤ y → y ≤ 1 / 2 ^ 18 → 0 ≤ m.pow3 y ∧ m.pow3 y ≤ 1 / 2 ^ 54) :
    (∀ now rnd : ℚ,
      (loop64 m now rnd s).drift.t =
        min 1 (toDouble (s.drift.t + toDouble (tickDt64 now s.lastTick / 3))) ∧
      (loop64 m now rnd s).drift.target = s.drift.target ∧
      (s.lastTick ≤ now →
        0 ≤ (loop64 m now rnd s).drift.t ∧ (loop64 m now rnd s).drift.t ≤ 1 ∧
        |(loop64 m now rnd s).drift.t - min 1 (s.drift.t + tickDt64 now s.lastTick / 3)| ≤
          1 / 2 ^ 52)) ∧
    (∀ r : ℚ, (s.apply64 m (SimCmd.randomizeDrift r)).drift.t = 0 ∧
      toDouble (s.apply64 m (SimCmd.randomizeDrift r)).drift.target =
        (s.apply64 m (SimCmd.randomizeDrift r)).drift.target) ∧
    (0 ≤ (s.run64 m cmds).drift.t ∧ (s.run64 m cmds).drift.t ≤ 1) ∧
    |(s.run64 m cmds).drift.t - min 1 (s.drift.t + elapsedDt64 m s cmds / 3)| ≤
      (tickCount64 m s cmds : ℚ) * (1 / 2 ^ 52) ∧
    (3 ≤ elapsedDt64 m s cmds →
      1 - (tickCount64 m s cmds : ℚ) * (1 / 2 ^ 52) ≤ (s.run64 m cmds).drift.t ∧
      (tickCount64 m s cmds ≤ 2 ^ 33 →
        easeInOutCubic64 m (s.run64 m cmds).drift.t = 1 ∧
        toDouble ((s.run64 m cmds).drift.target *
          easeInOutCubic64 m (s.run64 m cmds).drift.t) = s.drift.target)) ∧
    (easeInOutCubic64 m 1 = 1 ∧ ∀ u : ℚ, easeInOutCubic64 m u =
      if u < 1 / 2 then toDouble (toDouble (toDouble (4 * u) * u) * u)
      else toDouble (1 - toDouble (m.pow3 (toDouble (toDouble (-2 * u) + 2)) / 2))) := by
  obtain ⟨e0, e1, e2, e3, e4⟩ := run64_progress m cmds s t ht hclock hnr h0 h1
  refine ⟨fun now rnd => ⟨rfl, rfl, fun hn => ?_⟩, fun r => ⟨rfl, toDouble_idem _⟩, ⟨e1, e2⟩, e3,
    fun h3 => ?_, easeInOutCubic64_near_one m hpow 1 (by norm_num) (le_refl _), fun u => rfl⟩
  · obtain ⟨a, b⟩ := progress_step_error s.drift.t _ h0 h1 (tickDt64_nonneg now _ hn)
      (tickDt64_le_one now s.lastTick)
    exact ⟨a, min_le_left _ _, b⟩
  · have hmin : min 1 (s.drift.t + elapsedDt64 m s cmds / 3) = 1 :=
      min_eq_left (by linarith)
    rw [hmin] at e3
    have hlow : 1 - (tickCount64 m s cmds : ℚ) * (1 / 2 ^ 52) ≤ (s.run64 m cmds).drift.t := by
      have := (abs_le.mp e3).1
      linarith
    refine ⟨hlow, fun hn => ?_⟩
    have hcount : (tickCount64 m s cmds : ℚ) ≤ 2 ^ 33 := by exact_mod_cast hn
    have hease : easeInOutCubic64 m (s.run64 m cmds).drift.t = 1 := by
      apply easeInOutCubic64_near_one m hpow _ _ e2
      have : (tickCount64 m s cmds : ℚ) * (1 / 2 ^ 52) ≤ 2 ^ 33 * (1 / 2 ^ 52) :=
        mul_le_mul_of_nonneg_right hcount (by norm_num)
      have h19 : (2 : ℚ) ^ 33 * (1 / 2 ^ 52) = 1 / 2 ^ 19 := by norm_num
      linarith
    refine ⟨hease, ?_⟩
    rw [hease, mul_one, e4, htarget]

theorem ease_progress_rounded_witness :
    ClockMonotone 0 [SimCmd.tick 1000 (1 / 2), SimCmd.tick 2000 (1 / 2),
      SimCmd.tick 2500 (1 / 2), SimCmd.tick 3000 (1 / 2)] ∧
    3 ≤ elapsedDt64 Math64.straight
      ((SimState.initial 18 0).apply64 Math64.straight (SimCmd.randomizeDrift (3 / 4)))
      [SimCmd.tick 1000 (1 / 2), SimCmd.tick 2000 (1 / 2), SimCmd.tick 2500 (1 / 2),
        SimCmd.tick 3000 (1 / 2)] ∧
    easeInOutCubic64 Math64.straight
      (((SimState.initial 18 0).apply64 Math64.straight (SimCmd.randomizeDrift (3 / 4))).run64
        Math64.straight [SimCmd.tick 1000 (1 / 2), SimCmd.tick 2000 (1 / 2),
          SimCmd.tick 2500 (1 / 2), SimCmd.tick 3000 (1 / 2)]).drift.t = 1 ∧
    toDouble
      ((((SimState.initial 18 0).apply64 Math64.straight (SimCmd.randomizeDrift (3 / 4))).run64
        Math64.straight [SimCmd.tick 1000 (1 / 2), SimCmd.tick 2000 (1 / 2),
          SimCmd.tick 2500 (1 / 2), SimCmd.tick 3000 (1 / 2)]).drift.target *
      easeInOutCubic64 Math64.straight
        (((SimState.initial 18 0).apply64 Math64.straight (SimCmd.randomizeDrift (3 / 4))).run64
          Math64.straight [SimCmd.tick 1000 (1 / 2), SimCmd.tick 2000 (1 / 2),
            SimCmd.tick 2500 (1 / 2), SimCmd.tick 3000 (1 / 2)]).drift.t) =
      ((SimState.initial 18 0).apply64 Math64.straight
        (SimCmd.randomizeDrift (3 / 4))).drift.target :=
  have hc : ClockMonotone 0 [SimCmd.tick 1000 (1 / 2), SimCmd.tick 2000 (1 / 2),
      SimCmd.tick 2500 (1 / 2), SimCmd.tick 3000 (1 / 2)] := by
    norm_num [ClockMonotone, SimCmd.clockReading]
  have h3 : 3 ≤ elapsedDt64 Math64.straight
      ((SimState.initial 18 0).apply64 Math64.straight (SimCmd.randomizeDrift (3 / 4)))
      [SimCmd.tick 1000 (1 / 2), SimCmd.tick 2000 (1 / 2), SimCmd.tick 2500 (1 / 2),
        SimCmd.tick 3000 (1 / 2)] := le_of_eq four_tick_ride.1.symm
  have hn : tickCount64 Math64.straight
      ((SimState.initial 18 0).apply64 Math64.straight (SimCmd.randomizeDrift (3 / 4)))
      [SimCmd.tick 1000 (1 / 2), SimCmd.tick 2000 (1 / 2), SimCmd.tick 2500 (1 / 2),
        SimCmd.tick 3000 (1 / 2)] ≤ 2 ^ 33 := by
    rw [four_tick_ride.2.1]
    norm_num
  have h := ease_progress_rounded Math64.straight
    ((SimState.initial 18 0).apply64 Math64.straight (SimCmd.randomizeDrift (3 / 4))) 0
    [SimCmd.tick 1000 (1 / 2), SimCmd.tick 2000 (1 / 2), SimCmd.tick 2500 (1 / 2),
      SimCmd.tick 3000 (1 / 2)]
    (le_refl _) hc (fun r hm => by simp at hm) (le_refl _) (by norm_num [SimState.apply64])
    (toDouble_idem _) pow3_straight_accurate
  ⟨hc, h3, ((h.2.2.2.2.1 h3).2 hn).1, ((h.2.2.2.2.1 h3).2 hn).2⟩
/-! ## Theorems: battery and distance on doubles -/

theorem toDouble_milli : toDouble (1 / 1000) = 1152921504606847 / 1152921504606846976 := by
  rw [toDouble_of_near_pos (1 / 1000) (-10) (4611686018427388) (by norm_num) (by norm_num)
    (by norm_num) (by norm_num) (by norm_num)]
  norm_num

theorem toDouble_hundred : toDouble 100 = 100 :=
  toDouble_of_exact 100 6 (100 * 2 ^ 46) (by norm_num) (by norm_num) (by norm_num)
    (by norm_num)

theorem abs_clamp_sub_clamp_le (u w : ℚ) :
    |max 0 (min 100 u) - max 0 (min 100 w)| ≤ |u - w| := by
  have h1 := le_abs_self (u - w)
  have h2 := neg_abs_le (u - w)
  rw [abs_le]
  rcases le_total 100 u with hu | hu <;> rcases le_total 100 w with hw | hw <;>
    rcases le_total 0 u with hu0 | hu0 <;> rcases le_total 0 w with hw0 | hw0 <;>
    simp only [min_eq_left, min_eq_right, max_eq_left, max_eq_right, hu, hw, hu0, hw0,
      show (0 : ℚ) ≤ 100 by norm_num] <;> constructor <;> linarith

theorem abs_remaining_sub_le (D E : ℚ) : |max 0 (100 - D) - max 0 (100 - E)| ≤ |D - E| := by
  have h1 := le_abs_self (D - E)
  have h2 := neg_abs_le (D - E)
  rw [abs_le]
  rcases le_total 0 (100 - D) with hu | hu <;> rcases le_total 0 (100 - E) with hw | hw <;>
    simp only [max_eq_left, max_eq_right, hu, hw] <;> constructor <;> linarith

theorem clamp_remaining (D e : ℚ) (hD : 0 ≤ D) (he : 0 ≤ e) :
    max 0 (min 100 (max 0 (100 - D) - e)) = max 0 (100 - (D + e)) := by
  rcases le_total 0 (100 - D) with hu | hu
  · rw [max_eq_right hu, min_eq_right (by linarith)]
    congr 1
    ring
  · rw [max_eq_left hu, min_eq_right (by linarith), max_eq_left (by linarith),
      max_eq_left (by linarith)]

/-- The metres of a tick, for a speed in `[0, 360]` km/h and a clock that has
not run backwards: between 0 and 100. -/
theorem tickMetres64_bounds (now : ℚ) (s : SimState) (hn : s.lastTick ≤ now)
    (hv0 : 0 ≤ s.speedKmh) (hv1 : s.speedKmh ≤ 360) :
    0 ≤ tickMetres64 now s ∧ tickMetres64 now s ≤ 100 := by
  have hd0 := tickDt64_nonneg now s.lastTick hn
  have hd1 := tickDt64_le_one now s.lastTick
  have ha0 : 0 ≤ toDouble (s.speedKmh * 1000) := toDouble_nonneg _ (by positivity)
  have ha1 : toDouble (s.speedKmh * 1000) ≤ 360000 := by
    have := toDouble_le_int (s.speedKmh * 1000) 360000
      (by rw [abs_of_nonneg (by positivity)]; norm_num; linarith) (by push_cast; linarith)
    simpa using this
  have hb0 : 0 ≤ toDouble (toDouble (s.speedKmh * 1000) / 3600) :=
    toDouble_nonneg _ (by positivity)
  have hb1 : toDouble (toDouble (s.speedKmh * 1000) / 3600) ≤ 100 := by
    have hq : toDouble (s.speedKmh * 1000) / 3600 ≤ 100 := by
      rw [div_le_iff₀ (by norm_num)]
      linarith
    have := toDouble_le_int (toDouble (s.speedKmh * 1000) / 3600) 100
      (by rw [abs_of_nonneg (by positivity)]; norm_num; linarith) (by push_cast; exact hq)
    simpa using this
  have hc0 : 0 ≤ toDouble (toDouble (s.speedKmh * 1000) / 3600) * tickDt64 now s.lastTick :=
    mul_nonneg hb0 hd0
  have hc1 : toDouble (toDouble (s.speedKmh * 1000) / 3600) * tickDt64 now s.lastTick ≤ 100 := by
    have := mul_le_mul hb1 hd1 hd0 (by norm_num : (0 : ℚ) ≤ 100)
    linarith
  unfold tickMetres64
  refine ⟨toDouble_nonneg _ hc0, ?_⟩
  have := toDouble_le_int _ 100 (by rw [abs_of_nonneg hc0]; norm_num; linarith)
    (by push_cast; exact hc1)
  simpa using this

/-- One battery update on doubles against one distance update: the gap between
the battery level and `max 0 (100 - distance)` grows by at most `2 ^ (-42)`. -/
theorem battery_step_error (b D dist : ℚ) (hb0 : 0 ≤ b) (hb1 : b ≤ 100)
    (hbd : toDouble b = b) (hD0 : 0 ≤ D) (hDd : toDouble D = D) (hm0 : 0 ≤ dist)
    (hm1 : dist ≤ 100) :
    |max 0 (min 100 (toDouble (b - toDouble (dist * toDouble (1 / 1000))))) -
      max 0 (100 - toDouble (D + toDouble (dist / 1000)))| ≤
      |b - max 0 (100 - D)| + 1 / 2 ^ 42 := by
  rw [toDouble_milli]
  -- the drop in points and the increment in kilometres
  have hp0 : 0 ≤ dist * (1152921504606847 / 1152921504606846976) := by positivity
  have hp1 : dist * (1152921504606847 / 1152921504606846976) < 1 / 8 := by linarith
  have hdrop0 : 0 ≤ toDouble (dist * (1152921504606847 / 1152921504606846976)) :=
    toDouble_nonneg _ hp0
  have hdrope : |toDouble (dist * (1152921504606847 / 1152921504606846976)) -
      dist * (1152921504606847 / 1152921504606846976)| ≤ 1 / 2 ^ 57 := by
    have hu : ulp (dist * (1152921504606847 / 1152921504606846976)) ≤
        (2 : ℚ) ^ ((-4 : ℤ) - 52) :=
      ulp_le _ (-4) (by norm_num) (by rw [abs_of_nonneg hp0]; norm_num; linarith)
    calc _ ≤ ulp (dist * (1152921504606847 / 1152921504606846976)) / 2 :=
          abs_toDouble_sub_le _
      _ ≤ (2 : ℚ) ^ ((-4 : ℤ) - 52) / 2 := div_le_div_of_nonneg_right hu (by norm_num)
      _ = 1 / 2 ^ 57 := by norm_num
  have hq0 : 0 ≤ dist / 1000 := by positivity
  have hq1 : dist / 1000 < 1 / 8 := by
    rw [div_lt_iff₀ (by norm_num)]
    linarith
  have hinc0 : 0 ≤ toDouble (dist / 1000) := toDouble_nonneg _ hq0
  have hince : |toDouble (dist / 1000) - dist / 1000| ≤ 1 / 2 ^ 57 := by
    have hu : ulp (dist / 1000) ≤ (2 : ℚ) ^ ((-4 : ℤ) - 52) :=
      ulp_le _ (-4) (by norm_num) (by rw [abs_of_nonneg hq0]; norm_num; linarith)
    calc _ ≤ ulp (dist / 1000) / 2 := abs_toDouble_sub_le _
      _ ≤ (2 : ℚ) ^ ((-4 : ℤ) - 52) / 2 := div_le_div_of_nonneg_right hu (by norm_num)
      _ = 1 / 2 ^ 57 := by norm_num
  generalize toDouble (dist * (1152921504606847 / 1152921504606846976)) = drop at hdrop0 hdrope ⊢
  generalize toDouble (dist / 1000) = inc at hinc0 hince ⊢
  have hdrop2 := abs_le.mp hdrope
  have hinc2 := abs_le.mp hince
  have hdrop1 : drop ≤ 1 := by
    have : (1 : ℚ) / 2 ^ 57 < 1 / 8 := by norm_num
    linarith [hdrop2.2]
  have hinc1 : inc ≤ 1 := by
    have : (1 : ℚ) / 2 ^ 57 < 1 / 8 := by norm_num
    linarith [hinc2.2]
  -- the rounded difference is at most `b`
  have hxb_le : toDouble (b - drop) ≤ b := by
    rcases le_or_lt 0 (b - drop) with h | h
    · have := toDouble_mono (b - drop) b h (by linarith)
      rw [hbd] at this
      exact this
    · exact le_trans (toDouble_nonpos _ h.le) hb0
  have hxbe : |toDouble (b - drop) - (b - drop)| ≤ 1 / 2 ^ 47 := by
    have hu : ulp (b - drop) ≤ (2 : ℚ) ^ ((6 : ℤ) - 52) :=
      ulp_le _ 6 (by norm_num) (by rw [abs_lt]; norm_num; constructor <;> linarith)
    calc _ ≤ ulp (b - drop) / 2 := abs_toDouble_sub_le _
      _ ≤ (2 : ℚ) ^ ((6 : ℤ) - 52) / 2 := div_le_div_of_nonneg_right hu (by norm_num)
      _ = 1 / 2 ^ 47 := by norm_num
  have hD'_ge : D ≤ toDouble (D + inc) := by
    have := toDouble_mono D (D + inc) hD0 (by linarith)
    rw [hDd] at this
    exact this
  rcases le_or_lt D 1023 with hreg | hreg
  · -- the distance is small enough for its rounding to stay below `2 ^ (-43)`
    have hxDe : |toDouble (D + inc) - (D + inc)| ≤ 1 / 2 ^ 43 := by
      have hu : ulp (D + inc) ≤ (2 : ℚ) ^ ((10 : ℤ) - 52) :=
        ulp_le _ 10 (by norm_num) (by rw [abs_of_nonneg (by linarith)]; norm_num; linarith)
      calc _ ≤ ulp (D + inc) / 2 := abs_toDouble_sub_le _
        _ ≤ (2 : ℚ) ^ ((10 : ℤ) - 52) / 2 := div_le_div_of_nonneg_right hu (by norm_num)
        _ = 1 / 2 ^ 43 := by norm_num
    have hexact := clamp_remaining D (dist / 1000) hD0 hq0
    have h1 := abs_clamp_sub_clamp_le (toDouble (b - drop)) (max 0 (100 - D) - dist / 1000)
    have h2 := abs_remaining_sub_le (D + dist / 1000) (toDouble (D + inc))
    rw [hexact] at h1
    have h3 := abs_sub_le (max 0 (min 100 (toDouble (b - drop))))
      (max 0 (100 - (D + dist / 1000))) (max 0 (100 - toDouble (D + inc)))
    have hA : |toDouble (b - drop) - (max 0 (100 - D) - dist / 1000)| ≤
        |b - max 0 (100 - D)| + 1 / 2 ^ 47 + (1 / 2 ^ 57 + 1 / 2 ^ 58) := by
      have hg1 := le_abs_self (b - max 0 (100 - D))
      have hg2 := neg_abs_le (b - max 0 (100 - D))
      have hxb2 := abs_le.mp hxbe
      have hc : dist * (1152921504606847 / 1152921504606846976) - dist / 1000 ≤ 1 / 2 ^ 58 := by
        have : dist * (1152921504606847 / 1152921504606846976) - dist / 1000 =
            dist * (3 / 144115188075855872000) := by ring
        rw [this]
        have : dist * (3 / 144115188075855872000) ≤ 100 * (3 / 144115188075855872000) :=
          mul_le_mul_of_nonneg_right hm1 (by norm_num)
        have h58 : (100 : ℚ) * (3 / 144115188075855872000) ≤ 1 / 2 ^ 58 := by norm_num
        linarith
      have hc0 : 0 ≤ dist * (1152921504606847 / 1152921504606846976) - dist / 1000 := by
        have : dist * (1152921504606847 / 1152921504606846976) - dist / 1000 =
            dist * (3 / 144115188075855872000) := by ring
        rw [this]
        positivity
      rw [abs_le]
      constructor <;> linarith [hdrop2.1, hdrop2.2]
    have hB : |D + dist / 1000 - toDouble (D + inc)| ≤ 1 / 2 ^ 57 + 1 / 2 ^ 43 := by
      have hxD2 := abs_le.mp hxDe
      rw [abs_le]
      constructor <;> linarith [hinc2.1, hinc2.2]
    have hsum : (1 : ℚ) / 2 ^ 47 + (1 / 2 ^ 57 + 1 / 2 ^ 58) + (1 / 2 ^ 57 + 1 / 2 ^ 43) ≤
        1 / 2 ^ 42 := by norm_num
    linarith
  · -- far past 100 km: both sides are 0 or the level can only fall
    have hg : max 0 (100 - D) = 0 := max_eq_left (by linarith)
    have hg' : max 0 (100 - toDouble (D + inc)) = 0 := max_eq_left (by linarith)
    rw [hg, hg', sub_zero, sub_zero, abs_of_nonneg hb0,
      abs_of_nonneg (le_max_left _ _)]
    have : max 0 (min 100 (toDouble (b - drop))) ≤ b :=
      max_le hb0 (le_trans (min_le_right _ _) hxb_le)
    have hpos : (0 : ℚ) ≤ 1 / 2 ^ 42 := by norm_num
    linarith

theorem toDouble_clamp (x : ℚ) :
    toDouble (max 0 (min 100 (toDouble x))) = max 0 (min 100 (toDouble x)) := by
  rcases max_cases 0 (min 100 (toDouble x)) with ⟨h, _⟩ | ⟨h, _⟩
  · rw [h, toDouble_zero]
  · rw [h]
    rcases min_cases 100 (toDouble x) with ⟨h2, _⟩ | ⟨h2, _⟩
    · rw [h2, toDouble_hundred]
    · rw [h2, toDouble_idem]
theorem loop64_battery (m : Math64) (now rnd : ℚ) (s : SimState) :
    (loop64 m now rnd s).batteryLevel =
      max 0 (min 100 (toDouble
        (s.batteryLevel - toDouble (tickMetres64 now s * toDouble (1 / 1000))))) ∧
    (loop64 m now rnd s).distanceByBatteryKm =
      toDouble (s.distanceByBatteryKm + toDouble (tickMetres64 now s / 1000)) ∧
    (loop64 m now rnd s).speedKmh = s.speedKmh :=
  ⟨rfl, rfl, rfl⟩

theorem apply64_battery (m : Math64) (s : SimState) (c : SimCmd) (t : ℚ)
    (ht : s.lastTick ≤ t) (hc : ∀ u, c.clockReading = some u → t ≤ u)
    (hsp : ∀ v, c = SimCmd.setSpeed v → 0 ≤ v ∧ v ≤ 360) (hinv : BatteryInv s) :
    BatteryInv (s.apply64 m c) ∧
    |(s.apply64 m c).batteryLevel - max 0 (100 - (s.apply64 m c).distanceByBatteryKm)| ≤
      |s.batteryLevel - max 0 (100 - s.distanceByBatteryKm)| +
        (tickCount64 m s [c] : ℚ) * (1 / 2 ^ 42) := by
  obtain ⟨⟨hv0, hv1⟩, ⟨hb0, hb1, hbd⟩, ⟨hD0, hDd⟩⟩ := hinv
  have hsame : BatteryInv s ∧
      |s.batteryLevel - max 0 (100 - s.distanceByBatteryKm)| ≤
        |s.batteryLevel - max 0 (100 - s.distanceByBatteryKm)| +
          ((0 : ℕ) : ℚ) * (1 / 2 ^ 42) := by
    refine ⟨⟨⟨hv0, hv1⟩, ⟨hb0, hb1, hbd⟩, ⟨hD0, hDd⟩⟩, ?_⟩
    norm_num
  cases c with
  | tick now rnd =>
    simp only [SimState.apply64, tickCount64, add_zero]
    split_ifs
    · obtain ⟨e1, e2, e3⟩ := loop64_battery m now rnd s
      obtain ⟨hm0, hm1⟩ := tickMetres64_bounds now s (le_trans ht (hc now rfl)) hv0 hv1
      have herr := battery_step_error s.batteryLevel s.distanceByBatteryKm
        (tickMetres64 now s) hb0 hb1 hbd hD0 hDd hm0 hm1
      refine ⟨⟨⟨by rw [e3]; exact hv0, by rw [e3]; exact hv1⟩, ⟨?_, ?_, ?_⟩, ⟨?_, ?_⟩⟩, ?_⟩
      · rw [e1]
        exact le_max_left _ _
      · rw [e1]
        exact max_le (by norm_num) (min_le_left _ _)
      · rw [e1]
        exact toDouble_clamp _
      · rw [e2]
        exact toDouble_nonneg _ (add_nonneg hD0 (toDouble_nonneg _ (by positivity)))
      · rw [e2]
        exact toDouble_idem _
      · rw [e1, e2]
        simpa using herr
    · exact hsame
  | toggleRunning now =>
    simp only [SimState.apply64, tickCount64, add_zero]
    split_ifs <;> exact hsame
  | setTyrePressure n =>
    simp only [SimState.apply64, tickCount64, add_zero]
    split <;> exact hsame
  | setSpeed v =>
    obtain ⟨h1, h2⟩ := hsp v rfl
    simp only [SimState.apply64, tickCount64, add_zero]
    exact ⟨⟨⟨h1, h2⟩, ⟨hb0, hb1, hbd⟩, ⟨hD0, hDd⟩⟩, hsame.2⟩
  | resetBattery =>
    simp only [SimState.apply64, tickCount64, add_zero]
    refine ⟨⟨⟨hv0, hv1⟩, ⟨by norm_num, le_refl _, toDouble_hundred⟩, ⟨le_refl _, toDouble_zero⟩⟩,
        ?_⟩
    have h : |(100 : ℚ) - max 0 (100 - 0)| = 0 := by norm_num
    rw [h]
    have := abs_nonneg (s.batteryLevel - max 0 (100 - s.distanceByBatteryKm))
    norm_num
  | _ =>
    simp only [SimState.apply64, tickCount64, add_zero]
    exact hsame

/-- Along any commands with speeds in `[0, 360]` km/h and a clock that never
runs backwards, the gap between the battery level and `max 0 (100 - distance)`
grows by at most `2 ^ (-42)` per tick; a battery reset closes it. -/
theorem run64_battery (m : Math64) (cmds : List SimCmd) (s : SimState) (t : ℚ)
    (ht : s.lastTick ≤ t) (hclock : ClockMonotone t cmds) (hsp : SpeedsWithin cmds)
    (hinv : BatteryInv s) :
    BatteryInv (s.run64 m cmds) ∧
    |(s.run64 m cmds).batteryLevel - max 0 (100 - (s.run64 m cmds).distanceByBatteryKm)| ≤
      |s.batteryLevel - max 0 (100 - s.distanceByBatteryKm)| +
        (tickCount64 m s cmds : ℚ) * (1 / 2 ^ 42) := by
  induction cmds generalizing s t with
  | nil =>
    refine ⟨hinv, ?_⟩
    simp [SimState.run64, tickCount64]
  | cons c cs ih =>
    obtain ⟨hc, hclock2⟩ := clockMonotone_head t c cs hclock
    obtain ⟨a1, a2⟩ := apply64_battery m s c t ht hc
      (fun v hv => hsp v (by rw [hv]; exact List.mem_cons_self _ _)) hinv
    obtain ⟨b1, b2⟩ := ih (s.apply64 m c) _ (apply64_clock m s c t ht hc) hclock2
      (fun v hm => hsp v (List.mem_cons_of_mem _ hm)) a1
    have hrun : s.run64 m (c :: cs) = (s.apply64 m c).run64 m cs := rfl
    rw [hrun, tickCount64_cons]
    refine ⟨b1, ?_⟩
    push_cast
    linarith
theorem tick_battery_track (m : Math64) (s : SimState) (now rnd l v b D : ℚ)
    (hr : s.running = true) (hl : s.lastTick = l) (hv : s.speedKmh = v)
    (hb : s.batteryLevel = b) (hD : s.distanceByBatteryKm = D) :
    (s.apply64 m (SimCmd.tick now rnd)).running = true ∧
    (s.apply64 m (SimCmd.tick now rnd)).lastTick = now ∧
    (s.apply64 m (SimCmd.tick now rnd)).speedKmh = v ∧
    (s.apply64 m (SimCmd.tick now rnd)).batteryLevel =
      max 0 (min 100 (toDouble (b - toDouble
        (toDouble (toDouble (toDouble (v * 1000) / 3600) * tickDt64 now l) *
          toDouble (1 / 1000))))) ∧
    (s.apply64 m (SimCmd.tick now rnd)).distanceByBatteryKm =
      toDouble (D + toDouble
        (toDouble (toDouble (toDouble (v * 1000) / 3600) * tickDt64 now l) / 1000)) := by
  simp only [SimState.apply64, hr, if_true, loop64]
  rw [hl, hv, hb, hD]
  exact ⟨trivial, trivial, rfl, rfl, rfl⟩

/-- Two ticks one second apart at 18 km/h from the start: 5 m each. -/
theorem two_tick_ride :
    ((SimState.initial 18 0).run64 Math64.straight
      [SimCmd.tick 1000 (1 / 2), SimCmd.tick 2000 (1 / 2)]).batteryLevel =
        439760670645289 / 4398046511104 ∧
    ((SimState.initial 18 0).run64 Math64.straight
      [SimCmd.tick 1000 (1 / 2), SimCmd.tick 2000 (1 / 2)]).distanceByBatteryKm =
        5764607523034235 / 576460752303423488 := by
  have f1000 : toDouble (1000) = 1000 := by
    rw [toDouble_of_near_pos (1000) (9) (8796093022208000) (by norm_num) (by norm_num)
      (by norm_num) (by norm_num) (by norm_num)]
    norm_num
  have f18000 : toDouble (18000) = 18000 := by
    rw [toDouble_of_near_pos (18000) (14) (4947802324992000) (by norm_num) (by norm_num)
      (by norm_num) (by norm_num) (by norm_num)]
    norm_num
  have f5 : toDouble (5) = 5 := by
    rw [toDouble_of_near_pos (5) (2) (5629499534213120) (by norm_num) (by norm_num)
      (by norm_num) (by norm_num) (by norm_num)]
    norm_num
  have fdrop : toDouble (5764607523034235 / 1152921504606846976) = 5764607523034235 /
      1152921504606846976 := by
    rw [toDouble_of_near_pos (5764607523034235 / 1152921504606846976) (-8) (5764607523034235) (by
        norm_num) (by norm_num)
      (by norm_num) (by norm_num) (by norm_num)]
    norm_num
  have finc : toDouble (1 / 200) = 5764607523034235 / 1152921504606846976 := by
    rw [toDouble_of_near_pos (1 / 200) (-8) (5764607523034235) (by norm_num) (by norm_num)
      (by norm_num) (by norm_num) (by norm_num)]
    norm_num
  have fb1 : toDouble (115286385853161663365 / 1152921504606846976) = 879565321755689 /
      8796093022208 := by
    rw [toDouble_of_near_pos (115286385853161663365 / 1152921504606846976) (6) (7036522574045512)
        (by norm_num) (by norm_num)
      (by norm_num) (by norm_num) (by norm_num)]
    norm_num
  have fb2 : toDouble (115280621245638634373 / 1152921504606846976) = 439760670645289 /
      4398046511104 := by
    rw [toDouble_of_near_pos (115280621245638634373 / 1152921504606846976) (6) (7036170730324624)
        (by norm_num) (by norm_num)
      (by norm_num) (by norm_num) (by norm_num)]
    norm_num
  have fD2 : toDouble (5764607523034235 / 576460752303423488) = 5764607523034235 /
      576460752303423488 := by
    rw [toDouble_of_near_pos (5764607523034235 / 576460752303423488) (-7) (5764607523034235) (by
        norm_num) (by norm_num)
      (by norm_num) (by norm_num) (by norm_num)]
    norm_num
  have frem : toDouble (57640310622819314565 / 576460752303423488) = 7036170730324623 /
      70368744177664 := by
    rw [toDouble_of_near_pos (57640310622819314565 / 576460752303423488) (6) (7036170730324623) (by
        norm_num) (by norm_num)
      (by norm_num) (by norm_num) (by norm_num)]
    norm_num
  have t0 : (SimState.initial 18 0).running = true ∧ (SimState.initial 18 0).lastTick = 0 ∧
      (SimState.initial 18 0).speedKmh = 18 ∧ (SimState.initial 18 0).batteryLevel = 100 ∧
      (SimState.initial 18 0).distanceByBatteryKm = 0 := ⟨rfl, rfl, rfl, rfl, rfl⟩
  have d1 : tickDt64 1000 0 = 1 := by
    norm_num [tickDt64, toDouble_one, f1000]
  have d2 : tickDt64 2000 1000 = 1 := by
    norm_num [tickDt64, toDouble_one, f1000]
  have t1 := tick_battery_track Math64.straight _ 1000 (1 / 2) _ _ _ _ t0.1 t0.2.1 t0.2.2.1
    t0.2.2.2.1 t0.2.2.2.2
  rw [d1] at t1
  have eb1 : max 0 (min 100 (toDouble (100 - toDouble
      (toDouble (toDouble (toDouble (18 * 1000) / 3600) * 1) * toDouble (1 / 1000))))) =
      879565321755689 / 8796093022208 := by
    norm_num [toDouble_milli, f1000, f18000, f5, fdrop, finc, fb1, fb2, fD2, frem]
  have eD1 : toDouble (0 + toDouble
      (toDouble (toDouble (toDouble (18 * 1000) / 3600) * 1) / 1000)) =
      5764607523034235 / 1152921504606846976 := by
    norm_num [f1000, f18000, f5, fdrop, finc, fb1, fb2, fD2, frem]
  rw [eb1, eD1] at t1
  have t2 := tick_battery_track Math64.straight _ 2000 (1 / 2) _ _ _ _ t1.1 t1.2.1 t1.2.2.1
    t1.2.2.2.1 t1.2.2.2.2
  rw [d2] at t2
  have eb2 : max 0 (min 100 (toDouble (879565321755689 / 8796093022208 - toDouble
      (toDouble (toDouble (toDouble (18 * 1000) / 3600) * 1) * toDouble (1 / 1000))))) =
      439760670645289 / 4398046511104 := by
    norm_num [toDouble_milli, f1000, f18000, f5, fdrop, finc, fb1, fb2, fD2, frem]
  have eD2 : toDouble (5764607523034235 / 1152921504606846976 + toDouble
      (toDouble (toDouble (toDouble (18 * 1000) / 3600) * 1) / 1000)) =
      5764607523034235 / 576460752303423488 := by
    norm_num [f1000, f18000, f5, fdrop, finc, fb1, fb2, fD2, frem]
  rw [eb2, eD2] at t2
  exact ⟨t2.2.2.2.1, t2.2.2.2.2⟩

theorem toDouble_remaining_two_tick :
    toDouble (100 - 5764607523034235 / 576460752303423488) = 7036170730324623 / 70368744177664 := by
  have frem : toDouble (57640310622819314565 / 576460752303423488) = 7036170730324623 /
      70368744177664 := by
    rw [toDouble_of_near_pos (57640310622819314565 / 576460752303423488) (6) (7036170730324623) (by
        norm_num) (by norm_num)
      (by norm_num) (by norm_num) (by norm_num)]
    norm_num
  norm_num [frem]
/-- C11, the claim as stated fails on doubles: from the start at 18 km/h, two
ticks one second apart cover 5 m each; the battery level is then
99.99000000000001 and the distance 0.01 km, so the level is neither the exact
`100 - distance` nor the double `100 - distance` (99.99). -/
theorem battery_off_distance :
    ((SimState.initial 18 0).run64 Math64.straight
      [SimCmd.tick 1000 (1 / 2), SimCmd.tick 2000 (1 / 2)]).batteryLevel =
        439760670645289 / 4398046511104 ∧
    ((SimState.initial 18 0).run64 Math64.straight
      [SimCmd.tick 1000 (1 / 2), SimCmd.tick 2000 (1 / 2)]).distanceByBatteryKm =
        5764607523034235 / 576460752303423488 ∧
    ((SimState.initial 18 0).run64 Math64.straight
      [SimCmd.tick 1000 (1 / 2), SimCmd.tick 2000 (1 / 2)]).batteryLevel ≠
      max 0 (100 - ((SimState.initial 18 0).run64 Math64.straight
        [SimCmd.tick 1000 (1 / 2), SimCmd.tick 2000 (1 / 2)]).distanceByBatteryKm) ∧
    ((SimState.initial 18 0).run64 Math64.straight
      [SimCmd.tick 1000 (1 / 2), SimCmd.tick 2000 (1 / 2)]).batteryLevel ≠
      max 0 (toDouble (100 - ((SimState.initial 18 0).run64 Math64.straight
        [SimCmd.tick 1000 (1 / 2), SimCmd.tick 2000 (1 / 2)]).distanceByBatteryKm)) := by
  obtain ⟨hb, hd⟩ := two_tick_ride
  refine ⟨hb, hd, ?_, ?_⟩
  · rw [hb, hd]
    norm_num
  · rw [hb, hd, toDouble_remaining_two_tick]
    norm_num

/-- C11, as the doubles have it: a tick that covers `metres` (speed in m/s
times `dt`, the same length that moves the position) lowers the battery level
by `metres * 0.001`, clamped to `[0, 100]`, and raises the distance by
`metres / 1000`, each operation rounded, whatever the speed; `0.001` is a double
within `2 ^ (-63)` of 1/1000.  From the start, with speeds in `[0, 360]` km/h and
a clock that never runs backwards, after `n` ticks the level is within
`n * 2 ^ (-42)` of `max 0 (100 - distance)`, battery resets included; so at
10 km it is within that of 90. -/
theorem battery_follows_distance (m : Math64) (initialSpeedKmh t0 : ℚ) (cmds : List SimCmd)
    (hclock : ClockMonotone t0 cmds) (hv0 : 0 ≤ initialSpeedKmh)
    (hv1 : initialSpeedKmh ≤ 360) (hsp : SpeedsWithin cmds) :
    (∀ (now rnd : ℚ) (s : SimState),
      tickMetres64 now s =
        toDouble (toDouble (toDouble (s.speedKmh * 1000) / 3600) * tickDt64 now s.lastTick) ∧
      (loop64 m now rnd s).batteryLevel =
        max 0 (min 100 (toDouble
          (s.batteryLevel - toDouble (tickMetres64 now s * toDouble (1 / 1000))))) ∧
      (loop64 m now rnd s).distanceByBatteryKm =
        toDouble (s.distanceByBatteryKm + toDouble (tickMetres64 now s / 1000)) ∧
      (loop64 m now rnd s).pos =
        ⟨toDouble (s.pos.x + toDouble
            (m.cos (toDouble (toDouble ((loop64 m now rnd s).headingDeg * pi64) / 180)) *
              tickMetres64 now s)),
          toDouble (s.pos.y + toDouble
            (m.sin (toDouble (toDouble ((loop64 m now rnd s).headingDeg * pi64) / 180)) *
              tickMetres64 now s))⟩) ∧
    (toDouble (1 / 1000) = 1152921504606847 / 1152921504606846976 ∧
      |toDouble (1 / 1000) - 1 / 1000| ≤ 1 / 2 ^ 63) ∧
    (0 ≤ ((SimState.initial initialSpeedKmh t0).run64 m cmds).batteryLevel ∧
      ((SimState.initial initialSpeedKmh t0).run64 m cmds).batteryLevel ≤ 100) ∧
    |((SimState.initial initialSpeedKmh t0).run64 m cmds).batteryLevel -
        max 0 (100 - ((SimState.initial initialSpeedKmh t0).run64 m cmds).distanceByBatteryKm)| ≤
      (tickCount64 m (SimState.initial initialSpeedKmh t0) cmds : ℚ) * (1 / 2 ^ 42) ∧
    (((SimState.initial initialSpeedKmh t0).run64 m cmds).distanceByBatteryKm = 10 →
      |((SimState.initial initialSpeedKmh t0).run64 m cmds).batteryLevel - 90| ≤
        (tickCount64 m (SimState.initial initialSpeedKmh t0) cmds : ℚ) * (1 / 2 ^ 42)) := by
  have hinv : BatteryInv (SimState.initial initialSpeedKmh t0) :=
    ⟨⟨hv0, hv1⟩, ⟨by norm_num [SimState.initial], by norm_num [SimState.initial],
      toDouble_hundred⟩, ⟨le_refl _, toDouble_zero⟩⟩
  obtain ⟨⟨_, ⟨hb0, hb1, _⟩, _⟩, herr⟩ := run64_battery m cmds
    (SimState.initial initialSpeedKmh t0) t0 (le_refl _) hclock hsp hinv
  have hstart : |(SimState.initial initialSpeedKmh t0).batteryLevel -
      max 0 (100 - (SimState.initial initialSpeedKmh t0).distanceByBatteryKm)| = 0 := by
    norm_num [SimState.initial]
  rw [hstart, zero_add] at herr
  refine ⟨fun now rnd s => ⟨rfl, rfl, rfl, rfl⟩, ⟨toDouble_milli, ?_⟩, ⟨hb0, hb1⟩, herr,
    fun h10 => ?_⟩
  · rw [toDouble_milli]
    norm_num [abs_le]
  · rw [h10] at herr
    norm_num at herr
    exact herr

theorem battery_follows_distance_witness :
    ClockMonotone 0 [SimCmd.tick 1000 (1 / 2), SimCmd.setSpeed 25, SimCmd.tick 2000 (1 / 2)] ∧
    SpeedsWithin [SimCmd.tick 1000 (1 / 2), SimCmd.setSpeed 25, SimCmd.tick 2000 (1 / 2)] ∧
    |((SimState.initial 18 0).run64 Math64.straight
        [SimCmd.tick 1000 (1 / 2), SimCmd.setSpeed 25, SimCmd.tick 2000 (1 / 2)]).batteryLevel -
      max 0 (100 - ((SimState.initial 18 0).run64 Math64.straight
        [SimCmd.tick 1000 (1 / 2), SimCmd.setSpeed 25,
          SimCmd.tick 2000 (1 / 2)]).distanceByBatteryKm)| ≤
      (tickCount64 Math64.straight (SimState.initial 18 0)
        [SimCmd.tick 1000 (1 / 2), SimCmd.setSpeed 25, SimCmd.tick 2000 (1 / 2)] : ℚ) *
        (1 / 2 ^ 42) :=
  have hc : ClockMonotone 0
      [SimCmd.tick 1000 (1 / 2), SimCmd.setSpeed 25, SimCmd.tick 2000 (1 / 2)] := by
    norm_num [ClockMonotone, SimCmd.clockReading]
  have hs : SpeedsWithin
      [SimCmd.tick 1000 (1 / 2), SimCmd.setSpeed 25, SimCmd.tick 2000 (1 / 2)] := by
    intro v hv
    simp at hv
    rw [hv]
    norm_num
  ⟨hc, hs, (battery_follows_distance Math64.straight 18 0
    [SimCmd.tick 1000 (1 / 2), SimCmd.setSpeed 25, SimCmd.tick 2000 (1 / 2)] hc (by norm_num)
    (by norm_num) hs).2.2.2.1⟩

end Trackpadal
